import Mathlib

/-!
Resource server: request lifecycle, dependency index, packaging and client fanout.

A shallow embedding of `Code/Applications/ResourceServer/ResourceServer.cpp`.
Containers are kept as lists (a vector is a list in element order, a hash map is an
association list), strings as `String`, heap objects as entries of an arena that
are referred to by index.  Everything the file reads from collaborators that live
outside of it (resource-id validity, path resolution, the compiler registry, the
child process) is taken as a parameter.
-/

namespace EE

/-! ## Containers -/

namespace eastl

/-- Lookup in a hash map (`hash_map::find`), `none` standing for `end()`. -/
def find {K V : Type} [DecidableEq K] : List (K × V) → K → Option V
  | [], _ => none
  | (k, v) :: rest, key => if k = key then some v else find rest key

/-- The map with the value of `key` replaced by `value`, or with the pair added when
the key is not yet present (`hash_map::insert_or_assign`). -/
def insert_or_assign {K V : Type} [DecidableEq K] : List (K × V) → K → V → List (K × V)
  | [], key, value => [(key, value)]
  | (k, v) :: rest, key, value =>
    if k = key then (k, value) :: rest else (k, v) :: insert_or_assign rest key value

/-- In-place mutation of the value stored under `key` through a reference obtained from a
lookup (`iter->second.f()`); a map that does not hold the key is left as it is. -/
def mutate {K V : Type} [DecidableEq K] : List (K × V) → K → (V → V) → List (K × V)
  | [], _, _ => []
  | (k, v) :: rest, key, f =>
    if k = key then (k, f v) :: rest else (k, v) :: mutate rest key f

/-- Removal of the element at position `i` by moving the last element into its place
(`vector::erase_unsorted`). -/
def erase_unsorted {α : Type} (v : List α) (i : Nat) : List α :=
  match v.getLast? with
  | none => v
  | some last => if i < v.length then (v.set i last).dropLast else v

/-- Removal of the first element equal to `x`, by `erase_unsorted`
(`vector::erase_first_unsorted`). -/
def erase_first_unsorted {α : Type} [DecidableEq α] (v : List α) (x : α) : List α :=
  if x ∈ v then erase_unsorted v (v.indexOf x) else v

end eastl

/-- Append `x` unless the vector already holds it. -/
def VectorEmplaceBackUnique {α : Type} [DecidableEq α] (v : List α) (x : α) : List α :=
  if x ∈ v then v else v ++ [x]

/-! ## Identifiers and paths -/

/-- A resource identifier, by its string form (`type:virtual/path`). -/
abbrev ResourceID := String

/-- A virtual path relative to the source-data root. -/
abbrev DataPath := String

/-- An absolute file-system path. -/
abbrev Path := String

/-! ## Compile-dependency index -/

/-- The two maps of the compile-dependency index. -/
structure DependencyIndex where
  m_resourceIDToCompileDependencyMap : List (ResourceID × List Path)
  m_compileDependencyToResourceIDMap : List (Path × List ResourceID)
deriving DecidableEq, Repr

/-- The index of a freshly constructed server. -/
def DependencyIndex.empty : DependencyIndex := ⟨[], []⟩

/-- `ResourceServer::UpdateCompileDependencyTracking`; `GetFileSystemPath` resolves a data
path under the source-data root. -/
def UpdateCompileDependencyTracking (GetFileSystemPath : DataPath → Path)
    (s : DependencyIndex) (resourceID : ResourceID) (compileDependencies : List DataPath) :
    DependencyIndex :=
  -- Remove any previous records
  let byFile :=
    match eastl.find s.m_resourceIDToCompileDependencyMap resourceID with
    | some previous =>
      previous.foldl
        (fun m filePath =>
          match eastl.find m filePath with
          | some _ => eastl.mutate m filePath (fun l => eastl.erase_first_unsorted l resourceID)
          | none => m)
        s.m_compileDependencyToResourceIDMap
    | none => s.m_compileDependencyToResourceIDMap
  -- Add new records
  let byResource := eastl.insert_or_assign s.m_resourceIDToCompileDependencyMap resourceID []
  compileDependencies.foldl
    (fun st resourcePath =>
      let path := GetFileSystemPath resourcePath
      let dependentsMap := eastl.insert_or_assign st.m_compileDependencyToResourceIDMap path []
      { m_compileDependencyToResourceIDMap :=
          eastl.mutate dependentsMap path (fun l => VectorEmplaceBackUnique l resourceID)
        m_resourceIDToCompileDependencyMap :=
          eastl.mutate st.m_resourceIDToCompileDependencyMap resourceID
            (fun l => VectorEmplaceBackUnique l path) })
    { m_resourceIDToCompileDependencyMap := byResource
      m_compileDependencyToResourceIDMap := byFile }

/-- The paths recorded for `r` (`by_resource[r]`), empty when `r` has no record. -/
def DependencyIndex.dependenciesOf (s : DependencyIndex) (r : ResourceID) : List Path :=
  (eastl.find s.m_resourceIDToCompileDependencyMap r).getD []

/-- The resources recorded for `f` (`by_file[f]`), empty when `f` has no record. -/
def DependencyIndex.dependentsOf (s : DependencyIndex) (f : Path) : List ResourceID :=
  (eastl.find s.m_compileDependencyToResourceIDMap f).getD []

/-- The index after a sequence of `UpdateCompileDependencyTracking` calls, starting from the
empty index. -/
def DependencyIndex.afterUpdates (GetFileSystemPath : DataPath → Path)
    (calls : List (ResourceID × List DataPath)) : DependencyIndex :=
  calls.foldl (fun s c => UpdateCompileDependencyTracking GetFileSystemPath s c.1 c.2)
    DependencyIndex.empty

/-- A resolver used in examples: the data path placed under the root `D:/Data/`. -/
def sampleGetFileSystemPath (p : DataPath) : Path := "D:/Data/" ++ p

/-! ## Compilation requests -/

/-- `CompilationRequest::Status`. -/
inductive Status where
  | Pending
  | Compiling
  | SucceededUpToDate
  | Succeeded
  | SucceededWithWarnings
  | Failed
deriving DecidableEq, Repr

/-- `CompilationRequest::Origin`. -/
inductive Origin where
  | External
  | FileWatcher
  | Package
deriving DecidableEq, Repr

/-- One compilation request.  The two time stamps of the record are left out: nothing
below reads them. -/
structure CompilationRequest where
  m_clientID : Nat
  m_origin : Origin
  m_resourceID : ResourceID
  m_sourceFile : Path
  m_destinationFile : Path
  m_compilerArgs : String
  m_status : Status
  m_log : String
  m_extraInfo : String
deriving DecidableEq, Repr

namespace CompilationRequest

/-- Modelled from the spec: `CompilationRequest::HasSucceeded` is declared in a header that
is not among the sources; the spec gives "`has_succeeded()` iff in
`{SucceededUpToDate, Succeeded, SucceededWithWarnings}`". -/
def HasSucceeded (r : CompilationRequest) : Bool :=
  r.m_status = Status.SucceededUpToDate ∨ r.m_status = Status.Succeeded
    ∨ r.m_status = Status.SucceededWithWarnings

/-- Modelled from the spec: `CompilationRequest::IsComplete` is declared in a header that is
not among the sources; the spec gives "a request is complete iff
`status ∉ {Pending, Compiling}`". -/
def IsComplete (r : CompilationRequest) : Bool :=
  ¬ (r.m_status = Status.Pending ∨ r.m_status = Status.Compiling)

/-- Modelled from the spec: `CompilationRequest::IsInternalRequest` is declared in a header
that is not among the sources; the spec gives "`origin ∈ {FileWatcher, Package}`
(internal)". -/
def IsInternalRequest (r : CompilationRequest) : Bool :=
  r.m_origin = Origin.FileWatcher ∨ r.m_origin = Origin.Package

end CompilationRequest

/-! ## The compilation task -/

/-- The integer values of the `CompilationResult` enumerators the task switches on (the
enumeration is declared outside of the sources). -/
structure CompilationResult where
  SuccessUpToDate : Int
  Success : Int
  SuccessWithWarnings : Int
deriving DecidableEq, Repr

/-- What the task reads besides its request: the compiler executable of the server context,
the log delimiter `CompilationLog::s_delimiter`, the `CompilationResult` values and the
request predicate `RequiresForcedRecompiliation` (all declared outside of the sources). -/
structure TaskEnvironment where
  m_compilerExecutablePath : String
  s_delimiter : String
  results : CompilationResult
  RequiresForcedRecompiliation : CompilationRequest → Bool

/-- What the child process does for one task: the results of `subprocess_create` and
`subprocess_join`, the exit code, and the strings the successive `fgets` calls on the
combined output return until end of file. -/
structure ChildProcess where
  createResult : Int
  joinResult : Int
  exitCode : Int
  reads : List String
deriving DecidableEq, Repr

/-- Position of the first character of `s` that is one of `chars`
(`basic_string::find_first_of`), `none` standing for `npos`. -/
def find_first_of (s chars : List Char) : Option Nat :=
  match s with
  | [] => none
  | c :: rest => if c ∈ chars then some 0 else (find_first_of rest chars).map (· + 1)

/-- `basic_string::substr (position, n)`: a position past the end is a range error
(`none`). -/
def substr (s : List Char) (position n : Nat) : Option (List Char) :=
  if position > s.length then none else some ((s.drop position).take n)

/-- The switch on the exit code in `CompilationTask::ExecuteRange`. -/
def statusOfExitCode (results : CompilationResult) (exitCode : Int) : Status :=
  if exitCode = results.SuccessUpToDate then Status.SucceededUpToDate
  else if exitCode = results.Success then Status.Succeeded
  else if exitCode = results.SuccessWithWarnings then Status.SucceededWithWarnings
  else Status.Failed

/-- The command line of the child: `processCommandLineArgs` up to its first null entry. -/
def processCommandLineArgs (env : TaskEnvironment) (r : CompilationRequest) : List String :=
  let flag : Option String := none
  -- Set force compilation flag
  let flag := if env.RequiresForcedRecompiliation r then some "-force" else flag
  -- Set package flag for packing request
  let flag := if r.m_origin = Origin.Package then some "-package" else flag
  [env.m_compilerExecutablePath, "-compile", r.m_compilerArgs] ++ flag.toList

/-- The statements of `CompilationTask::ExecuteRange` that follow the read loop ("Strip the
process preamble and delimiter").  The second component is set
when `substr` is called with a position past the end of the log (the log is then kept as
it was read).  Positions and lengths count characters, each standing for one byte of the
log: the definition follows the code on single-byte (ASCII) output. -/
def stripPreamble (s_delimiter : String) (log : String) : String × Bool :=
  match find_first_of log.data s_delimiter.data with
  | none => (log, false)
  | some _ =>
    let delimiterLength := s_delimiter.length
    match substr log.data (delimiterLength + 1) (log.length - delimiterLength - 1) with
    | some stripped => (String.mk stripped, false)
    | none => (log, true)

/-- The outcome of one execution of a task: the request as the task leaves it, the values
the task assigned to `m_status` in order, the command line handed to `subprocess_create`
when it was called, whether the exit code was mapped and the output read, and whether the
log stripping ran into a range error. -/
structure TaskRun where
  request : CompilationRequest
  statusWrites : List Status
  commandLine : Option (List String)
  outputRead : Bool
  rangeError : Bool

/-- `CompilationTask::ExecuteRange` for the request `r`, with the value of
`m_context.m_isExiting` the task reads and the behaviour of the child it spawns. -/
def CompilationTask.ExecuteRange (env : TaskEnvironment) (m_isExiting : Bool)
    (child : ChildProcess) (r : CompilationRequest) : TaskRun :=
  if ¬ m_isExiting ∧ ¬ r.IsComplete then
    let args := processCommandLineArgs env r
    -- Start compiler process
    let r := { r with m_status := Status.Compiling }
    if child.createResult ≠ 0 then
      { request := { r with m_status := Status.Failed,
                            m_log := "Resource compiler failed to start!" }
        statusWrites := [Status.Compiling, Status.Failed]
        commandLine := some args, outputRead := false, rangeError := false }
    -- Wait for compilation to complete
    else if child.joinResult ≠ 0 then
      { request := { r with m_status := Status.Failed,
                            m_log := "Resource compiler failed to complete!" }
        statusWrites := [Status.Compiling, Status.Failed]
        commandLine := some args, outputRead := false, rangeError := false }
    else
      -- Handle completed compilation
      let status := statusOfExitCode env.results child.exitCode
      let r := { r with m_status := status }
      -- Read error and output of process
      let r :=
        { r with
          m_log := child.reads.foldl (fun log readBuffer => log ++ readBuffer) r.m_log }
      -- Strip the process preamble and delimiter
      let stripped := stripPreamble env.s_delimiter r.m_log
      { request := { r with m_log := stripped.1 }
        statusWrites := [Status.Compiling, status]
        commandLine := some args, outputRead := true, rangeError := stripped.2 }
  else
    { request := r, statusWrites := [], commandLine := none, outputRead := false,
      rangeError := false }

/-! ## Network messages and client buckets -/

/-- `NetworkMessageID`. -/
inductive NetworkMessageID where
  | RequestResource
  | ResourceUpdated
  | ResourceRequestComplete
deriving DecidableEq, Repr

/-- One result tuple of a response: resource id, file path, log. -/
structure ResponseResult where
  m_resourceID : ResourceID
  m_filePath : String
  m_log : String
deriving DecidableEq, Repr

/-- `NetworkResourceResponse`: the payload of one outgoing message. -/
structure NetworkResourceResponse where
  m_results : List ResponseResult
deriving DecidableEq, Repr

/-- An incoming message as `ProcessIncomingMessages` reads it; `m_resourceIDs` is the
`NetworkResourceRequest` payload. -/
structure IncomingMessage where
  messageID : NetworkMessageID
  clientConnectionID : Nat
  m_resourceIDs : List ResourceID
deriving DecidableEq, Repr

/-- An outgoing message handed to `SendNetworkMessage`. -/
structure OutgoingMessage where
  clientConnectionID : Nat
  messageID : NetworkMessageID
  data : NetworkResourceResponse
deriving DecidableEq, Repr

/-- Mutation of the last element of a vector through `back ()`. -/
def eastl.mutateBack {α : Type} (v : List α) (f : α → α) : List α :=
  v.dropLast ++ (v.getLast?.map f).toList

/-- The per-client `Bucket` of `ResourceServer::ProcessCompletedRequests`. -/
structure Bucket where
  m_updateResponses : List NetworkResourceResponse
  m_requestResponses : List NetworkResourceResponse
deriving DecidableEq, Repr

namespace Bucket

/-- The steps `AddUpdateResponse` and `AddRequestResponse` share, on one response vector. -/
def addTo (responses : List NetworkResourceResponse) (ID : ResourceID) (filePath log : String) :
    List NetworkResourceResponse :=
  let responses := if responses.isEmpty then responses ++ [⟨[]⟩] else responses
  let responses :=
    eastl.mutateBack responses (fun r => { m_results := r.m_results ++ [⟨ID, filePath, log⟩] })
  if responses.length = 64 then responses ++ [⟨[]⟩] else responses

/-- `Bucket::AddUpdateResponse`. -/
def AddUpdateResponse (b : Bucket) (ID : ResourceID) (filePath : String) (log : String) :
    Bucket :=
  { b with m_updateResponses := addTo b.m_updateResponses ID filePath log }

/-- `Bucket::AddRequestResponse`. -/
def AddRequestResponse (b : Bucket) (ID : ResourceID) (filePath : String) (log : String) :
    Bucket :=
  { b with m_requestResponses := addTo b.m_requestResponses ID filePath log }

/-- A bucket as `clientBuckets.resize` creates it. -/
def empty : Bucket := ⟨[], []⟩

/-- All result tuples of the bucket's `ResourceUpdated` responses, in order. -/
def updateResults (b : Bucket) : List ResponseResult :=
  (b.m_updateResponses.map (fun r => r.m_results)).flatten

/-- All result tuples of the bucket's `ResourceRequestComplete` responses, in order. -/
def requestResults (b : Bucket) : List ResponseResult :=
  (b.m_requestResponses.map (fun r => r.m_results)).flatten

end Bucket

/-! ## The server -/

/-- `PackagingStage`. -/
inductive PackagingStage where
  | None
  | Preparing
  | Packaging
  | Complete
deriving DecidableEq, Repr

/-- A `CompilationTask` held in `m_activeTasks`: the request it points to (an index of the
request arena) and the completion flag the task system reports for it. -/
structure CompilationTask where
  m_pRequest : Nat
  GetIsComplete : Bool
deriving DecidableEq, Repr

/-- The `PackagingTask` held in `m_pPackagingTask`: its resolved list and the completion
flag the task system reports for it. -/
structure PackagingTask where
  m_runtimeDependencies : List ResourceID
  GetIsComplete : Bool
deriving DecidableEq, Repr

/-- The directories of `ResourceGlobalSettings` the request manager reads. -/
structure ResourceGlobalSettings where
  m_sourceDataDirectoryPath : Path
  m_compiledResourceDirectoryPath : Path
  m_packagedBuildCompiledResourceDirectoryPath : Path
deriving DecidableEq, Repr

/-- The functions `ResourceServer::CreateResourceRequest` calls that are declared outside of
the sources: the `ResourceID` and `DataPath` accessors, the entity-descriptor test, the
descriptor loader (`none` when the file cannot be read, otherwise the descriptor's compile
dependencies) and the value of a default-constructed `CompilationRequest`. -/
structure Collaborators where
  IsValid : ResourceID → Bool
  GetParentResourceFileSystemPath : ResourceID → Path → Path
  GetDataPath : ResourceID → DataPath
  GetFileSystemPath : ResourceID → Path → Path
  DataPathGetFileSystemPath : DataPath → Path → Path
  IsResourceAnEntityDescriptor : ResourceID → Bool
  TryReadFromFile : Path → Option (List DataPath)
  NewCompilationRequest : CompilationRequest

/-- The state of the resource server the request manager works on.  Requests live in
`arena`; `m_requests`, the tasks and `m_packagingRequests` refer to them by index.
`connectedClients` holds the ids of the clients the network server reports as connected and
`sentMessages` the messages handed to `SendNetworkMessage` so far. -/
structure ResourceServer extends DependencyIndex where
  m_pSettings : ResourceGlobalSettings
  m_isExiting : Bool
  arena : List CompilationRequest
  m_requests : List Nat
  m_activeTasks : List CompilationTask
  m_numScheduledTasks : Int
  m_packagingStage : PackagingStage
  m_mapsToBePackaged : List ResourceID
  m_pPackagingTask : Option PackagingTask
  m_packagingRequests : List Nat
  m_cleanupRequested : Bool
  connectedClients : List Nat
  sentMessages : List OutgoingMessage

/-- `ResourceServer::CreateResourceRequest`: the server afterwards and the new request
(its index in the arena). -/
def CreateResourceRequest (c : Collaborators) (s : ResourceServer) (resourceID : ResourceID)
    (clientID : Nat) (origin : Origin) (extraInfo : String) : ResourceServer × Nat :=
  let pRequest := c.NewCompilationRequest
  let pRequest :=
    if c.IsValid resourceID then
      let pRequest :=
        { pRequest with
          m_clientID := clientID
          m_origin := origin
          m_resourceID := resourceID
          m_sourceFile :=
            c.GetParentResourceFileSystemPath resourceID s.m_pSettings.m_sourceDataDirectoryPath
          m_compilerArgs := c.GetDataPath resourceID
          m_status := Status.Pending
          m_extraInfo := extraInfo }
      -- Set the destination path based on request type
      if origin = Origin.Package then
        { pRequest with
          m_destinationFile :=
            c.GetFileSystemPath resourceID
              s.m_pSettings.m_packagedBuildCompiledResourceDirectoryPath }
      else
        { pRequest with
          m_destinationFile :=
            c.GetFileSystemPath resourceID s.m_pSettings.m_compiledResourceDirectoryPath }
    else -- Invalid resource ID
      { pRequest with
        m_log := "Error: Invalid resource ID ( " ++ resourceID ++ " )"
        m_status := Status.Failed }
  -- Enqueue new request
  let p := s.arena.length
  let s :=
    { s with
      arena := s.arena ++ [pRequest]
      m_requests := s.m_requests ++ [p]
      m_activeTasks := s.m_activeTasks ++ [{ m_pRequest := p, GetIsComplete := false }]
      m_numScheduledTasks := s.m_numScheduledTasks + 1 }
  -- Load descriptor to get list of compile dependencies
  let s :=
    if c.IsValid resourceID then
      if ¬ c.IsResourceAnEntityDescriptor resourceID then
        match c.TryReadFromFile pRequest.m_sourceFile with
        | some compileDependencies =>
          { s with
            toDependencyIndex :=
              UpdateCompileDependencyTracking
                (fun d => c.DataPathGetFileSystemPath d s.m_pSettings.m_sourceDataDirectoryPath)
                s.toDependencyIndex resourceID compileDependencies }
        | none => s
      else s
    else s
  (s, p)

/-- The `ProcessIncomingMessages` callback of `ResourceServer::Update`. -/
def ProcessIncomingMessages (c : Collaborators) (s : ResourceServer) (message : IncomingMessage) :
    ResourceServer :=
  if message.messageID = NetworkMessageID.RequestResource then
    message.m_resourceIDs.foldl
      (fun s resourceID =>
        (CreateResourceRequest c s resourceID message.clientConnectionID Origin.External "").1)
      s
  else s

/-- Application of `f` to the element at position `i` (`v[i].f ()`). -/
def eastl.mutateAt {α : Type} (v : List α) (i : Nat) (f : α → α) : List α :=
  match v[i]? with
  | some x => v.set i (f x)
  | none => v

/-- The bucket-filling part of the loop body of `ResourceServer::ProcessCompletedRequests`
for one completed request. -/
def fillBuckets (m_isExiting : Bool) (connectedClients : List Nat)
    (pRequest : CompilationRequest) (clientBuckets : List Bucket) : List Bucket :=
  -- No notifications if exiting
  if ¬ m_isExiting then
    -- Notify all clients
    if pRequest.IsInternalRequest then
      -- No need to notify the client for internal requests resources that are up to date
      if pRequest.m_status ≠ Status.SucceededUpToDate then
        clientBuckets.map (fun clientBucket =>
          if pRequest.HasSucceeded then
            clientBucket.AddUpdateResponse pRequest.m_resourceID pRequest.m_destinationFile ""
          else
            clientBucket.AddUpdateResponse pRequest.m_resourceID "" pRequest.m_log)
      else clientBuckets
    else -- Notify single client
      (List.range connectedClients.length).foldl
        (fun buckets clientIdx =>
          if connectedClients[clientIdx]? = some pRequest.m_clientID then
            if pRequest.HasSucceeded then
              eastl.mutateAt buckets clientIdx (fun b =>
                b.AddRequestResponse pRequest.m_resourceID pRequest.m_destinationFile "")
            else
              eastl.mutateAt buckets clientIdx (fun b =>
                b.AddRequestResponse pRequest.m_resourceID "" pRequest.m_log)
          else buckets)
        clientBuckets
  else clientBuckets

/-- The variables the reap loop of `ProcessCompletedRequests` updates. -/
structure ReapState where
  m_activeTasks : List CompilationTask
  m_numScheduledTasks : Int
  clientBuckets : List Bucket
deriving DecidableEq, Repr

/-- The reap loop of `ProcessCompletedRequests`, from index `n - 1` down to `0`. -/
def reapLoop (m_isExiting : Bool) (connectedClients : List Nat)
    (arena : List CompilationRequest) : Nat → ReapState → ReapState
  | 0, st => st
  | i + 1, st =>
    match st.m_activeTasks[i]? with
    | some pActiveTask =>
      if pActiveTask.GetIsComplete then
        let clientBuckets :=
          match arena[pActiveTask.m_pRequest]? with
          | some pRequest => fillBuckets m_isExiting connectedClients pRequest st.clientBuckets
          | none => st.clientBuckets
        reapLoop m_isExiting connectedClients arena i
          { -- Delete task
            m_activeTasks := eastl.erase_unsorted st.m_activeTasks i
            -- Decrement task counter
            m_numScheduledTasks := st.m_numScheduledTasks - 1
            clientBuckets := clientBuckets }
      else reapLoop m_isExiting connectedClients arena i st
    | none => reapLoop m_isExiting connectedClients arena i st

/-- The messages of one bucket: update notifications first, then completed requests. -/
def bucketMessages (clientID : Nat) (b : Bucket) : List OutgoingMessage :=
  b.m_updateResponses.map (fun response => ⟨clientID, NetworkMessageID.ResourceUpdated, response⟩)
    ++ b.m_requestResponses.map
        (fun response => ⟨clientID, NetworkMessageID.ResourceRequestComplete, response⟩)

/-- `ResourceServer::ProcessCompletedRequests`. -/
def ProcessCompletedRequests (s : ResourceServer) : ResourceServer :=
  -- Create a bucket per connected client
  let clientBuckets := List.replicate s.connectedClients.length Bucket.empty
  -- Fill buckets
  let st :=
    reapLoop s.m_isExiting s.connectedClients s.arena s.m_activeTasks.length
      { m_activeTasks := s.m_activeTasks
        m_numScheduledTasks := s.m_numScheduledTasks
        clientBuckets := clientBuckets }
  -- Send messages per bucket
  let messages :=
    ((List.zip s.connectedClients st.clientBuckets).map
      (fun cb => bucketMessages cb.1 cb.2)).flatten
  { s with
    m_activeTasks := st.m_activeTasks
    m_numScheduledTasks := st.m_numScheduledTasks
    sentMessages := s.sentMessages ++ messages }

/-- One worker-pool step: the task at position `i` of `m_activeTasks` runs its
`ExecuteRange` to the end, with `child` as the behaviour of the process it spawns, and the
task system reports it complete from then on. -/
def executeTask (env : TaskEnvironment) (child : ChildProcess) (s : ResourceServer) (i : Nat) :
    ResourceServer :=
  match s.m_activeTasks[i]? with
  | some pTask =>
    match s.arena[pTask.m_pRequest]? with
    | some pRequest =>
      { s with
        arena :=
          s.arena.set pTask.m_pRequest
            (CompilationTask.ExecuteRange env s.m_isExiting child pRequest).request
        m_activeTasks := s.m_activeTasks.set i { pTask with GetIsComplete := true } }
    | none => s
  | none => s

/-! ## The packaging task -/

/-- A resource type id (the 4-character code of a resource id). -/
abbrev ResourceTypeID := String

/-- What `PackagingTask` reads from its context and from the modules: the exiting flag, the
module resources of `BaseModule`, `EngineModule` and `GameModule`, the type of a resource id,
and the compiler registry, a compiler being given by its `GetInstallDependencies`. -/
structure PackagingContext where
  m_isExiting : Bool
  baseModuleResources : List ResourceID
  engineModuleResources : List ResourceID
  gameModuleResources : List ResourceID
  GetResourceTypeID : ResourceID → ResourceTypeID
  GetCompilerForResourceType : ResourceTypeID → Option (ResourceID → List ResourceID)

/-- `PackagingTask::EnqueueResourceForPackaging` on the vector `m_runtimeDependencies`.
The first argument bounds the depth of the recursion; `none` is returned when the bound is
reached. -/
def EnqueueResourceForPackaging (ctx : PackagingContext) :
    Nat → ResourceID → List ResourceID → Option (List ResourceID)
  | 0, _, _ => none
  | depth + 1, resourceID, m_runtimeDependencies =>
    if ctx.m_isExiting then some m_runtimeDependencies
    else
      match ctx.GetCompilerForResourceType (ctx.GetResourceTypeID resourceID) with
      | some GetInstallDependencies =>
        -- Add resource for packaging
        let m_runtimeDependencies := VectorEmplaceBackUnique m_runtimeDependencies resourceID
        -- Get all runtime install dependencies
        let referencedResources := GetInstallDependencies resourceID
        -- Recursively enqueue all referenced resources
        referencedResources.foldlM
          (fun deps referenceResourceID =>
            EnqueueResourceForPackaging ctx depth referenceResourceID deps)
          m_runtimeDependencies
      | none => some m_runtimeDependencies

/-- `PackagingTask::ExecuteRange`: the value of `m_runtimeDependencies` when the task ends,
`none` when the recursion exceeds the depth bound. -/
def PackagingTask.ExecuteRange (ctx : PackagingContext) (depth : Nat)
    (m_mapsToBePackaged : List ResourceID) : Option (List ResourceID) :=
  let m_runtimeDependencies : List ResourceID :=
    [] ++ ctx.baseModuleResources ++ ctx.engineModuleResources ++ ctx.gameModuleResources
  m_mapsToBePackaged.foldlM
    (fun deps mapID => EnqueueResourceForPackaging ctx depth mapID deps)
    m_runtimeDependencies

/-- Whether the registry has a compiler for the type of `r`. -/
def PackagingContext.hasCompiler (ctx : PackagingContext) (r : ResourceID) : Bool :=
  (ctx.GetCompilerForResourceType (ctx.GetResourceTypeID r)).isSome

/-- The install dependencies of `r` as the registry reports them: those its compiler
returns, none for a resource without a compiler. -/
def PackagingContext.installDependencies (ctx : PackagingContext) (r : ResourceID) :
    List ResourceID :=
  match ctx.GetCompilerForResourceType (ctx.GetResourceTypeID r) with
  | some GetInstallDependencies => GetInstallDependencies r
  | none => []

/-- The module resources in the order the task collects them. -/
def PackagingContext.moduleResources (ctx : PackagingContext) : List ResourceID :=
  ctx.baseModuleResources ++ ctx.engineModuleResources ++ ctx.gameModuleResources

/-- The least fixed point of `roots` under `step`: the ids that belong to every set which
holds the roots and, with an id, everything `step` gives for it. -/
def leastFixedPoint (roots : List ResourceID) (step : ResourceID → List ResourceID) :
    Set ResourceID :=
  { r | ∀ X : Set ResourceID,
      (∀ a ∈ roots, a ∈ X) → (∀ a ∈ X, ∀ b ∈ step a, b ∈ X) → r ∈ X }

/-! ## Sample values used at concrete inputs -/

/-- A task environment for examples: `Success = 0` as in the spec's first scenario, no
forced recompilation, and a delimiter line of the compiler. -/
def sampleTaskEnvironment : TaskEnvironment where
  m_compilerExecutablePath := "ResourceCompiler.exe"
  s_delimiter := "##LOG##"
  results := { SuccessUpToDate := 1, Success := 0, SuccessWithWarnings := 2 }
  RequiresForcedRecompiliation := fun _ => false

/-- A pending external request of client 7 for `mesh:a/b.msh`. -/
def sampleRequest : CompilationRequest where
  m_clientID := 7
  m_origin := Origin.External
  m_resourceID := "mesh:a/b.msh"
  m_sourceFile := "D:/Data/a/b.msh"
  m_destinationFile := "D:/Compiled/a/b.msh"
  m_compilerArgs := "data://a/b.msh"
  m_status := Status.Pending
  m_log := ""
  m_extraInfo := ""

/-- Position of the first occurrence of `delimiter` as a substring of `s`. -/
def firstOccurrence (delimiter : List Char) : List Char → Option Nat
  | [] => if delimiter.isEmpty then some 0 else none
  | c :: rest =>
    if delimiter.isPrefixOf (c :: rest) then some 0
    else (firstOccurrence delimiter rest).map (· + 1)

/-- The log the spec asks for when the delimiter first occurs at position `p` of the
captured output: the output without its first `p + length delimiter + 1` bytes. -/
def strippedAfterDelimiter (delimiter output : String) (p : Nat) : String :=
  String.mk (output.data.drop (p + delimiter.length + 1))

/-- The result tuple the reap loop builds for a request: the two argument lists of the
`AddUpdateResponse` and `AddRequestResponse` calls, by `HasSucceeded`. -/
def responseOf (r : CompilationRequest) : ResponseResult :=
  if r.HasSucceeded then ⟨r.m_resourceID, r.m_destinationFile, ""⟩
  else ⟨r.m_resourceID, "", r.m_log⟩

/-- Collaborators for examples: `:/` is the one invalid resource id, paths are the root
followed by the id, no descriptor can be read, and a default-constructed request has
client id 0, origin `External`, status `Pending` and empty strings. -/
def sampleCollaborators : Collaborators where
  IsValid := fun resourceID => decide (resourceID ≠ ":/")
  GetParentResourceFileSystemPath := fun resourceID root => root ++ resourceID
  GetDataPath := fun resourceID => resourceID
  GetFileSystemPath := fun resourceID root => root ++ resourceID
  DataPathGetFileSystemPath := fun dataPath root => root ++ dataPath
  IsResourceAnEntityDescriptor := fun _ => false
  TryReadFromFile := fun _ => none
  NewCompilationRequest :=
    { m_clientID := 0, m_origin := Origin.External, m_resourceID := "", m_sourceFile := "",
      m_destinationFile := "", m_compilerArgs := "", m_status := Status.Pending, m_log := "",
      m_extraInfo := "" }

/-- A server for examples: nothing requested yet, clients 7 and 9 connected. -/
def sampleServer : ResourceServer where
  m_resourceIDToCompileDependencyMap := []
  m_compileDependencyToResourceIDMap := []
  m_pSettings :=
    { m_sourceDataDirectoryPath := "D:/Data/"
      m_compiledResourceDirectoryPath := "D:/Compiled/"
      m_packagedBuildCompiledResourceDirectoryPath := "D:/Packaged/" }
  m_isExiting := false
  arena := []
  m_requests := []
  m_activeTasks := []
  m_numScheduledTasks := 0
  m_packagingStage := PackagingStage.None
  m_mapsToBePackaged := []
  m_pPackagingTask := none
  m_packagingRequests := []
  m_cleanupRequested := false
  connectedClients := [7, 9]
  sentMessages := []

/-- A packaging context for examples: the engine module reports the material
`mat:engine/default.mat`, whose compiler names the texture `tex:engine/default.tex` as
install dependency; the map `map:world.map` installs `mesh:a.msh` and `snd:a.snd`; the type
of an id is the text before its colon; maps, materials, meshes and textures have a
compiler, sounds have none. -/
def samplePackagingContext : PackagingContext where
  m_isExiting := false
  baseModuleResources := []
  engineModuleResources := ["mat:engine/default.mat"]
  gameModuleResources := []
  GetResourceTypeID := fun resourceID => String.mk (resourceID.data.takeWhile (fun ch => ch ≠ ':'))
  GetCompilerForResourceType := fun typeID =>
    if typeID = "map" then
      some (fun resourceID =>
        if resourceID = "map:world.map" then ["mesh:a.msh", "snd:a.snd"] else [])
    else if typeID = "mat" then
      some (fun resourceID =>
        if resourceID = "mat:engine/default.mat" then ["tex:engine/default.tex"] else [])
    else if typeID = "mesh" ∨ typeID = "tex" then some (fun _ => [])
    else none

/-- The install dependencies of `r` that have a compiler: the ids on which
`EnqueueResourceForPackaging` does more than return when it recurses from `r`. -/
def PackagingContext.compiledInstallDependencies (ctx : PackagingContext) (r : ResourceID) :
    List ResourceID :=
  (ctx.installDependencies r).filter ctx.hasCompiler

/-! ## The steps of `ResourceServer::Update` -/

/-- The value of `IsComplete ()` read through the request pointer `p`. -/
def ResourceServer.IsCompleteAt (s : ResourceServer) (p : Nat) : Bool :=
  match s.arena[p]? with
  | some pRequest => pRequest.IsComplete
  | none => false

/-- The loop of the cleanup step of `ResourceServer::Update`, from index `n - 1` down to
`0`, on the vector `m_requests`. -/
def cleanupLoop (s : ResourceServer) : Nat → List Nat → List Nat
  | 0, m_requests => m_requests
  | i + 1, m_requests =>
    match m_requests[i]? with
    | some p =>
      if s.IsCompleteAt p then cleanupLoop s i (m_requests.eraseIdx i)
      else cleanupLoop s i m_requests
    | none => cleanupLoop s i m_requests

/-- The step "Process cleanup request" of `ResourceServer::Update`. -/
def processCleanupRequest (s : ResourceServer) : ResourceServer :=
  if s.m_cleanupRequested then
    { s with
      m_requests := cleanupLoop s s.m_requests.length s.m_requests
      m_cleanupRequested := false }
  else s

/-- The step "Update Packaging" of `ResourceServer::Update`. -/
def updatePackaging (c : Collaborators) (s : ResourceServer) : ResourceServer :=
  if s.m_packagingStage = PackagingStage.Preparing then
    match s.m_pPackagingTask with
    | some pPackagingTask =>
      if pPackagingTask.GetIsComplete then
        let s :=
          pPackagingTask.m_runtimeDependencies.foldl
            (fun s resourceID =>
              let created := CreateResourceRequest c s resourceID 0 Origin.Package ""
              { created.1 with
                m_packagingRequests := created.1.m_packagingRequests ++ [created.2] })
            s
        { s with m_pPackagingTask := none, m_packagingStage := PackagingStage.Packaging }
      else s
    | none => s
  else if s.m_packagingStage = PackagingStage.Packaging then
    let isComplete := s.m_packagingRequests.all (fun pRequest => s.IsCompleteAt pRequest)
    if isComplete then
      { s with m_packagingRequests := [], m_packagingStage := PackagingStage.Complete }
    else s
  else s

/-- A `FileSystem::Watcher::Event`. -/
structure FileSystemEvent where
  m_path : Path
  IsDirectoryEvent : Bool
deriving DecidableEq, Repr

/-- The functions the file-system watcher step calls that are declared outside of the
sources, besides those of `CreateResourceRequest`: the conversion of a file-system path to a
data path under a root (`none` when the result is not valid), the extension of a data
path (`none` for a null pointer), the 4CC test, the `ResourceID` constructor from a data
path, and whether the type registry has resource info for the type of a resource id. -/
structure WatcherCollaborators extends Collaborators where
  FromFileSystemPath : Path → Path → Option DataPath
  GetExtension : DataPath → Option String
  IsValidResourceFourCC : String → Bool
  ResourceIDFromDataPath : DataPath → ResourceID
  HasResourceInfo : ResourceID → Bool

/-- The body of the event loop of the file-system watcher step, for a file event whose
path converted to the valid data path `resourcePath`. -/
def processFileEvent (c : WatcherCollaborators) (s : ResourceServer) (fsEvent : FileSystemEvent)
    (resourcePath : DataPath) : ResourceServer :=
  -- Check if this is a resource ID, if so then just notify everyone that something has changed
  match c.GetExtension resourcePath with
  | some pExtension =>
    if c.IsValidResourceFourCC pExtension then
      let resourceID := c.ResourceIDFromDataPath resourcePath
      if c.IsValid resourceID then
        if c.HasResourceInfo resourceID then
          (CreateResourceRequest c.toCollaborators s resourceID 0 Origin.FileWatcher
            "External file system change detected!").1
        else -- Check if this is a compile dependency for any previously loaded resources
          match eastl.find s.m_compileDependencyToResourceIDMap fsEvent.m_path with
          | some dependents =>
            dependents.foldl
              (fun s dependentResourceID =>
                (CreateResourceRequest c.toCollaborators s dependentResourceID 0
                  Origin.FileWatcher
                  ("Compile dependency change detected (" ++ fsEvent.m_path ++ ")!")).1)
              s
          | none => s
      else s
    else s
  | none => s

/-- The event loop of the file-system watcher step.  The second component is set when the
loop is left by the `return` statement, which ends `Update`. -/
def processFileSystemEvents (c : WatcherCollaborators) :
    List FileSystemEvent → ResourceServer → ResourceServer × Bool
  | [], s => (s, false)
  | fsEvent :: rest, s =>
    if fsEvent.IsDirectoryEvent then processFileSystemEvents c rest s
    else
      match c.FromFileSystemPath s.m_pSettings.m_sourceDataDirectoryPath fsEvent.m_path with
      | none => (s, true)
      | some resourcePath =>
        processFileSystemEvents c rest (processFileEvent c s fsEvent resourcePath)

/-- What one call of `ResourceServer::Update` receives from outside: the messages the network
server delivers (none when it is not running) and the change events of the file-system
watcher (`none` when it is not watching or reports no update). -/
structure UpdateInput where
  messages : List IncomingMessage
  fileSystemChangeEvents : Option (List FileSystemEvent)

/-- `ResourceServer::Update`, up to the step that drives the data-file resaver. -/
def Update (c : WatcherCollaborators) (s : ResourceServer) (input : UpdateInput) :
    ResourceServer :=
  -- Update network server
  let s :=
    input.messages.foldl (fun s message => ProcessIncomingMessages c.toCollaborators s message) s
  -- Update Packaging
  let s := updatePackaging c.toCollaborators s
  -- Process completed requests
  let s := ProcessCompletedRequests s
  -- Process cleanup request
  let s := processCleanupRequest s
  -- Update File System Watcher
  match input.fileSystemChangeEvents with
  | some events => (processFileSystemEvents c events s).1
  | none => s

/-! ## Packaging control -/

/-- `ResourceServer::CanStartPackaging`. -/
def CanStartPackaging (s : ResourceServer) : Bool :=
  (s.m_packagingStage = PackagingStage.None ∨ s.m_packagingStage = PackagingStage.Complete)
    ∧ ¬ s.m_mapsToBePackaged.isEmpty

/-- `ResourceServer::StartPackaging`: whether its assertion `EE_ASSERT (CanStartPackaging ())`
holds, and the server after the statements that follow the assertion. -/
def StartPackaging (s : ResourceServer) : Bool × ResourceServer :=
  (CanStartPackaging s,
    { s with
      m_pPackagingTask := some { m_runtimeDependencies := [], GetIsComplete := false }
      m_packagingStage := PackagingStage.Preparing })

/-- `ResourceServer::GetPackagingProgress` in exact arithmetic: the `float` computation is
carried out over the rationals without rounding, and `none` stands for the value of the
division by `m_packagingRequests.size ()` when that size is zero (the count `numComplete`
is then zero as well, and the quotient of the two zeros is not a number). -/
def GetPackagingProgress (s : ResourceServer) : Option ℚ :=
  match s.m_packagingStage with
  | PackagingStage.None => some 1
  | PackagingStage.Preparing => some (1 / 10)
  | PackagingStage.Packaging =>
    let numComplete : ℚ :=
      s.m_packagingRequests.foldl
        (fun numComplete pRequest =>
          if s.IsCompleteAt pRequest then numComplete + 1 else numComplete)
        0
    if s.m_packagingRequests.length = 0 then none
    else
      let percentageComplete := numComplete / s.m_packagingRequests.length
      some (5 / 100 + 95 / 100 * percentageComplete)
  | PackagingStage.Complete => some 1

/-! ## The lifecycle graph -/

/-- The transitions of the request lifecycle of the spec: `Pending` to `Compiling`,
`Compiling` to each of the four terminal statuses, and `Pending` to `Failed` for an
invalid id at creation. -/
def Status.Transition (a b : Status) : Prop :=
  (a = Status.Pending ∧ b = Status.Compiling)
  ∨ (a = Status.Compiling
      ∧ (b = Status.SucceededUpToDate ∨ b = Status.Succeeded
          ∨ b = Status.SucceededWithWarnings ∨ b = Status.Failed))
  ∨ (a = Status.Pending ∧ b = Status.Failed)

instance (a b : Status) : Decidable (Status.Transition a b) := by
  unfold Status.Transition
  infer_instance

/-- A server for examples with four requests in the list: a pending, a failed, a compiling
and a succeeded one, and cleanup requested. -/
def sampleCleanupServer : ResourceServer :=
  { sampleServer with
    arena :=
      [ sampleRequest,
        { sampleRequest with m_status := Status.Failed, m_log := "error" },
        { sampleRequest with m_status := Status.Compiling },
        { sampleRequest with m_status := Status.Succeeded } ]
    m_requests := [0, 1, 2, 3]
    m_cleanupRequested := true }

/-- A server for examples in the `Packaging` stage: one tracked request, still pending,
and one map in the packaging list. -/
def samplePackagingServer : ResourceServer :=
  { sampleServer with
    arena := [{ sampleRequest with m_clientID := 0, m_origin := Origin.Package }]
    m_requests := [0]
    m_activeTasks := [{ m_pRequest := 0, GetIsComplete := false }]
    m_numScheduledTasks := 1
    m_packagingStage := PackagingStage.Packaging
    m_mapsToBePackaged := ["map:world.map"]
    m_packagingRequests := [0] }

/-- Every resource id recorded in `by_file` is valid. -/
def DependentsValid (c : Collaborators) (s : DependencyIndex) : Prop :=
  ∀ (f : Path) (d : ResourceID), d ∈ s.dependentsOf f → c.IsValid d = true

/-- Watcher collaborators for examples, on top of `sampleCollaborators`: a file-system path
under the root converts to the rest of the path, the extension is the text after the last
dot, a 4CC is an extension of one to four characters, the resource id of a data path is its
extension, a colon and the path, and the types `map`, `mat`, `mesh` and `tex` have resource
info. -/
def sampleWatcherCollaborators : WatcherCollaborators where
  toCollaborators := sampleCollaborators
  FromFileSystemPath := fun root path =>
    if root.data.isPrefixOf path.data then some (String.mk (path.data.drop root.length))
    else none
  GetExtension := fun dataPath =>
    if '.' ∈ dataPath.data then
      some (String.mk (dataPath.data.reverse.takeWhile (fun ch => ch ≠ '.')).reverse)
    else none
  IsValidResourceFourCC := fun extension => 1 ≤ extension.length ∧ extension.length ≤ 4
  ResourceIDFromDataPath := fun dataPath =>
    String.mk (dataPath.data.reverse.takeWhile (fun ch => ch ≠ '.')).reverse ++ ":" ++ dataPath
  HasResourceInfo := fun resourceID =>
    String.mk (resourceID.data.takeWhile (fun ch => ch ≠ ':')) ∈ ["map", "mat", "mesh", "tex"]

/-- A server for examples in which the material `mat:x.mat` has registered the compile
dependencies `shaders/common.hlsl` and `shaders/common.shader`. -/
def sampleWatcherServer : ResourceServer :=
  { sampleServer with
    m_resourceIDToCompileDependencyMap :=
      [("mat:x.mat", ["D:/Data/shaders/common.hlsl", "D:/Data/shaders/common.shader"])]
    m_compileDependencyToResourceIDMap :=
      [("D:/Data/shaders/common.hlsl", ["mat:x.mat"]),
       ("D:/Data/shaders/common.shader", ["mat:x.mat"])] }

/-! ## Shutdown and the assertion of the reap loop -/

/-- The values of the assertion `EE_ASSERT (pRequest->IsComplete ())` at the head of the reap
loop of `ProcessCompletedRequests`, from index `n - 1` down to `0`: whether it holds for
every task the loop finds complete.  The loop is the one of `reapLoop`. -/
def reapAssertions (s : ResourceServer) : Nat → List CompilationTask → Bool
  | 0, _ => true
  | i + 1, m_activeTasks =>
    match m_activeTasks[i]? with
    | some pActiveTask =>
      if pActiveTask.GetIsComplete then
        s.IsCompleteAt pActiveTask.m_pRequest
          && reapAssertions s i (eastl.erase_unsorted m_activeTasks i)
      else reapAssertions s i m_activeTasks
    | none => reapAssertions s i m_activeTasks

/-- Whether every assertion of the reap loop holds when `ProcessCompletedRequests` runs in
the state `s`. -/
def ProcessCompletedRequestsAsserts (s : ResourceServer) : Bool :=
  reapAssertions s s.m_activeTasks.length s.m_activeTasks

/-- `TaskSystem::WaitForAll`: every scheduled task that has not yet run runs its
`ExecuteRange` to the end; `children i` is the behaviour of the process the task at
position `i` spawns. -/
def WaitForAll (env : TaskEnvironment) (children : Nat → ChildProcess) (s : ResourceServer) :
    ResourceServer :=
  (List.range s.m_activeTasks.length).foldl
    (fun s i =>
      match s.m_activeTasks[i]? with
      | some pTask => if pTask.GetIsComplete then s else executeTask env (children i) s i
      | none => s)
    s

/-- The first part of `ResourceServer::Shutdown`, "Complete all scheduled requests", up to
the call of `ProcessCompletedRequests`: the state in which that call is made. -/
def ShutdownBeforeReap (env : TaskEnvironment) (children : Nat → ChildProcess)
    (s : ResourceServer) : ResourceServer :=
  WaitForAll env children { s with m_isExiting := true }

/-- The first part of `ResourceServer::Shutdown`, "Complete all scheduled requests": the
state in which `EE_ASSERT (m_numScheduledTasks == 0)` is evaluated. -/
def ShutdownCompleteRequests (env : TaskEnvironment) (children : Nat → ChildProcess)
    (s : ResourceServer) : ResourceServer :=
  ProcessCompletedRequests (ShutdownBeforeReap env children s)

/-- A packaging context for examples in which the base module and the engine module both
report `tex:engine/default.tex`; otherwise as `samplePackagingContext`. -/
def sampleSharedModuleContext : PackagingContext :=
  { samplePackagingContext with
    baseModuleResources := ["tex:engine/default.tex"]
    engineModuleResources := ["tex:engine/default.tex", "mat:engine/default.mat"] }

/-- A packaging context for examples with a cycle: the map `map:a.map` installs `map:b.map`
and `map:b.map` installs `map:a.map`; both have a compiler. -/
def sampleCyclicContext : PackagingContext where
  m_isExiting := false
  baseModuleResources := []
  engineModuleResources := []
  gameModuleResources := []
  GetResourceTypeID := fun _ => "map"
  GetCompilerForResourceType := fun _ =>
    some (fun resourceID =>
      if resourceID = "map:a.map" then ["map:b.map"]
      else if resourceID = "map:b.map" then ["map:a.map"] else [])

/-- A server for examples in the `Packaging` stage with two tracked requests, the first
succeeded and already reaped, the second still pending, and cleanup requested. -/
def sampleTrackedServer : ResourceServer :=
  { sampleServer with
    arena :=
      [ { sampleRequest with
          m_clientID := 0, m_origin := Origin.Package, m_status := Status.Succeeded },
        { sampleRequest with m_clientID := 0, m_origin := Origin.Package } ]
    m_requests := [0, 1]
    m_activeTasks := [{ m_pRequest := 1, GetIsComplete := false }]
    m_numScheduledTasks := 1
    m_packagingStage := PackagingStage.Packaging
    m_mapsToBePackaged := ["map:world.map"]
    m_packagingRequests := [0, 1]
    m_cleanupRequested := true }

/-! ## Reachable states -/

/-- The scheduled counter equals the number of active tasks, and every active task points
to a request of the arena. -/
def TasksWellFormed (s : ResourceServer) : Prop :=
  s.m_numScheduledTasks = s.m_activeTasks.length
    ∧ ∀ t ∈ s.m_activeTasks, t.m_pRequest < s.arena.length

/-- The states the server reaches from a state without scheduled tasks through
`CreateResourceRequest`, steps of the worker pool, `ProcessCompletedRequests`, whole calls of
`Update`, and the setting of the exiting flag. -/
inductive Reachable (c : WatcherCollaborators) (env : TaskEnvironment) : ResourceServer → Prop
  | initial (s : ResourceServer) (htasks : s.m_activeTasks = [])
      (hcounter : s.m_numScheduledTasks = 0) : Reachable c env s
  | create (s : ResourceServer) (resourceID : ResourceID) (clientID : Nat) (origin : Origin)
      (extraInfo : String) (h : Reachable c env s) :
      Reachable c env
        (CreateResourceRequest c.toCollaborators s resourceID clientID origin extraInfo).1
  | execute (s : ResourceServer) (child : ChildProcess) (i : Nat) (h : Reachable c env s) :
      Reachable c env (executeTask env child s i)
  | reap (s : ResourceServer) (h : Reachable c env s) :
      Reachable c env (ProcessCompletedRequests s)
  | update (s : ResourceServer) (input : UpdateInput) (h : Reachable c env s) :
      Reachable c env (Update c s input)
  | exiting (s : ResourceServer) (h : Reachable c env s) :
      Reachable c env { s with m_isExiting := true }

/-- A packaging context for examples without cycle: `map:a.map` installs `map:b.map`,
nothing else has install dependencies, and every type has a compiler. -/
def sampleChainContext : PackagingContext where
  m_isExiting := false
  baseModuleResources := []
  engineModuleResources := []
  gameModuleResources := []
  GetResourceTypeID := fun _ => "map"
  GetCompilerForResourceType := fun _ =>
    some (fun resourceID => if resourceID = "map:a.map" then ["map:b.map"] else [])

/-- The relation "`b` is an install dependency of `a`, and `a` has a compiler": the step
the recursion of `EnqueueResourceForPackaging` takes from `a` to `b`. -/
def PackagingContext.Installs (ctx : PackagingContext) (b a : ResourceID) : Prop :=
  ctx.hasCompiler a = true ∧ b ∈ ctx.installDependencies a

/-- A cycle of install dependencies that the recursion of `EnqueueResourceForPackaging`
reaches from a seed: an id `a` that the recursion reaches from a seed, in no step or more,
and reaches again from `a` itself, in one step or more. -/
def PackagingContext.ReachableCycle (ctx : PackagingContext) (seeds : List ResourceID) : Prop :=
  ∃ s ∈ seeds, ∃ a, Relation.ReflTransGen (fun x y => ctx.Installs y x) s a
    ∧ Relation.TransGen (fun x y => ctx.Installs y x) a a

/-! # Theorems -/

/-! ## Dependency index -/

/-- Claim C1 (fails on the code): after `mat:a.mat` and then `mat:b.mat` register the same
dependency file, the file is still in `by_resource[mat:a.mat]` while `mat:a.mat` is no
longer in `by_file` of that file: the second call replaces the file's dependents by an
empty vector before adding itself. -/
theorem UpdateCompileDependencyTracking_shared_dependency_breaks_inverse :
    (DependencyIndex.afterUpdates sampleGetFileSystemPath
        [("mat:a.mat", ["s.hlsl"]), ("mat:b.mat", ["s.hlsl"])]
      = { m_resourceIDToCompileDependencyMap :=
            [("mat:a.mat", ["D:/Data/s.hlsl"]), ("mat:b.mat", ["D:/Data/s.hlsl"])]
          m_compileDependencyToResourceIDMap := [("D:/Data/s.hlsl", ["mat:b.mat"])] })
    ∧ "D:/Data/s.hlsl" ∈
        (DependencyIndex.afterUpdates sampleGetFileSystemPath
          [("mat:a.mat", ["s.hlsl"]), ("mat:b.mat", ["s.hlsl"])]).dependenciesOf "mat:a.mat"
    ∧ "mat:a.mat" ∉
        (DependencyIndex.afterUpdates sampleGetFileSystemPath
          [("mat:a.mat", ["s.hlsl"]), ("mat:b.mat", ["s.hlsl"])]).dependentsOf
            "D:/Data/s.hlsl" := by
  decide

/-! ## Bucket chunking -/

set_option maxRecDepth 100000 in
/-- Claim C4 (fails on the code): 65 results added to an empty bucket, by
`AddUpdateResponse` or by `AddRequestResponse`, all end in one response object, which then
carries 65 tuples: the test `size () == 64` counts response objects, not tuples. -/
theorem Bucket_65_results_share_one_response :
    (((List.replicate 65 "mesh:a/b.msh").foldl
        (fun b ID => b.AddUpdateResponse ID "D:/Compiled/a/b.msh" "") Bucket.empty
      ).m_updateResponses.map (fun r => r.m_results.length) = [65])
    ∧ (((List.replicate 65 "mesh:a/b.msh").foldl
        (fun b ID => b.AddRequestResponse ID "D:/Compiled/a/b.msh" "") Bucket.empty
      ).m_requestResponses.map (fun r => r.m_results.length) = [65]) := by
  decide

/-! ## The compilation task -/

/-- On the normal completion path (not exiting, request not complete, the child spawned and
joined) the request ends with the status the exit code maps to. -/
theorem ExecuteRange_status_normal_completion (env : TaskEnvironment) (child : ChildProcess)
    (r : CompilationRequest) (hr : r.IsComplete = false) (hc : child.createResult = 0)
    (hj : child.joinResult = 0) :
    (CompilationTask.ExecuteRange env false child r).request.m_status
      = statusOfExitCode env.results child.exitCode := by
  simp [CompilationTask.ExecuteRange, hr, hc, hj]

/-- Claim C6: on the normal completion path of the compilation task (server not exiting,
request not yet complete, child spawned and joined), the final status is
`SucceededUpToDate`, `Succeeded` or `SucceededWithWarnings` when the exit code is the
enumerator of that name, and `Failed` for every other exit code.  The three enumerators
are distinct, as the labels of one `switch` are. -/
theorem ExecuteRange_exit_code_mapping (env : TaskEnvironment) (child : ChildProcess)
    (r : CompilationRequest) (hr : r.IsComplete = false) (hc : child.createResult = 0)
    (hj : child.joinResult = 0)
    (h12 : env.results.SuccessUpToDate ≠ env.results.Success)
    (h13 : env.results.SuccessUpToDate ≠ env.results.SuccessWithWarnings)
    (h23 : env.results.Success ≠ env.results.SuccessWithWarnings) :
    (child.exitCode = env.results.SuccessUpToDate →
        (CompilationTask.ExecuteRange env false child r).request.m_status
          = Status.SucceededUpToDate)
    ∧ (child.exitCode = env.results.Success →
        (CompilationTask.ExecuteRange env false child r).request.m_status = Status.Succeeded)
    ∧ (child.exitCode = env.results.SuccessWithWarnings →
        (CompilationTask.ExecuteRange env false child r).request.m_status
          = Status.SucceededWithWarnings)
    ∧ (child.exitCode ≠ env.results.SuccessUpToDate → child.exitCode ≠ env.results.Success →
        child.exitCode ≠ env.results.SuccessWithWarnings →
        (CompilationTask.ExecuteRange env false child r).request.m_status = Status.Failed) := by
  rw [ExecuteRange_status_normal_completion env child r hr hc hj]
  refine ⟨?_, ?_, ?_, ?_⟩
  · intro h
    simp [statusOfExitCode, h]
  · intro h
    simp [statusOfExitCode, h, Ne.symm h12]
  · intro h
    simp [statusOfExitCode, h, Ne.symm h13, Ne.symm h23]
  · intro h1 h2 h3
    simp [statusOfExitCode, h1, h2, h3]

/-- Claim C6 at a concrete input: exit code 0 of the sample environment is `Success`. -/
theorem ExecuteRange_exit_code_mapping_witness :
    (CompilationTask.ExecuteRange sampleTaskEnvironment false ⟨0, 0, 0, []⟩
        sampleRequest).request.m_status = Status.Succeeded :=
  (ExecuteRange_exit_code_mapping sampleTaskEnvironment ⟨0, 0, 0, []⟩ sampleRequest
    (by decide) (by decide) (by decide) (by decide) (by decide) (by decide)).2.1 (by decide)

/-- When some character of the delimiter occurs in the log and the log is at least one byte
longer than the delimiter, the stripping removes the first `length delimiter + 1` bytes of
the log, wherever the character was found. -/
theorem stripPreamble_drops_fixed_length (s_delimiter log : String) (p : Nat)
    (hfound : find_first_of log.data s_delimiter.data = some p)
    (hlen : s_delimiter.length + 1 ≤ log.length) :
    stripPreamble s_delimiter log
      = (String.mk (log.data.drop (s_delimiter.length + 1)), false) := by
  have hlen2 : s_delimiter.length + 1 ≤ log.data.length := hlen
  have hnot : ¬ (s_delimiter.length + 1 > log.data.length) := by omega
  have htake : log.length - s_delimiter.length - 1
      = (log.data.drop (s_delimiter.length + 1)).length := by
    have h1 : log.length = log.data.length := rfl
    rw [List.length_drop, h1]
    omega
  simp only [stripPreamble, hfound, substr, hnot, if_false]
  rw [htake, List.take_length]

/-- Claim C7 (fails on the code): the captured output is a 14-byte preamble, the delimiter
`##LOG##`, a line feed and the payload; the delimiter first occurs at position 14, the log
asked for is `payload`, and the task leaves the output without its first 8 bytes, which
still holds the end of the preamble and the delimiter. -/
theorem ExecuteRange_strip_ignores_delimiter_position :
    firstOccurrence sampleTaskEnvironment.s_delimiter.data
        "preamble text\n##LOG##\npayload".data = some 14
    ∧ strippedAfterDelimiter sampleTaskEnvironment.s_delimiter
        "preamble text\n##LOG##\npayload" 14 = "payload"
    ∧ (CompilationTask.ExecuteRange sampleTaskEnvironment false
        ⟨0, 0, 0, ["preamble text\n", "##LOG##\n", "payload"]⟩ sampleRequest).request.m_log
        = " text\n##LOG##\npayload" := by
  decide

/-! ## Client buckets -/

theorem mutateBack_concat {α : Type} (l : List α) (x : α) (f : α → α) :
    eastl.mutateBack (l ++ [x]) f = l ++ [f x] := by
  simp [eastl.mutateBack]

theorem flatten_results_concat (l : List NetworkResourceResponse) (x : NetworkResourceResponse) :
    ((l ++ [x]).map (fun r => r.m_results)).flatten
      = (l.map (fun r => r.m_results)).flatten ++ x.m_results := by
  simp

/-- The tuples of a response vector after one more result: the former tuples followed by
the new one. -/
theorem addTo_results (responses : List NetworkResourceResponse) (ID : ResourceID)
    (filePath log : String) :
    ((Bucket.addTo responses ID filePath log).map (fun r => r.m_results)).flatten
      = (responses.map (fun r => r.m_results)).flatten ++ [⟨ID, filePath, log⟩] := by
  rcases List.eq_nil_or_concat responses with h | ⟨init, last, h⟩
  · subst h
    simp [Bucket.addTo, eastl.mutateBack]
  · rw [List.concat_eq_append] at h
    subst h
    have hne : (init ++ [last]).isEmpty = false := by
      cases init <;> rfl
    unfold Bucket.addTo
    simp only [hne, Bool.false_eq_true, if_false, mutateBack_concat]
    split
    · rw [flatten_results_concat, flatten_results_concat, flatten_results_concat]
      simp
    · rw [flatten_results_concat, flatten_results_concat]
      simp

theorem AddUpdateResponse_updateResults (b : Bucket) (ID : ResourceID) (filePath log : String) :
    (b.AddUpdateResponse ID filePath log).updateResults
      = b.updateResults ++ [⟨ID, filePath, log⟩] := by
  simp only [Bucket.AddUpdateResponse, Bucket.updateResults]
  exact addTo_results _ _ _ _

theorem AddUpdateResponse_requestResults (b : Bucket) (ID : ResourceID)
    (filePath log : String) :
    (b.AddUpdateResponse ID filePath log).requestResults = b.requestResults := rfl

theorem AddRequestResponse_requestResults (b : Bucket) (ID : ResourceID)
    (filePath log : String) :
    (b.AddRequestResponse ID filePath log).requestResults
      = b.requestResults ++ [⟨ID, filePath, log⟩] := by
  simp only [Bucket.AddRequestResponse, Bucket.requestResults]
  exact addTo_results _ _ _ _

theorem AddRequestResponse_updateResults (b : Bucket) (ID : ResourceID)
    (filePath log : String) :
    (b.AddRequestResponse ID filePath log).updateResults = b.updateResults := rfl

theorem mutateAt_getElem? {α : Type} (v : List α) (i j : Nat) (f : α → α) :
    (eastl.mutateAt v i f)[j]? = if j = i then (v[j]?).map f else v[j]? := by
  unfold eastl.mutateAt
  cases h : v[i]? with
  | none =>
    by_cases hji : j = i
    · subst hji
      simp [h]
    · simp [hji]
  | some x =>
    by_cases hji : j = i
    · subst hji
      have hlt : j < v.length := by
        by_contra hge
        have : v[j]? = none := List.getElem?_eq_none (by omega)
        rw [this] at h
        cases h
      simp [h, List.getElem?_set, hlt]
    · have hij : i ≠ j := fun e => hji e.symm
      simp [hji, List.getElem?_set, hij]

/-- The addressed branch of the reap loop, bucket by bucket. -/
theorem foldl_range_mutateAt (clients : List Nat) (cid : Nat) (f : Bucket → Bucket) (n : Nat)
    (buckets : List Bucket) (j : Nat) :
    ((List.range n).foldl
        (fun bs clientIdx =>
          if clients[clientIdx]? = some cid then eastl.mutateAt bs clientIdx f else bs)
        buckets)[j]?
      = (buckets[j]?).map (fun b => if j < n ∧ clients[j]? = some cid then f b else b) := by
  induction n with
  | zero => simp
  | succ n ih =>
    rw [List.range_succ, List.foldl_append]
    simp only [List.foldl_cons, List.foldl_nil]
    by_cases hc : clients[n]? = some cid
    · rw [if_pos hc, mutateAt_getElem?]
      by_cases hjn : j = n
      · subst hjn
        rw [if_pos rfl, ih]
        cases buckets[j]? with
        | none => rfl
        | some b => simp [hc]
      · rw [if_neg hjn, ih]
        cases buckets[j]? with
        | none => rfl
        | some b =>
          have : (j < n + 1) ↔ (j < n) := by omega
          simp [this]
    · rw [if_neg hc, ih]
      cases buckets[j]? with
      | none => rfl
      | some b =>
        by_cases hjn : j = n
        · subst hjn
          simp [hc]
        · have : (j < n + 1) ↔ (j < n) := by omega
          simp [this]

/-- What `fillBuckets` does to the bucket at position `j`. -/
theorem fillBuckets_getElem? (m_isExiting : Bool) (clients : List Nat) (r : CompilationRequest)
    (buckets : List Bucket) (j : Nat) :
    (fillBuckets m_isExiting clients r buckets)[j]?
      = (buckets[j]?).map (fun b =>
          if m_isExiting then b
          else if r.IsInternalRequest then
            if r.m_status ≠ Status.SucceededUpToDate then
              b.AddUpdateResponse (responseOf r).m_resourceID (responseOf r).m_filePath
                (responseOf r).m_log
            else b
          else if clients[j]? = some r.m_clientID then
            b.AddRequestResponse (responseOf r).m_resourceID (responseOf r).m_filePath
              (responseOf r).m_log
          else b) := by
  unfold fillBuckets
  cases m_isExiting with
  | true => simp
  | false =>
    simp only [Bool.false_eq_true, not_false_eq_true, if_true, if_false]
    cases hint : r.IsInternalRequest with
    | true =>
      simp only [if_true]
      by_cases hs : r.m_status = Status.SucceededUpToDate
      · simp [hs]
      · simp only [ne_eq, hs, not_false_eq_true, if_true, List.getElem?_map]
        cases hsucc : r.HasSucceeded <;> simp [responseOf, hsucc]
    | false =>
      simp only [Bool.false_eq_true, if_false]
      cases hsucc : r.HasSucceeded with
      | true =>
        simp only [if_true]
        rw [foldl_range_mutateAt]
        cases hb : buckets[j]? with
        | none => rfl
        | some b =>
          by_cases hc : clients[j]? = some r.m_clientID
          · have hlt : j < clients.length := by
              by_contra hge
              have : clients[j]? = none := List.getElem?_eq_none (by omega)
              rw [this] at hc
              cases hc
            simp [hc, hlt, responseOf, hsucc]
          · simp [hc]
      | false =>
        simp only [Bool.false_eq_true, if_false]
        rw [foldl_range_mutateAt]
        cases hb : buckets[j]? with
        | none => rfl
        | some b =>
          by_cases hc : clients[j]? = some r.m_clientID
          · have hlt : j < clients.length := by
              by_contra hge
              have : clients[j]? = none := List.getElem?_eq_none (by omega)
              rw [this] at hc
              cases hc
            simp [hc, hlt, responseOf, hsucc]
          · simp [hc]

/-! ## Fanout of one reaped request -/

theorem responseOf_resourceID (r : CompilationRequest) :
    (responseOf r).m_resourceID = r.m_resourceID := by
  unfold responseOf
  split <;> rfl

/-- The reap of the request of client 7 with clients 7 and 9 connected: the bucket of
client 7 holds the one tuple, the bucket of client 9 none. -/
theorem fillBuckets_external_example :
    (fillBuckets false [7, 9] sampleRequest [Bucket.empty, Bucket.empty]).map
        (fun b => (b.requestResults, b.updateResults))
      = [([responseOf sampleRequest], []), ([], [])] := by
  decide

/-- The payload of the tuple built for a request. -/
theorem responseOf_payload (r : CompilationRequest) :
    ((r.m_status = Status.SucceededUpToDate ∨ r.m_status = Status.Succeeded
        ∨ r.m_status = Status.SucceededWithWarnings) →
      (responseOf r).m_filePath = r.m_destinationFile ∧ (responseOf r).m_log = "")
    ∧ (r.m_status = Status.Failed →
      (responseOf r).m_filePath = "" ∧ (responseOf r).m_log = r.m_log) := by
  constructor
  · intro h
    have : r.HasSucceeded = true := by
      simpa [CompilationRequest.HasSucceeded] using h
    simp [responseOf, this]
  · intro h
    have : r.HasSucceeded = false := by
      simp [CompilationRequest.HasSucceeded, h]
    simp [responseOf, this]

/-- Claim C5: whatever the reap loop adds to a client bucket for a request, as `Updated` or
as `RequestComplete` tuple, carries the request's resource id and, when the status is
`SucceededUpToDate`, `Succeeded` or `SucceededWithWarnings`, the destination path and an empty
log, and when the status is `Failed`, an empty file path and the request's log. -/
theorem fillBuckets_payload (m_isExiting : Bool) (clients : List Nat) (r : CompilationRequest)
    (buckets : List Bucket) (j : Nat) (b : Bucket) (hb : buckets[j]? = some b) :
    ∃ b' added addedRequest,
      (fillBuckets m_isExiting clients r buckets)[j]? = some b'
      ∧ b'.updateResults = b.updateResults ++ added
      ∧ b'.requestResults = b.requestResults ++ addedRequest
      ∧ ∀ t ∈ added ++ addedRequest,
          t.m_resourceID = r.m_resourceID
          ∧ ((r.m_status = Status.SucceededUpToDate ∨ r.m_status = Status.Succeeded
                ∨ r.m_status = Status.SucceededWithWarnings) →
              t.m_filePath = r.m_destinationFile ∧ t.m_log = "")
          ∧ (r.m_status = Status.Failed → t.m_filePath = "" ∧ t.m_log = r.m_log) := by
  have hnone : ∃ b' added addedRequest, some b = some b'
      ∧ b'.updateResults = b.updateResults ++ added
      ∧ b'.requestResults = b.requestResults ++ addedRequest
      ∧ ∀ t ∈ added ++ addedRequest,
          t.m_resourceID = r.m_resourceID
          ∧ ((r.m_status = Status.SucceededUpToDate ∨ r.m_status = Status.Succeeded
                ∨ r.m_status = Status.SucceededWithWarnings) →
              t.m_filePath = r.m_destinationFile ∧ t.m_log = "")
          ∧ (r.m_status = Status.Failed → t.m_filePath = "" ∧ t.m_log = r.m_log) :=
    ⟨b, [], [], rfl, by simp, by simp, by simp⟩
  have hone : ∀ t ∈ [responseOf r],
          t.m_resourceID = r.m_resourceID
          ∧ ((r.m_status = Status.SucceededUpToDate ∨ r.m_status = Status.Succeeded
                ∨ r.m_status = Status.SucceededWithWarnings) →
              t.m_filePath = r.m_destinationFile ∧ t.m_log = "")
          ∧ (r.m_status = Status.Failed → t.m_filePath = "" ∧ t.m_log = r.m_log) := by
    intro t ht
    rw [List.mem_singleton] at ht
    subst ht
    exact ⟨responseOf_resourceID r, responseOf_payload r⟩
  rw [fillBuckets_getElem?, hb]
  simp only [Option.map_some']
  split
  · exact hnone
  · split
    · split
      · exact ⟨_, [responseOf r], [], rfl, AddUpdateResponse_updateResults _ _ _ _,
          by simp [AddUpdateResponse_requestResults], by simpa using hone⟩
      · exact hnone
    · split
      · exact ⟨_, [], [responseOf r], rfl, by simp [AddRequestResponse_updateResults],
          AddRequestResponse_requestResults _ _ _ _, by simpa using hone⟩
      · exact hnone

/-- Claim C5 at a concrete input: the succeeded request of client 7 among the connected
clients 7 and 9. -/
theorem fillBuckets_payload_witness :
    ∃ b' added addedRequest,
      (fillBuckets false [7, 9] { sampleRequest with m_status := Status.Succeeded }
          [Bucket.empty, Bucket.empty])[0]? = some b'
      ∧ b'.updateResults = Bucket.empty.updateResults ++ added
      ∧ b'.requestResults = Bucket.empty.requestResults ++ addedRequest
      ∧ ∀ t ∈ added ++ addedRequest,
          t.m_resourceID = "mesh:a/b.msh"
          ∧ ((Status.Succeeded = Status.SucceededUpToDate ∨ Status.Succeeded = Status.Succeeded
                ∨ Status.Succeeded = Status.SucceededWithWarnings) →
              t.m_filePath = "D:/Compiled/a/b.msh" ∧ t.m_log = "")
          ∧ (Status.Succeeded = Status.Failed → t.m_filePath = "" ∧ t.m_log = "") :=
  fillBuckets_payload false [7, 9] { sampleRequest with m_status := Status.Succeeded }
    [Bucket.empty, Bucket.empty] 0 Bucket.empty rfl

/-! ## Requests with an invalid resource id -/

/-- For an invalid resource id, the request `CreateResourceRequest` builds is the
default-constructed one with the log and the status `Failed` set: the client id and the
origin passed to the call are not stored. -/
theorem CreateResourceRequest_invalid (c : Collaborators) (s : ResourceServer)
    (resourceID : ResourceID) (clientID : Nat) (origin : Origin) (extraInfo : String)
    (hinvalid : c.IsValid resourceID = false) :
    (CreateResourceRequest c s resourceID clientID origin extraInfo).2 = s.arena.length
    ∧ (CreateResourceRequest c s resourceID clientID origin extraInfo).1.arena
        = s.arena ++ [{ c.NewCompilationRequest with
                        m_log := "Error: Invalid resource ID ( " ++ resourceID ++ " )"
                        m_status := Status.Failed }]
    ∧ (CreateResourceRequest c s resourceID clientID origin extraInfo).1.m_requests
        = s.m_requests ++ [s.arena.length]
    ∧ (CreateResourceRequest c s resourceID clientID origin extraInfo).1.m_activeTasks
        = s.m_activeTasks ++ [{ m_pRequest := s.arena.length, GetIsComplete := false }]
    ∧ (CreateResourceRequest c s resourceID clientID origin extraInfo).1.m_numScheduledTasks
        = s.m_numScheduledTasks + 1 := by
  simp [CreateResourceRequest, hinvalid]

/-- The server after a request with an invalid resource id does not depend on the client
the request came from. -/
theorem CreateResourceRequest_invalid_forgets_client (c : Collaborators) (s : ResourceServer)
    (resourceID : ResourceID) (clientID clientID' : Nat) (origin : Origin)
    (extraInfo : String) (hinvalid : c.IsValid resourceID = false) :
    (CreateResourceRequest c s resourceID clientID origin extraInfo).1.arena
      = (CreateResourceRequest c s resourceID clientID' origin extraInfo).1.arena := by
  simp [CreateResourceRequest, hinvalid]

/-- Claim C8 (fails on the code): client 7 sends `RequestResource` with the invalid id `:/`
while clients 7 and 9 are connected.  The request is created `Failed` with the log
`Error: Invalid resource ID ( :/ )`, but its client id stays the default 0, not 7; once its
task has run and is reaped, no message is sent, so client 7 receives no
`ResourceRequestComplete` tuple. -/
theorem invalid_id_request_not_delivered :
    (ProcessIncomingMessages sampleCollaborators sampleServer
        ⟨NetworkMessageID.RequestResource, 7, [":/"]⟩).arena
      = [{ m_clientID := 0, m_origin := Origin.External, m_resourceID := "", m_sourceFile := "",
           m_destinationFile := "", m_compilerArgs := "", m_status := Status.Failed,
           m_log := "Error: Invalid resource ID ( :/ )", m_extraInfo := "" }]
    ∧ (ProcessIncomingMessages sampleCollaborators sampleServer
        ⟨NetworkMessageID.RequestResource, 7, [":/"]⟩).m_activeTasks
      = [{ m_pRequest := 0, GetIsComplete := false }]
    ∧ (ProcessCompletedRequests
        (executeTask sampleTaskEnvironment ⟨0, 0, 0, []⟩
          (ProcessIncomingMessages sampleCollaborators sampleServer
            ⟨NetworkMessageID.RequestResource, 7, [":/"]⟩) 0)).sentMessages = []
    ∧ (ProcessCompletedRequests
        (executeTask sampleTaskEnvironment ⟨0, 0, 0, []⟩
          (ProcessIncomingMessages sampleCollaborators sampleServer
            ⟨NetworkMessageID.RequestResource, 7, [":/"]⟩) 0)).m_activeTasks = [] := by
  decide

/-- For comparison with the invalid id: the same exchange for the valid id `mesh:a/b.msh`
whose compilation fails ends with one `ResourceRequestComplete` message to client 7. -/
theorem valid_id_request_delivered :
    (ProcessCompletedRequests
        (executeTask sampleTaskEnvironment ⟨0, 0, 3, ["##LOG##\n", "bad mesh"]⟩
          (ProcessIncomingMessages sampleCollaborators sampleServer
            ⟨NetworkMessageID.RequestResource, 7, ["mesh:a/b.msh"]⟩) 0)).sentMessages
      = [⟨7, NetworkMessageID.ResourceRequestComplete,
          ⟨[⟨"mesh:a/b.msh", "", "bad mesh"⟩]⟩⟩] := by
  decide

/-- A request that is already complete is left as it is by its task, which spawns no child. -/
theorem ExecuteRange_complete_request (env : TaskEnvironment) (m_isExiting : Bool)
    (child : ChildProcess) (r : CompilationRequest) (hr : r.IsComplete = true) :
    (CompilationTask.ExecuteRange env m_isExiting child r).request = r
    ∧ (CompilationTask.ExecuteRange env m_isExiting child r).commandLine = none
    ∧ (CompilationTask.ExecuteRange env m_isExiting child r).statusWrites = [] := by
  simp [CompilationTask.ExecuteRange, hr]

/-- Claim C9 as stated fails: for the invalid id `:/`, `CreateResourceRequest` appends a
`Failed` request and does hand a compilation task for it to the task system: the active
tasks and the scheduled counter grow by one. -/
theorem CreateResourceRequest_invalid_schedules_task :
    ((CreateResourceRequest sampleCollaborators sampleServer ":/" 7 Origin.External "").1.arena.map
        (fun r => r.m_status) = [Status.Failed])
    ∧ (CreateResourceRequest sampleCollaborators sampleServer ":/" 7 Origin.External
        "").1.m_activeTasks = [{ m_pRequest := 0, GetIsComplete := false }]
    ∧ (CreateResourceRequest sampleCollaborators sampleServer ":/" 7 Origin.External
        "").1.m_activeTasks ≠ sampleServer.m_activeTasks
    ∧ (CreateResourceRequest sampleCollaborators sampleServer ":/" 7 Origin.External
        "").1.m_numScheduledTasks = sampleServer.m_numScheduledTasks + 1 := by
  decide

/-- Claim C9, amended: for every invalid resource id, `CreateResourceRequest` appends an
already-`Failed` request with the log `Error: Invalid resource ID ( <id> )` to the request
list and, as for every request, schedules a compilation task for it (one more active task,
the scheduled counter incremented); that task, whenever it runs, returns at once: it spawns
no child, assigns no status and leaves the request as it is. -/
theorem CreateResourceRequest_invalid_enqueued_failed (c : Collaborators) (s : ResourceServer)
    (resourceID : ResourceID) (clientID : Nat) (origin : Origin) (extraInfo : String)
    (hinvalid : c.IsValid resourceID = false) :
    ∃ pRequest : CompilationRequest,
      (CreateResourceRequest c s resourceID clientID origin extraInfo).1.arena
          = s.arena ++ [pRequest]
      ∧ (CreateResourceRequest c s resourceID clientID origin extraInfo).1.m_requests
          = s.m_requests ++ [s.arena.length]
      ∧ (CreateResourceRequest c s resourceID clientID origin extraInfo).2 = s.arena.length
      ∧ pRequest.m_status = Status.Failed
      ∧ pRequest.m_log = "Error: Invalid resource ID ( " ++ resourceID ++ " )"
      ∧ (CreateResourceRequest c s resourceID clientID origin extraInfo).1.m_activeTasks
          = s.m_activeTasks ++ [{ m_pRequest := s.arena.length, GetIsComplete := false }]
      ∧ (CreateResourceRequest c s resourceID clientID origin extraInfo).1.m_numScheduledTasks
          = s.m_numScheduledTasks + 1
      ∧ ∀ (env : TaskEnvironment) (m_isExiting : Bool) (child : ChildProcess),
          (CompilationTask.ExecuteRange env m_isExiting child pRequest).request = pRequest
          ∧ (CompilationTask.ExecuteRange env m_isExiting child pRequest).commandLine = none
          ∧ (CompilationTask.ExecuteRange env m_isExiting child pRequest).statusWrites = [] := by
  obtain ⟨h1, h2, h3, h4, h5⟩ :=
    CreateResourceRequest_invalid c s resourceID clientID origin extraInfo hinvalid
  refine ⟨_, h2, h3, h1, rfl, rfl, h4, h5, ?_⟩
  intro env m_isExiting child
  exact ExecuteRange_complete_request env m_isExiting child _ rfl

/-- Claim C9, amended, at a concrete input: the id `:/` requested by client 7. -/
theorem CreateResourceRequest_invalid_enqueued_failed_witness :
    sampleCollaborators.IsValid ":/" = false
    ∧ ∃ pRequest : CompilationRequest,
      (CreateResourceRequest sampleCollaborators sampleServer ":/" 7 Origin.External "").1.arena
          = sampleServer.arena ++ [pRequest]
      ∧ (CreateResourceRequest sampleCollaborators sampleServer ":/" 7 Origin.External
          "").1.m_requests = sampleServer.m_requests ++ [sampleServer.arena.length]
      ∧ (CreateResourceRequest sampleCollaborators sampleServer ":/" 7 Origin.External "").2
          = sampleServer.arena.length
      ∧ pRequest.m_status = Status.Failed
      ∧ pRequest.m_log = "Error: Invalid resource ID ( " ++ ":/" ++ " )"
      ∧ (CreateResourceRequest sampleCollaborators sampleServer ":/" 7 Origin.External
          "").1.m_activeTasks
          = sampleServer.m_activeTasks
              ++ [{ m_pRequest := sampleServer.arena.length, GetIsComplete := false }]
      ∧ (CreateResourceRequest sampleCollaborators sampleServer ":/" 7 Origin.External
          "").1.m_numScheduledTasks = sampleServer.m_numScheduledTasks + 1
      ∧ ∀ (env : TaskEnvironment) (m_isExiting : Bool) (child : ChildProcess),
          (CompilationTask.ExecuteRange env m_isExiting child pRequest).request = pRequest
          ∧ (CompilationTask.ExecuteRange env m_isExiting child pRequest).commandLine = none
          ∧ (CompilationTask.ExecuteRange env m_isExiting child pRequest).statusWrites = [] :=
  ⟨by decide,
    CreateResourceRequest_invalid_enqueued_failed sampleCollaborators sampleServer ":/" 7
      Origin.External "" (by decide)⟩

/-! ## The packaging traversal -/

theorem mem_VectorEmplaceBackUnique {α : Type} [DecidableEq α] (v : List α) (x y : α) :
    y ∈ VectorEmplaceBackUnique v x ↔ y ∈ v ∨ y = x := by
  unfold VectorEmplaceBackUnique
  split
  · constructor
    · exact Or.inl
    · rintro (h | h)
      · exact h
      · subst h
        assumption
  · simp

/-- An invariant of the accumulator that every successful step keeps is kept by a
successful fold. -/
theorem foldlM_some_invariant {α β : Type} (f : β → α → Option β) (P : β → Prop) :
    ∀ (l : List α) (init out : β),
      (∀ d x d', x ∈ l → P d → f d x = some d' → P d') →
      P init → l.foldlM f init = some out → P out
  | [], init, out, _, hinit, h => by
    simp at h
    subst h
    exact hinit
  | a :: l, init, out, hstep, hinit, h => by
    rw [List.foldlM_cons] at h
    cases hfa : f init a with
    | none =>
      rw [hfa] at h
      simp at h
    | some d1 =>
      rw [hfa] at h
      simp only [Option.some_bind, Option.bind_eq_bind] at h
      exact foldlM_some_invariant f P l d1 out
        (fun d x d' hx => hstep d x d' (List.mem_cons_of_mem a hx))
        (hstep init a d1 (List.mem_cons_self a l) hinit hfa) h

/-- In a successful fold whose steps only extend the accumulator, the result of the step
taken for a member of the list is contained in the final result. -/
theorem foldlM_some_step_subset {α γ : Type} (f : List γ → α → Option (List γ))
    (hmono : ∀ d x d', f d x = some d' → ∀ y ∈ d, y ∈ d') :
    ∀ (l : List α) (init out : List γ) (b : α),
      b ∈ l → l.foldlM f init = some out →
      ∃ d d', f d b = some d' ∧ ∀ y ∈ d', y ∈ out
  | [], _, _, _, hb, _ => by cases hb
  | a :: l, init, out, b, hb, h => by
    rw [List.foldlM_cons] at h
    cases hfa : f init a with
    | none =>
      rw [hfa] at h
      simp at h
    | some d1 =>
      rw [hfa] at h
      simp only [Option.some_bind, Option.bind_eq_bind] at h
      rcases List.mem_cons.mp hb with hba | hbl
      · subst hba
        refine ⟨init, d1, hfa, ?_⟩
        exact foldlM_some_invariant f (fun d => ∀ y ∈ d1, y ∈ d) l d1 out
          (fun d x d' _ hd hfx y hy => hmono d x d' hfx y (hd y hy)) (fun _ hy => hy) h
      · exact foldlM_some_step_subset f hmono l d1 out b hbl h

theorem EnqueueResourceForPackaging_succ_some (ctx : PackagingContext) (depth : Nat)
    (resourceID : ResourceID) (deps : List ResourceID) (g : ResourceID → List ResourceID)
    (hexit : ctx.m_isExiting = false)
    (hg : ctx.GetCompilerForResourceType (ctx.GetResourceTypeID resourceID) = some g) :
    EnqueueResourceForPackaging ctx (depth + 1) resourceID deps
      = (g resourceID).foldlM
          (fun d referenceResourceID => EnqueueResourceForPackaging ctx depth referenceResourceID d)
          (VectorEmplaceBackUnique deps resourceID) := by
  simp [EnqueueResourceForPackaging, hexit, hg]

theorem EnqueueResourceForPackaging_succ_none (ctx : PackagingContext) (depth : Nat)
    (resourceID : ResourceID) (deps : List ResourceID)
    (hg : ctx.GetCompilerForResourceType (ctx.GetResourceTypeID resourceID) = none) :
    EnqueueResourceForPackaging ctx (depth + 1) resourceID deps = some deps := by
  simp [EnqueueResourceForPackaging, hg]

/-- The traversal only adds to the vector. -/
theorem EnqueueResourceForPackaging_subset (ctx : PackagingContext) :
    ∀ (depth : Nat) (resourceID : ResourceID) (deps deps' : List ResourceID),
      EnqueueResourceForPackaging ctx depth resourceID deps = some deps' →
      ∀ y ∈ deps, y ∈ deps'
  | 0, _, _, _, h => by simp [EnqueueResourceForPackaging] at h
  | depth + 1, resourceID, deps, deps', h => by
    cases hexit : ctx.m_isExiting with
    | true =>
      simp [EnqueueResourceForPackaging, hexit] at h
      subst h
      exact fun _ hy => hy
    | false =>
      cases hg : ctx.GetCompilerForResourceType (ctx.GetResourceTypeID resourceID) with
      | none =>
        rw [EnqueueResourceForPackaging_succ_none ctx depth resourceID deps hg] at h
        cases h
        exact fun _ hy => hy
      | some g =>
        rw [EnqueueResourceForPackaging_succ_some ctx depth resourceID deps g hexit hg] at h
        intro y hy
        exact foldlM_some_invariant _ (fun d => y ∈ d) _ _ _
          (fun d x d' _ hd hfx => EnqueueResourceForPackaging_subset ctx depth x d d' hfx y hd)
          ((mem_VectorEmplaceBackUnique deps resourceID y).mpr (Or.inl hy)) h

theorem hasCompiler_iff (ctx : PackagingContext) (r : ResourceID) :
    ctx.hasCompiler r = true
      ↔ ∃ g, ctx.GetCompilerForResourceType (ctx.GetResourceTypeID r) = some g := by
  unfold PackagingContext.hasCompiler
  cases ctx.GetCompilerForResourceType (ctx.GetResourceTypeID r) <;> simp

theorem installDependencies_of_some (ctx : PackagingContext) (r : ResourceID)
    (g : ResourceID → List ResourceID)
    (hg : ctx.GetCompilerForResourceType (ctx.GetResourceTypeID r) = some g) :
    ctx.installDependencies r = g r := by
  simp [PackagingContext.installDependencies, hg]

theorem mem_compiledInstallDependencies (ctx : PackagingContext) (a b : ResourceID) :
    b ∈ ctx.compiledInstallDependencies a
      ↔ b ∈ ctx.installDependencies a ∧ ctx.hasCompiler b = true := by
  simp [PackagingContext.compiledInstallDependencies, List.mem_filter]

/-- The roots belong to the least fixed point. -/
theorem leastFixedPoint_root (roots : List ResourceID) (step : ResourceID → List ResourceID)
    (a : ResourceID) (ha : a ∈ roots) : a ∈ leastFixedPoint roots step :=
  fun _ hroots _ => hroots a ha

/-- The least fixed point is closed under the step. -/
theorem leastFixedPoint_step (roots : List ResourceID) (step : ResourceID → List ResourceID)
    (a b : ResourceID) (ha : a ∈ leastFixedPoint roots step) (hb : b ∈ step a) :
    b ∈ leastFixedPoint roots step :=
  fun X hroots hclosed => hclosed a (ha X hroots hclosed) b hb

/-- Every id of the least fixed point is reached from a root by finitely many steps. -/
theorem leastFixedPoint_reachable (roots : List ResourceID)
    (step : ResourceID → List ResourceID) (x : ResourceID)
    (hx : x ∈ leastFixedPoint roots step) :
    ∃ a ∈ roots, Relation.ReflTransGen (fun u v => v ∈ step u) a x := by
  apply hx { y | ∃ a ∈ roots, Relation.ReflTransGen (fun u v => v ∈ step u) a y }
  · intro a ha
    exact ⟨a, ha, Relation.ReflTransGen.refl⟩
  · rintro u ⟨a, ha, hau⟩ v hv
    exact ⟨a, ha, Relation.ReflTransGen.tail hau hv⟩

/-- Soundness of the traversal: when the vector lies within a set `Q` that contains a set
`T` closed under the install dependencies with a compiler, and the id the traversal starts
from is in `T` unless it has no compiler, the vector still lies within `Q` afterwards. -/
theorem EnqueueResourceForPackaging_within (ctx : PackagingContext) (T Q : Set ResourceID)
    (hTQ : ∀ a, a ∈ T → a ∈ Q)
    (hclosed : ∀ a, a ∈ T → ∀ b, b ∈ ctx.compiledInstallDependencies a → b ∈ T) :
    ∀ (depth : Nat) (resourceID : ResourceID) (deps deps' : List ResourceID),
      EnqueueResourceForPackaging ctx depth resourceID deps = some deps' →
      (ctx.hasCompiler resourceID = true → resourceID ∈ T) →
      (∀ y ∈ deps, y ∈ Q) → ∀ y ∈ deps', y ∈ Q
  | 0, _, _, _, h, _, _ => by simp [EnqueueResourceForPackaging] at h
  | depth + 1, resourceID, deps, deps', h, hr, hdeps => by
    cases hexit : ctx.m_isExiting with
    | true =>
      simp [EnqueueResourceForPackaging, hexit] at h
      subst h
      exact hdeps
    | false =>
      cases hg : ctx.GetCompilerForResourceType (ctx.GetResourceTypeID resourceID) with
      | none =>
        rw [EnqueueResourceForPackaging_succ_none ctx depth resourceID deps hg] at h
        cases h
        exact hdeps
      | some g =>
        rw [EnqueueResourceForPackaging_succ_some ctx depth resourceID deps g hexit hg] at h
        have hrT : resourceID ∈ T := hr ((hasCompiler_iff ctx resourceID).mpr ⟨g, hg⟩)
        refine foldlM_some_invariant _ (fun d => ∀ y ∈ d, y ∈ Q) _ _ _ ?_ ?_ h
        · intro d x d' hx hd hfx
          refine EnqueueResourceForPackaging_within ctx T Q hTQ hclosed depth x d d' hfx ?_ hd
          intro hxc
          apply hclosed resourceID hrT x
          rw [mem_compiledInstallDependencies, installDependencies_of_some ctx resourceID g hg]
          exact ⟨hx, hxc⟩
        · intro y hy
          rcases (mem_VectorEmplaceBackUnique deps resourceID y).mp hy with h1 | h1
          · exact hdeps y h1
          · subst h1
            exact hTQ _ hrT

/-- Completeness of the traversal: started on an id with a compiler while the server is not
exiting, it leaves in the vector every id reached from there through install dependencies
with a compiler. -/
theorem EnqueueResourceForPackaging_reaches (ctx : PackagingContext)
    (hexit : ctx.m_isExiting = false) :
    ∀ (depth : Nat) (resourceID : ResourceID) (deps deps' : List ResourceID),
      EnqueueResourceForPackaging ctx depth resourceID deps = some deps' →
      ctx.hasCompiler resourceID = true →
      ∀ x, Relation.ReflTransGen (fun u v => v ∈ ctx.compiledInstallDependencies u)
          resourceID x → x ∈ deps'
  | 0, _, _, _, h, _, _, _ => by simp [EnqueueResourceForPackaging] at h
  | depth + 1, resourceID, deps, deps', h, hr, x, hx => by
    obtain ⟨g, hg⟩ := (hasCompiler_iff ctx resourceID).mp hr
    rw [EnqueueResourceForPackaging_succ_some ctx depth resourceID deps g hexit hg] at h
    have hmono : ∀ (d : List ResourceID) (u : ResourceID) (d' : List ResourceID),
        EnqueueResourceForPackaging ctx depth u d = some d' → ∀ y ∈ d, y ∈ d' :=
      fun d u d' hfu => EnqueueResourceForPackaging_subset ctx depth u d d' hfu
    rcases Relation.ReflTransGen.cases_head hx with heq | ⟨b, hb, hbx⟩
    · subst heq
      exact foldlM_some_invariant _ (fun d => resourceID ∈ d) _ _ _
        (fun d u d' _ hd hfu => hmono d u d' hfu _ hd)
        ((mem_VectorEmplaceBackUnique deps resourceID resourceID).mpr (Or.inr rfl)) h
    · rw [mem_compiledInstallDependencies, installDependencies_of_some ctx resourceID g hg]
        at hb
      obtain ⟨d, d', hfb, hsub⟩ :=
        foldlM_some_step_subset
          (fun d referenceResourceID =>
            EnqueueResourceForPackaging ctx depth referenceResourceID d)
          hmono (g resourceID) _ deps' b hb.1 h
      exact hsub x (EnqueueResourceForPackaging_reaches ctx hexit depth b d d' hfb hb.2 x hbx)

theorem PackagingTask_ExecuteRange_eq (ctx : PackagingContext) (depth : Nat)
    (maps : List ResourceID) :
    PackagingTask.ExecuteRange ctx depth maps
      = maps.foldlM (fun deps mapID => EnqueueResourceForPackaging ctx depth mapID deps)
          ctx.moduleResources := by
  simp [PackagingTask.ExecuteRange, PackagingContext.moduleResources]

/-- Claim C10 as stated fails: with the engine module reporting `mat:engine/default.mat`,
whose install dependency is `tex:engine/default.tex`, and the seed `map:world.map`, which
installs `mesh:a.msh` and `snd:a.snd` (a type without compiler), the traversal ends with the
material, the map and the mesh.  The texture and the sound belong to the least fixed point
of the seeds and module resources under the install dependencies but not to the resolved
list: module resources are appended without being expanded, and an id without a compiler
is not added. -/
theorem PackagingTask_module_resources_not_expanded :
    PackagingTask.ExecuteRange samplePackagingContext 3 ["map:world.map"]
        = some ["mat:engine/default.mat", "map:world.map", "mesh:a.msh"]
    ∧ "tex:engine/default.tex"
        ∈ leastFixedPoint (["map:world.map"] ++ samplePackagingContext.moduleResources)
            samplePackagingContext.installDependencies
    ∧ "tex:engine/default.tex" ∉ ["mat:engine/default.mat", "map:world.map", "mesh:a.msh"]
    ∧ "snd:a.snd"
        ∈ leastFixedPoint (["map:world.map"] ++ samplePackagingContext.moduleResources)
            samplePackagingContext.installDependencies
    ∧ "snd:a.snd" ∉ ["mat:engine/default.mat", "map:world.map", "mesh:a.msh"] := by
  refine ⟨by decide, ?_, by decide, ?_, by decide⟩
  · intro X hroots hclosed
    exact hclosed "mat:engine/default.mat" (hroots _ (by decide)) _ (by decide)
  · intro X hroots hclosed
    exact hclosed "map:world.map" (hroots _ (by decide)) _ (by decide)

/-- Claim C10, amended: when the server is not exiting and the traversal started from the
seeds `m_mapsToBePackaged` terminates, the ids of the resolved list are exactly the module
resources (Base, Engine, Game; appended as they are, without expansion) together with the
least fixed point of the seeds that have a registered compiler under the install
dependencies that have a registered compiler. -/
theorem PackagingTask_resolved_set (ctx : PackagingContext) (depth : Nat)
    (m_mapsToBePackaged resolved : List ResourceID) (hexit : ctx.m_isExiting = false)
    (hrun : PackagingTask.ExecuteRange ctx depth m_mapsToBePackaged = some resolved)
    (r : ResourceID) :
    r ∈ resolved
      ↔ r ∈ ctx.moduleResources
        ∨ r ∈ leastFixedPoint (m_mapsToBePackaged.filter ctx.hasCompiler)
            ctx.compiledInstallDependencies := by
  rw [PackagingTask_ExecuteRange_eq] at hrun
  constructor
  · intro hr
    refine foldlM_some_invariant _
      (fun d => ∀ y ∈ d, y ∈ ({ y | y ∈ ctx.moduleResources
        ∨ y ∈ leastFixedPoint (m_mapsToBePackaged.filter ctx.hasCompiler)
            ctx.compiledInstallDependencies } : Set ResourceID))
      _ _ _ ?_ ?_ hrun r hr
    · intro d x d' hx hd hfx
      refine EnqueueResourceForPackaging_within ctx
        (leastFixedPoint (m_mapsToBePackaged.filter ctx.hasCompiler)
          ctx.compiledInstallDependencies) _ (fun a ha => Or.inr ha)
        (fun a ha b hb => leastFixedPoint_step _ _ a b ha hb) depth x d d' hfx ?_ hd
      intro hxc
      exact leastFixedPoint_root _ _ x (List.mem_filter.mpr ⟨hx, hxc⟩)
    · intro y hy
      exact Or.inl hy
  · rintro (hr | hr)
    · exact foldlM_some_invariant _ (fun d => r ∈ d) _ _ _
        (fun d x d' _ hd hfx => EnqueueResourceForPackaging_subset ctx depth x d d' hfx r hd)
        hr hrun
    · obtain ⟨a, ha, hreach⟩ := leastFixedPoint_reachable _ _ r hr
      obtain ⟨ham, hac⟩ := List.mem_filter.mp ha
      obtain ⟨d, d', hfa, hsub⟩ :=
        foldlM_some_step_subset
          (fun deps mapID => EnqueueResourceForPackaging ctx depth mapID deps)
          (fun d u d' hfu => EnqueueResourceForPackaging_subset ctx depth u d d' hfu)
          m_mapsToBePackaged _ resolved a ham hrun
      exact hsub r (EnqueueResourceForPackaging_reaches ctx hexit depth a d d' hfa hac r hreach)

/-- Claim C10, amended, at a concrete input: the sample context with the seed
`map:world.map` and depth bound 3. -/
theorem PackagingTask_resolved_set_witness :
    PackagingTask.ExecuteRange samplePackagingContext 3 ["map:world.map"]
        = some ["mat:engine/default.mat", "map:world.map", "mesh:a.msh"]
    ∧ ∀ r : ResourceID,
        r ∈ ["mat:engine/default.mat", "map:world.map", "mesh:a.msh"]
          ↔ r ∈ samplePackagingContext.moduleResources
            ∨ r ∈ leastFixedPoint (["map:world.map"].filter samplePackagingContext.hasCompiler)
                samplePackagingContext.compiledInstallDependencies :=
  ⟨by decide,
    fun r => PackagingTask_resolved_set samplePackagingContext 3 ["map:world.map"]
      ["mat:engine/default.mat", "map:world.map", "mesh:a.msh"] rfl (by decide) r⟩

/-! ## Log stripping against the delimiter's position -/

theorem isPrefixOf_length_le :
    ∀ (d s : List Char), d.isPrefixOf s = true → d.length ≤ s.length
  | [], _, _ => by simp
  | _ :: _, [], h => by simp [List.isPrefixOf] at h
  | a :: d, b :: s, h => by
    simp only [List.isPrefixOf, Bool.and_eq_true] at h
    have := isPrefixOf_length_le d s h.2
    simp only [List.length_cons]
    omega

/-- Where a non-empty delimiter occurs as a substring, some character of it occurs, and the
occurrence lies within the string. -/
theorem firstOccurrence_found (d : List Char) (hd : d ≠ []) :
    ∀ (s : List Char) (p : Nat), firstOccurrence d s = some p →
      (∃ q, find_first_of s d = some q) ∧ p + d.length ≤ s.length
  | [], p, h => by
    cases d with
    | nil => exact absurd rfl hd
    | cons a d => simp [firstOccurrence] at h
  | c :: rest, p, h => by
    unfold firstOccurrence at h
    by_cases hpre : d.isPrefixOf (c :: rest) = true
    · rw [if_pos hpre] at h
      cases h
      constructor
      · cases d with
        | nil => exact absurd rfl hd
        | cons a d =>
          simp only [List.isPrefixOf, Bool.and_eq_true, beq_iff_eq] at hpre
          refine ⟨0, ?_⟩
          simp [find_first_of, hpre.1]
      · have := isPrefixOf_length_le d (c :: rest) hpre
        omega
    · rw [if_neg hpre] at h
      cases hrest : firstOccurrence d rest with
      | none => simp [hrest] at h
      | some p' =>
        rw [hrest] at h
        simp only [Option.map_some', Option.some.injEq] at h
        obtain ⟨⟨q, hq⟩, hlen⟩ := firstOccurrence_found d hd rest p' hrest
        constructor
        · unfold find_first_of
          by_cases hc : c ∈ d
          · exact ⟨0, by rw [if_pos hc]⟩
          · exact ⟨q + 1, by rw [if_neg hc, hq]; rfl⟩
        · simp only [List.length_cons]
          omega

/-- For every non-empty delimiter: when the delimiter first occurs at a position `p > 0` of
the log and is followed by at least one byte, the stripping still removes exactly the first
`length delimiter + 1` bytes, which is not the log the spec asks for. -/
theorem stripPreamble_differs_after_preamble (s_delimiter log : String) (p : Nat)
    (hd : s_delimiter.data ≠ [])
    (hp : firstOccurrence s_delimiter.data log.data = some p) (hpos : 0 < p)
    (hsep : p + s_delimiter.length + 1 ≤ log.length) :
    stripPreamble s_delimiter log
        = (String.mk (log.data.drop (s_delimiter.length + 1)), false)
    ∧ (stripPreamble s_delimiter log).1 ≠ strippedAfterDelimiter s_delimiter log p := by
  obtain ⟨⟨q, hq⟩, _⟩ := firstOccurrence_found s_delimiter.data hd log.data p hp
  have hstrip := stripPreamble_drops_fixed_length s_delimiter log q hq (by omega)
  refine ⟨hstrip, ?_⟩
  rw [hstrip]
  intro heq
  have hdata : log.data.drop (s_delimiter.length + 1)
      = log.data.drop (p + s_delimiter.length + 1) := by
    unfold strippedAfterDelimiter at heq
    exact congrArg String.data heq
  have hlen := congrArg List.length hdata
  have h1 : log.length = log.data.length := rfl
  rw [List.length_drop, List.length_drop] at hlen
  omega

/-! ## The depth bound of the packaging traversal -/

theorem foldlM_some_congr {α β : Type} (f g : β → α → Option β)
    (hfg : ∀ d x d', f d x = some d' → g d x = some d') :
    ∀ (l : List α) (init out : β), l.foldlM f init = some out → l.foldlM g init = some out
  | [], _, _, h => by simpa using h
  | a :: l, init, out, h => by
    rw [List.foldlM_cons] at h ⊢
    cases hfa : f init a with
    | none =>
      rw [hfa] at h
      simp at h
    | some d1 =>
      rw [hfa] at h
      rw [hfg init a d1 hfa]
      simp only [Option.some_bind, Option.bind_eq_bind] at h ⊢
      exact foldlM_some_congr f g hfg l d1 out h

/-- A traversal that returns within a depth bound returns the same vector within every
larger bound. -/
theorem EnqueueResourceForPackaging_depth_succ (ctx : PackagingContext) :
    ∀ (depth : Nat) (resourceID : ResourceID) (deps deps' : List ResourceID),
      EnqueueResourceForPackaging ctx depth resourceID deps = some deps' →
      EnqueueResourceForPackaging ctx (depth + 1) resourceID deps = some deps'
  | 0, _, _, _, h => by simp [EnqueueResourceForPackaging] at h
  | depth + 1, resourceID, deps, deps', h => by
    cases hexit : ctx.m_isExiting with
    | true =>
      simp [EnqueueResourceForPackaging, hexit] at h ⊢
      exact h
    | false =>
      cases hg : ctx.GetCompilerForResourceType (ctx.GetResourceTypeID resourceID) with
      | none =>
        rw [EnqueueResourceForPackaging_succ_none ctx depth resourceID deps hg] at h
        rw [EnqueueResourceForPackaging_succ_none ctx (depth + 1) resourceID deps hg]
        exact h
      | some g =>
        rw [EnqueueResourceForPackaging_succ_some ctx depth resourceID deps g hexit hg] at h
        rw [EnqueueResourceForPackaging_succ_some ctx (depth + 1) resourceID deps g hexit hg]
        exact foldlM_some_congr _ _
          (fun d x d' hfx => EnqueueResourceForPackaging_depth_succ ctx depth x d d' hfx) _ _ _ h

/-! ## The cleanup step -/

/-- The cleanup loop run over the first `n` positions removes exactly the complete requests
among them and keeps everything else in place. -/
theorem cleanupLoop_eq (s : ResourceServer) :
    ∀ (n : Nat) (m_requests : List Nat), n ≤ m_requests.length →
      cleanupLoop s n m_requests
        = (m_requests.take n).filter (fun p => !s.IsCompleteAt p) ++ m_requests.drop n
  | 0, m_requests, _ => by simp [cleanupLoop]
  | n + 1, m_requests, hn => by
    have hlt : n < m_requests.length := by omega
    have hget : m_requests[n]? = some m_requests[n] := List.getElem?_eq_getElem hlt
    have htake : m_requests.take (n + 1) = m_requests.take n ++ [m_requests[n]] := by
      rw [List.take_succ, hget]
      rfl
    unfold cleanupLoop
    rw [hget]
    simp only []
    by_cases hc : s.IsCompleteAt m_requests[n] = true
    · rw [if_pos hc]
      have hlen : n ≤ (m_requests.eraseIdx n).length := by
        rw [List.length_eraseIdx]
        split <;> omega
      rw [cleanupLoop_eq s n (m_requests.eraseIdx n) hlen, htake, List.filter_append,
        List.eraseIdx_eq_take_drop_succ]
      have h1 : (m_requests.take n ++ m_requests.drop (n + 1)).take n = m_requests.take n := by
        rw [List.take_append_of_le_length (by simp; omega)]
        simp
      have h2 : (m_requests.take n ++ m_requests.drop (n + 1)).drop n
          = m_requests.drop (n + 1) := by
        rw [List.drop_append_of_le_length (by simp; omega)]
        have : (m_requests.take n).length = n := by simp; omega
        rw [List.drop_eq_nil_of_le (by omega)]
        rfl
      rw [h1, h2]
      simp [hc]
    · rw [if_neg hc]
      rw [cleanupLoop_eq s n m_requests (by omega), htake, List.filter_append,
        List.drop_eq_getElem_cons hlt]
      simp [hc]

/-- A request pointer reads as not complete exactly when the status of its request is
`Pending` or `Compiling`. -/
theorem IsCompleteAt_eq_false_iff (s : ResourceServer) (p : Nat) (r : CompilationRequest)
    (hp : s.arena[p]? = some r) :
    s.IsCompleteAt p = false ↔ r.m_status = Status.Pending ∨ r.m_status = Status.Compiling := by
  simp only [ResourceServer.IsCompleteAt, hp, CompilationRequest.IsComplete]
  cases r.m_status <;> simp

/-- Claim C11: when cleanup has been requested, the cleanup step of the tick leaves in the
request list exactly the requests that are not complete, that is, whose status is `Pending`
or `Compiling`, in their original order, and clears the cleanup flag; the requests
themselves are not changed. -/
theorem processCleanupRequest_keeps_non_terminal (s : ResourceServer)
    (hrequested : s.m_cleanupRequested = true) :
    (processCleanupRequest s).m_requests
        = s.m_requests.filter (fun p => !s.IsCompleteAt p)
    ∧ (∀ (p : Nat) (r : CompilationRequest), s.arena[p]? = some r →
        (s.IsCompleteAt p = false
          ↔ r.m_status = Status.Pending ∨ r.m_status = Status.Compiling))
    ∧ (processCleanupRequest s).m_cleanupRequested = false
    ∧ (processCleanupRequest s).arena = s.arena := by
  refine ⟨?_, fun p r hp => IsCompleteAt_eq_false_iff s p r hp, ?_, ?_⟩
  · simp only [processCleanupRequest, hrequested, if_true]
    rw [cleanupLoop_eq s s.m_requests.length s.m_requests (Nat.le_refl _)]
    simp
  · simp [processCleanupRequest, hrequested]
  · simp [processCleanupRequest, hrequested]

/-- Claim C11 at a concrete input: of a pending, a failed, a compiling and a succeeded
request, the pending and the compiling one are kept. -/
theorem processCleanupRequest_keeps_non_terminal_witness :
    (processCleanupRequest sampleCleanupServer).m_requests = [0, 2]
    ∧ (processCleanupRequest sampleCleanupServer).m_cleanupRequested = false := by
  have h := processCleanupRequest_keeps_non_terminal sampleCleanupServer rfl
  exact ⟨h.1.trans (by decide), h.2.2.1⟩

/-! ## Requests with a valid resource id -/

/-- For a valid resource id, the request `CreateResourceRequest` appends to the arena: the
default-constructed request with client, origin, id, source file, compiler arguments, status
`Pending`, extra info and destination set. -/
theorem CreateResourceRequest_valid (c : Collaborators) (s : ResourceServer)
    (resourceID : ResourceID) (clientID : Nat) (origin : Origin) (extraInfo : String)
    (hvalid : c.IsValid resourceID = true) :
    (CreateResourceRequest c s resourceID clientID origin extraInfo).1.arena
        = s.arena ++ [{ c.NewCompilationRequest with
            m_clientID := clientID
            m_origin := origin
            m_resourceID := resourceID
            m_sourceFile :=
              c.GetParentResourceFileSystemPath resourceID
                s.m_pSettings.m_sourceDataDirectoryPath
            m_compilerArgs := c.GetDataPath resourceID
            m_status := Status.Pending
            m_extraInfo := extraInfo
            m_destinationFile :=
              if origin = Origin.Package then
                c.GetFileSystemPath resourceID
                  s.m_pSettings.m_packagedBuildCompiledResourceDirectoryPath
              else
                c.GetFileSystemPath resourceID s.m_pSettings.m_compiledResourceDirectoryPath }]
    ∧ (CreateResourceRequest c s resourceID clientID origin extraInfo).1.m_requests
        = s.m_requests ++ [s.arena.length]
    ∧ (CreateResourceRequest c s resourceID clientID origin extraInfo).2 = s.arena.length := by
  refine ⟨?_, ?_, ?_⟩
  · unfold CreateResourceRequest
    simp only [hvalid, if_true]
    by_cases ho : origin = Origin.Package
    · simp only [ho, if_true]
      split
      · split <;> rfl
      · rfl
    · simp only [ho, if_false]
      split
      · split <;> rfl
      · rfl
  · unfold CreateResourceRequest
    simp only [hvalid, if_true]
    split
    · split <;> rfl
    · rfl
  · simp [CreateResourceRequest]

/-- Claim C14: for every valid resource id, the request `CreateResourceRequest` creates has
as destination file the id resolved under the packaged-build root when the origin is
`Package`, and under the compiled-resource root when the origin is `External` or
`FileWatcher`. -/
theorem CreateResourceRequest_destination (c : Collaborators) (s : ResourceServer)
    (resourceID : ResourceID) (clientID : Nat) (origin : Origin) (extraInfo : String)
    (hvalid : c.IsValid resourceID = true) :
    ∃ pRequest : CompilationRequest,
      (CreateResourceRequest c s resourceID clientID origin extraInfo).1.arena
          = s.arena ++ [pRequest]
      ∧ (origin = Origin.Package →
          pRequest.m_destinationFile
            = c.GetFileSystemPath resourceID
                s.m_pSettings.m_packagedBuildCompiledResourceDirectoryPath)
      ∧ (origin = Origin.External ∨ origin = Origin.FileWatcher →
          pRequest.m_destinationFile
            = c.GetFileSystemPath resourceID s.m_pSettings.m_compiledResourceDirectoryPath) := by
  refine ⟨_, (CreateResourceRequest_valid c s resourceID clientID origin extraInfo hvalid).1,
    ?_, ?_⟩
  · intro h
    simp [h]
  · intro h
    have hne : origin ≠ Origin.Package := by
      rcases h with h | h <;> rw [h] <;> decide
    simp [hne]

/-- Claim C14 at a concrete input: `mesh:a/b.msh` requested for packaging. -/
theorem CreateResourceRequest_destination_witness :
    ∃ pRequest : CompilationRequest,
      (CreateResourceRequest sampleCollaborators sampleServer "mesh:a/b.msh" 0 Origin.Package
          "").1.arena = sampleServer.arena ++ [pRequest]
      ∧ (Origin.Package = Origin.Package →
          pRequest.m_destinationFile = "D:/Packaged/" ++ "mesh:a/b.msh")
      ∧ (Origin.Package = Origin.External ∨ Origin.Package = Origin.FileWatcher →
          pRequest.m_destinationFile = "D:/Compiled/" ++ "mesh:a/b.msh") :=
  CreateResourceRequest_destination sampleCollaborators sampleServer "mesh:a/b.msh" 0
    Origin.Package "" (by decide)

/-! ## The status sequence of a request -/

theorem statusOfExitCode_terminal (results : CompilationResult) (exitCode : Int) :
    statusOfExitCode results exitCode = Status.SucceededUpToDate
    ∨ statusOfExitCode results exitCode = Status.Succeeded
    ∨ statusOfExitCode results exitCode = Status.SucceededWithWarnings
    ∨ statusOfExitCode results exitCode = Status.Failed := by
  unfold statusOfExitCode
  split
  · exact Or.inl rfl
  · split
    · exact Or.inr (Or.inl rfl)
    · split
      · exact Or.inr (Or.inr (Or.inl rfl))
      · exact Or.inr (Or.inr (Or.inr rfl))

/-- A task that runs on a request that is not complete while the server is not exiting
assigns `Compiling` and then one terminal status, which is the status it leaves. -/
theorem ExecuteRange_statusWrites (env : TaskEnvironment) (child : ChildProcess)
    (r : CompilationRequest) (hr : r.IsComplete = false) :
    ∃ t : Status,
      (t = Status.SucceededUpToDate ∨ t = Status.Succeeded ∨ t = Status.SucceededWithWarnings
        ∨ t = Status.Failed)
      ∧ (CompilationTask.ExecuteRange env false child r).statusWrites = [Status.Compiling, t]
      ∧ (CompilationTask.ExecuteRange env false child r).request.m_status = t := by
  by_cases hc : child.createResult = 0
  · by_cases hj : child.joinResult = 0
    · exact ⟨statusOfExitCode env.results child.exitCode, statusOfExitCode_terminal _ _,
        by simp [CompilationTask.ExecuteRange, hr, hc, hj],
        by simp [CompilationTask.ExecuteRange, hr, hc, hj]⟩
    · exact ⟨Status.Failed, by simp, by simp [CompilationTask.ExecuteRange, hr, hc, hj],
        by simp [CompilationTask.ExecuteRange, hr, hc, hj]⟩
  · exact ⟨Status.Failed, by simp, by simp [CompilationTask.ExecuteRange, hr, hc],
      by simp [CompilationTask.ExecuteRange, hr, hc]⟩

/-- A task that runs while the server is exiting leaves its request as it is. -/
theorem ExecuteRange_exiting (env : TaskEnvironment) (child : ChildProcess)
    (r : CompilationRequest) :
    (CompilationTask.ExecuteRange env true child r).request = r
    ∧ (CompilationTask.ExecuteRange env true child r).statusWrites = []
    ∧ (CompilationTask.ExecuteRange env true child r).commandLine = none := by
  simp [CompilationTask.ExecuteRange]

/-- Claim C16: for every request `CreateResourceRequest` creates and every execution of its
task, the statuses the request takes, from its creation on, form a path of the lifecycle
graph.  A request with a valid id starts `Pending`; its task, run while the server is not
exiting, assigns `Compiling` and then exactly one of the four terminal statuses, which is
the final status (run while exiting, it assigns nothing).  A request with an invalid id is
`Failed` from its creation and its task assigns no status, so it is never `Compiling`.  A
task never assigns a status to a request that is already complete. -/
theorem request_status_sequence (c : Collaborators) (s : ResourceServer)
    (resourceID : ResourceID) (clientID : Nat) (origin : Origin) (extraInfo : String)
    (env : TaskEnvironment) (m_isExiting : Bool) (child : ChildProcess) :
    ∃ pRequest : CompilationRequest,
      (CreateResourceRequest c s resourceID clientID origin extraInfo).1.arena
          = s.arena ++ [pRequest]
      ∧ List.Chain' Status.Transition
          (pRequest.m_status
            :: (CompilationTask.ExecuteRange env m_isExiting child pRequest).statusWrites)
      ∧ (c.IsValid resourceID = true →
          pRequest.m_status = Status.Pending
          ∧ (m_isExiting = false →
              ∃ t : Status,
                (t = Status.SucceededUpToDate ∨ t = Status.Succeeded
                  ∨ t = Status.SucceededWithWarnings ∨ t = Status.Failed)
                ∧ (CompilationTask.ExecuteRange env m_isExiting child pRequest).statusWrites
                    = [Status.Compiling, t]
                ∧ (CompilationTask.ExecuteRange env m_isExiting child pRequest).request.m_status
                    = t)
          ∧ (m_isExiting = true →
              (CompilationTask.ExecuteRange env m_isExiting child pRequest).statusWrites = []))
      ∧ (c.IsValid resourceID = false →
          pRequest.m_status = Status.Failed
          ∧ (CompilationTask.ExecuteRange env m_isExiting child pRequest).statusWrites = [])
      ∧ ∀ (r : CompilationRequest) (exiting : Bool) (child' : ChildProcess),
          r.IsComplete = true →
          (CompilationTask.ExecuteRange env exiting child' r).statusWrites = []
          ∧ (CompilationTask.ExecuteRange env exiting child' r).request.m_status
              = r.m_status := by
  have hcomplete : ∀ (r : CompilationRequest) (exiting : Bool) (child' : ChildProcess),
      r.IsComplete = true →
      (CompilationTask.ExecuteRange env exiting child' r).statusWrites = []
      ∧ (CompilationTask.ExecuteRange env exiting child' r).request.m_status = r.m_status := by
    intro r exiting child' hr
    have h := ExecuteRange_complete_request env exiting child' r hr
    exact ⟨h.2.2, by rw [h.1]⟩
  cases hvalid : c.IsValid resourceID with
  | true =>
    refine ⟨_, (CreateResourceRequest_valid c s resourceID clientID origin extraInfo hvalid).1,
      ?_, ?_, ?_, hcomplete⟩
    · cases m_isExiting with
      | true =>
        rw [(ExecuteRange_exiting env child _).2.1]
        exact List.chain'_singleton _
      | false =>
        obtain ⟨t, ht, hw, _⟩ := ExecuteRange_statusWrites env child
          { c.NewCompilationRequest with
            m_clientID := clientID
            m_origin := origin
            m_resourceID := resourceID
            m_sourceFile :=
              c.GetParentResourceFileSystemPath resourceID
                s.m_pSettings.m_sourceDataDirectoryPath
            m_compilerArgs := c.GetDataPath resourceID
            m_status := Status.Pending
            m_extraInfo := extraInfo
            m_destinationFile :=
              if origin = Origin.Package then
                c.GetFileSystemPath resourceID
                  s.m_pSettings.m_packagedBuildCompiledResourceDirectoryPath
              else
                c.GetFileSystemPath resourceID s.m_pSettings.m_compiledResourceDirectoryPath }
          rfl
        rw [hw]
        refine List.Chain'.cons (Or.inl ⟨rfl, rfl⟩) (List.Chain'.cons ?_ (List.chain'_singleton _))
        exact Or.inr (Or.inl ⟨rfl, ht⟩)
    · intro _
      refine ⟨rfl, ?_, ?_⟩
      · intro hex
        subst hex
        exact ExecuteRange_statusWrites env child _ rfl
      · intro hex
        subst hex
        exact (ExecuteRange_exiting env child _).2.1
    · intro h
      cases h
  | false =>
    have hcreated := CreateResourceRequest_invalid c s resourceID clientID origin extraInfo hvalid
    have hrun := ExecuteRange_complete_request env m_isExiting child
      { c.NewCompilationRequest with
        m_log := "Error: Invalid resource ID ( " ++ resourceID ++ " )"
        m_status := Status.Failed } rfl
    refine ⟨_, hcreated.2.1, ?_, ?_, ?_, hcomplete⟩
    · rw [hrun.2.2]
      exact List.chain'_singleton _
    · intro h
      cases h
    · intro _
      exact ⟨rfl, hrun.2.2⟩

/-- The status sequences of a valid request whose compiler exits with the code of `Success`,
and of the request for the invalid id `:/`. -/
theorem request_status_sequence_example :
    ((CreateResourceRequest sampleCollaborators sampleServer "mesh:a/b.msh" 7 Origin.External
        "").1.arena.map
      (fun r => r.m_status
        :: (CompilationTask.ExecuteRange sampleTaskEnvironment false ⟨0, 0, 0, []⟩ r).statusWrites)
      = [[Status.Pending, Status.Compiling, Status.Succeeded]])
    ∧ ((CreateResourceRequest sampleCollaborators sampleServer ":/" 7 Origin.External
        "").1.arena.map
      (fun r => r.m_status
        :: (CompilationTask.ExecuteRange sampleTaskEnvironment false ⟨0, 0, 0, []⟩ r).statusWrites)
      = [[Status.Failed]]) := by
  decide

/-- Claim C17: when the compiler child fails to spawn for a `Pending` request while the
server is not exiting, the task ends with status `Failed` and the log
`Resource compiler failed to start!`; the statuses the request takes are `Pending`,
`Compiling`, `Failed`; the exit code is not mapped and the output is not read. -/
theorem ExecuteRange_spawn_failure (env : TaskEnvironment) (child : ChildProcess)
    (r : CompilationRequest) (hpending : r.m_status = Status.Pending)
    (hspawn : child.createResult ≠ 0) :
    (CompilationTask.ExecuteRange env false child r).request.m_status = Status.Failed
    ∧ (CompilationTask.ExecuteRange env false child r).request.m_log
        = "Resource compiler failed to start!"
    ∧ r.m_status :: (CompilationTask.ExecuteRange env false child r).statusWrites
        = [Status.Pending, Status.Compiling, Status.Failed]
    ∧ (CompilationTask.ExecuteRange env false child r).outputRead = false := by
  have hr : r.IsComplete = false := by
    simp [CompilationRequest.IsComplete, hpending]
  simp [CompilationTask.ExecuteRange, hr, hspawn, hpending]

/-- Claim C17 at a concrete input: `subprocess_create` returns -1 for the sample request. -/
theorem ExecuteRange_spawn_failure_witness :
    (CompilationTask.ExecuteRange sampleTaskEnvironment false ⟨-1, 0, 0, ["ignored"]⟩
        sampleRequest).request.m_status = Status.Failed
    ∧ (CompilationTask.ExecuteRange sampleTaskEnvironment false ⟨-1, 0, 0, ["ignored"]⟩
        sampleRequest).request.m_log = "Resource compiler failed to start!"
    ∧ sampleRequest.m_status
        :: (CompilationTask.ExecuteRange sampleTaskEnvironment false ⟨-1, 0, 0, ["ignored"]⟩
            sampleRequest).statusWrites
        = [Status.Pending, Status.Compiling, Status.Failed]
    ∧ (CompilationTask.ExecuteRange sampleTaskEnvironment false ⟨-1, 0, 0, ["ignored"]⟩
        sampleRequest).outputRead = false :=
  ExecuteRange_spawn_failure sampleTaskEnvironment ⟨-1, 0, 0, ["ignored"]⟩ sampleRequest rfl
    (by decide)

/-! ## The command line of the child -/

theorem processCommandLineArgs_eq (env : TaskEnvironment) (r : CompilationRequest) :
    processCommandLineArgs env r
      = [env.m_compilerExecutablePath, "-compile", r.m_compilerArgs]
        ++ (if r.m_origin = Origin.Package then ["-package"]
            else if env.RequiresForcedRecompiliation r = true then ["-force"] else []) := by
  unfold processCommandLineArgs
  by_cases ho : r.m_origin = Origin.Package
  · simp [ho]
  · by_cases hf : env.RequiresForcedRecompiliation r = true
    · simp [ho, hf]
    · simp [ho, hf]

/-- Claim C18: whenever the task executes a request (server not exiting, request not
complete), the command line of the child is the compiler executable, `-compile` and the
request's compiler arguments, followed by `-package` when the origin is `Package`, otherwise
by `-force` when `RequiresForcedRecompiliation` holds, otherwise by nothing; and for a
request `CreateResourceRequest` created for a valid id, the compiler arguments are the data
path of the resource id and the origin is the one passed at creation. -/
theorem ExecuteRange_commandLine (env : TaskEnvironment) (child : ChildProcess) :
    (∀ r : CompilationRequest, r.IsComplete = false →
      (CompilationTask.ExecuteRange env false child r).commandLine
        = some ([env.m_compilerExecutablePath, "-compile", r.m_compilerArgs]
            ++ (if r.m_origin = Origin.Package then ["-package"]
                else if env.RequiresForcedRecompiliation r = true then ["-force"] else [])))
    ∧ ∀ (c : Collaborators) (s : ResourceServer) (resourceID : ResourceID) (clientID : Nat)
        (origin : Origin) (extraInfo : String), c.IsValid resourceID = true →
        ∃ pRequest : CompilationRequest,
          (CreateResourceRequest c s resourceID clientID origin extraInfo).1.arena
              = s.arena ++ [pRequest]
          ∧ pRequest.IsComplete = false
          ∧ pRequest.m_compilerArgs = c.GetDataPath resourceID
          ∧ pRequest.m_origin = origin := by
  constructor
  · intro r hr
    by_cases hc : child.createResult = 0
    · by_cases hj : child.joinResult = 0
      · simp [CompilationTask.ExecuteRange, hr, hc, hj, processCommandLineArgs_eq]
      · simp [CompilationTask.ExecuteRange, hr, hc, hj, processCommandLineArgs_eq]
    · simp [CompilationTask.ExecuteRange, hr, hc, processCommandLineArgs_eq]
  · intro c s resourceID clientID origin extraInfo hvalid
    exact ⟨_, (CreateResourceRequest_valid c s resourceID clientID origin extraInfo hvalid).1,
      rfl, rfl, rfl⟩

/-- The command line for the packaging request of `mesh:a/b.msh`. -/
theorem ExecuteRange_commandLine_example :
    ((CreateResourceRequest sampleCollaborators sampleServer "mesh:a/b.msh" 0 Origin.Package
        "").1.arena.map
      (fun r => (CompilationTask.ExecuteRange sampleTaskEnvironment false ⟨0, 0, 0, []⟩
          r).commandLine)
      = [some ["ResourceCompiler.exe", "-compile", "mesh:a/b.msh", "-package"]]) := by
  decide

/-! ## Client id and origin of the requests in the list -/

/-- For a valid resource id the created request stores the client id and the origin passed
to `CreateResourceRequest`; under the two assertions of that branch (`clientID != 0` for
`External`, `clientID == 0` otherwise) its client id is non-zero exactly when its origin is
`External`. -/
theorem CreateResourceRequest_valid_client_origin (c : Collaborators) (s : ResourceServer)
    (resourceID : ResourceID) (clientID : Nat) (origin : Origin) (extraInfo : String)
    (hvalid : c.IsValid resourceID = true)
    (hexternal : origin = Origin.External → clientID ≠ 0)
    (hinternal : origin ≠ Origin.External → clientID = 0) :
    ∃ pRequest : CompilationRequest,
      (CreateResourceRequest c s resourceID clientID origin extraInfo).1.arena
          = s.arena ++ [pRequest]
      ∧ pRequest.m_clientID = clientID ∧ pRequest.m_origin = origin
      ∧ (pRequest.m_clientID ≠ 0 ↔ pRequest.m_origin = Origin.External) := by
  refine ⟨_, (CreateResourceRequest_valid c s resourceID clientID origin extraInfo hvalid).1,
    rfl, rfl, ?_⟩
  constructor
  · intro hne
    by_contra ho
    exact hne (hinternal ho)
  · intro ho
    exact hexternal ho

/-- Claim C13 (fails on the code): client 7 sends `RequestResource` with the invalid id
`:/`.  The request that is put in the request list keeps the client id 0 and the origin
`External` of a default-constructed request, so for it `client_id != 0` is false while
`origin == External` is true. -/
theorem invalid_id_request_client_origin :
    (ProcessIncomingMessages sampleCollaborators sampleServer
        ⟨NetworkMessageID.RequestResource, 7, [":/"]⟩).m_requests = [0]
    ∧ ((ProcessIncomingMessages sampleCollaborators sampleServer
        ⟨NetworkMessageID.RequestResource, 7, [":/"]⟩).arena.map
          (fun r => (r.m_clientID, r.m_origin)) = [(0, Origin.External)])
    ∧ ¬ ∀ r ∈ (ProcessIncomingMessages sampleCollaborators sampleServer
          ⟨NetworkMessageID.RequestResource, 7, [":/"]⟩).arena,
        (r.m_clientID ≠ 0 ↔ r.m_origin = Origin.External) := by
  decide

/-! ## Starting a packaging run -/

/-- Claim C15 as stated fails: in the `Packaging` stage, where `CanStartPackaging` is false,
the assertion of `StartPackaging` does not hold and the statements after it are no no-op:
they set the stage to `Preparing` and install a new packaging task.  The same happens in
the stage `None` with an empty packaging list. -/
theorem StartPackaging_not_a_no_op :
    CanStartPackaging samplePackagingServer = false
    ∧ (StartPackaging samplePackagingServer).1 = false
    ∧ samplePackagingServer.m_packagingStage = PackagingStage.Packaging
    ∧ (StartPackaging samplePackagingServer).2.m_packagingStage = PackagingStage.Preparing
    ∧ samplePackagingServer.m_pPackagingTask = none
    ∧ (StartPackaging samplePackagingServer).2.m_pPackagingTask
        = some { m_runtimeDependencies := [], GetIsComplete := false }
    ∧ CanStartPackaging sampleServer = false
    ∧ sampleServer.m_packagingStage = PackagingStage.None
    ∧ (StartPackaging sampleServer).2.m_packagingStage = PackagingStage.Preparing := by
  decide

/-- Claim C15, amended: `StartPackaging` asserts its precondition, which holds exactly when
the stage is `None` or `Complete` and the packaging list is not empty, and has no no-op
path: the statements after the assertion install a new, not yet complete packaging task and
set the stage to `Preparing` in every state, and leave the tracked packaging requests, the
request list and the active tasks as they are.  In particular the stage becomes `Preparing`
when the precondition holds. -/
theorem StartPackaging_spec (s : ResourceServer) :
    ((StartPackaging s).1 = true
      ↔ (s.m_packagingStage = PackagingStage.None
          ∨ s.m_packagingStage = PackagingStage.Complete) ∧ s.m_mapsToBePackaged ≠ [])
    ∧ (StartPackaging s).2.m_packagingStage = PackagingStage.Preparing
    ∧ (StartPackaging s).2.m_pPackagingTask
        = some { m_runtimeDependencies := [], GetIsComplete := false }
    ∧ (StartPackaging s).2.m_packagingRequests = s.m_packagingRequests
    ∧ (StartPackaging s).2.m_requests = s.m_requests
    ∧ (StartPackaging s).2.m_activeTasks = s.m_activeTasks
    ∧ (StartPackaging s).2.m_mapsToBePackaged = s.m_mapsToBePackaged := by
  refine ⟨?_, rfl, rfl, rfl, rfl, rfl, rfl⟩
  simp [StartPackaging, CanStartPackaging, List.isEmpty_iff]

/-! ## Packaging progress -/

theorem foldl_numComplete (complete : Nat → Bool) :
    ∀ (l : List Nat) (a : ℚ),
      l.foldl (fun numComplete pRequest =>
          if complete pRequest then numComplete + 1 else numComplete) a
        = a + (l.countP complete : ℚ)
  | [], a => by simp
  | p :: l, a => by
    rw [List.foldl_cons, foldl_numComplete complete l]
    by_cases hp : complete p = true
    · rw [if_pos hp, List.countP_cons_of_pos _ _ hp]
      push_cast
      ring
    · rw [if_neg hp, List.countP_cons_of_neg _ _ hp]

/-- In the `Packaging` stage with at least one tracked request, the progress is
`0.05 + 0.95 * (complete / tracked)` and lies between 0 and 1. -/
theorem GetPackagingProgress_packaging (s : ResourceServer)
    (hstage : s.m_packagingStage = PackagingStage.Packaging)
    (hne : s.m_packagingRequests ≠ []) :
    GetPackagingProgress s
        = some (5 / 100 + 95 / 100
            * ((s.m_packagingRequests.countP s.IsCompleteAt : ℚ)
                / (s.m_packagingRequests.length : ℚ)))
    ∧ (0 : ℚ) ≤ 5 / 100 + 95 / 100
            * ((s.m_packagingRequests.countP s.IsCompleteAt : ℚ)
                / (s.m_packagingRequests.length : ℚ))
    ∧ 5 / 100 + 95 / 100
            * ((s.m_packagingRequests.countP s.IsCompleteAt : ℚ)
                / (s.m_packagingRequests.length : ℚ)) ≤ (1 : ℚ) := by
  have hlen : s.m_packagingRequests.length ≠ 0 := by
    intro h
    exact hne (List.length_eq_zero.mp h)
  have hpos : (0 : ℚ) < (s.m_packagingRequests.length : ℚ) := by
    exact_mod_cast Nat.pos_of_ne_zero hlen
  have hcount : (s.m_packagingRequests.countP s.IsCompleteAt : ℚ)
      ≤ (s.m_packagingRequests.length : ℚ) := by
    exact_mod_cast List.countP_le_length _
  have hfrac0 : (0 : ℚ) ≤ (s.m_packagingRequests.countP s.IsCompleteAt : ℚ)
      / (s.m_packagingRequests.length : ℚ) :=
    div_nonneg (by exact_mod_cast Nat.zero_le _) (le_of_lt hpos)
  have hfrac1 : (s.m_packagingRequests.countP s.IsCompleteAt : ℚ)
      / (s.m_packagingRequests.length : ℚ) ≤ 1 :=
    (div_le_one hpos).mpr hcount
  refine ⟨?_, by linarith, by linarith⟩
  unfold GetPackagingProgress
  rw [hstage]
  simp only [hlen, if_false]
  rw [foldl_numComplete]
  simp

/-- Within the `Packaging` stage the progress does not decrease when more of the tracked
requests are complete. -/
theorem GetPackagingProgress_monotone (s s' : ResourceServer)
    (hstage : s.m_packagingStage = PackagingStage.Packaging)
    (hstage' : s'.m_packagingStage = PackagingStage.Packaging)
    (hsame : s'.m_packagingRequests = s.m_packagingRequests)
    (hne : s.m_packagingRequests ≠ [])
    (hmore : ∀ p ∈ s.m_packagingRequests, s.IsCompleteAt p = true → s'.IsCompleteAt p = true) :
    ∃ q q' : ℚ, GetPackagingProgress s = some q ∧ GetPackagingProgress s' = some q' ∧ q ≤ q' := by
  have hne' : s'.m_packagingRequests ≠ [] := by rw [hsame]; exact hne
  refine ⟨_, _, (GetPackagingProgress_packaging s hstage hne).1,
    (GetPackagingProgress_packaging s' hstage' hne').1, ?_⟩
  rw [hsame]
  have hlen : s.m_packagingRequests.length ≠ 0 := by
    intro h
    exact hne (List.length_eq_zero.mp h)
  have hpos : (0 : ℚ) < (s.m_packagingRequests.length : ℚ) := by
    exact_mod_cast Nat.pos_of_ne_zero hlen
  have hcount : (s.m_packagingRequests.countP s.IsCompleteAt : ℚ)
      ≤ (s.m_packagingRequests.countP s'.IsCompleteAt : ℚ) := by
    exact_mod_cast List.countP_mono_left hmore
  have hdiv := div_le_div_of_nonneg_right hcount (le_of_lt hpos)
  linarith

/-- Outside of the `Packaging` stage the progress is 1/10 in `Preparing` and 1 in `None`
and `Complete`. -/
theorem GetPackagingProgress_other_stages (s : ResourceServer) :
    (s.m_packagingStage = PackagingStage.Preparing → GetPackagingProgress s = some (1 / 10))
    ∧ (s.m_packagingStage = PackagingStage.None → GetPackagingProgress s = some 1)
    ∧ (s.m_packagingStage = PackagingStage.Complete → GetPackagingProgress s = some 1) := by
  refine ⟨?_, ?_, ?_⟩ <;> intro h <;> simp [GetPackagingProgress, h]

/-- Claim C20 (fails on the code): in the `Packaging` stage with an empty list of tracked
requests the progress is the quotient of zero by the size zero, which is no number of the
interval from 0 to 1.  The updating step reaches this state from `Preparing` when the
resolved list is empty. -/
theorem GetPackagingProgress_empty_packaging :
    (updatePackaging sampleCollaborators
        { sampleServer with
          m_packagingStage := PackagingStage.Preparing
          m_pPackagingTask := some { m_runtimeDependencies := [], GetIsComplete := true }
        }).m_packagingStage = PackagingStage.Packaging
    ∧ (updatePackaging sampleCollaborators
        { sampleServer with
          m_packagingStage := PackagingStage.Preparing
          m_pPackagingTask := some { m_runtimeDependencies := [], GetIsComplete := true }
        }).m_packagingRequests = []
    ∧ GetPackagingProgress
        (updatePackaging sampleCollaborators
          { sampleServer with
            m_packagingStage := PackagingStage.Preparing
            m_pPackagingTask := some { m_runtimeDependencies := [], GetIsComplete := true }
          }) = none := by
  refine ⟨by decide, by decide, ?_⟩
  rfl

/-! ## Lookups in the dependency index -/

theorem find_insert_or_assign {K V : Type} [DecidableEq K] (m : List (K × V)) (k k' : K)
    (v : V) :
    eastl.find (eastl.insert_or_assign m k v) k' = if k = k' then some v else eastl.find m k' := by
  induction m with
  | nil =>
    simp only [eastl.insert_or_assign, eastl.find]
  | cons e m ih =>
    obtain ⟨a, b⟩ := e
    simp only [eastl.insert_or_assign]
    by_cases hak : a = k
    · subst hak
      simp only [if_true, eastl.find]
      by_cases hk : a = k'
      · simp [hk]
      · simp [hk]
    · simp only [hak, if_false, eastl.find]
      by_cases hk : a = k'
      · subst hk
        have : ¬ k = a := fun h => hak h.symm
        simp [this]
      · simp only [hk, if_false]
        exact ih

theorem find_mutate {K V : Type} [DecidableEq K] (m : List (K × V)) (k k' : K) (f : V → V) :
    eastl.find (eastl.mutate m k f) k'
      = if k = k' then (eastl.find m k').map f else eastl.find m k' := by
  induction m with
  | nil =>
    simp [eastl.mutate, eastl.find]
  | cons e m ih =>
    obtain ⟨a, b⟩ := e
    simp only [eastl.mutate]
    by_cases hak : a = k
    · subst hak
      simp only [if_true, eastl.find]
      by_cases hk : a = k'
      · simp [hk]
      · simp [hk]
    · simp only [hak, if_false, eastl.find]
      by_cases hk : a = k'
      · subst hk
        have : ¬ k = a := fun h => hak h.symm
        simp [this]
      · simp only [hk, if_false]
        exact ih

theorem mem_foldl_VectorEmplaceBackUnique {α : Type} [DecidableEq α] :
    ∀ (l v : List α) (x : α), x ∈ l.foldl VectorEmplaceBackUnique v ↔ x ∈ v ∨ x ∈ l
  | [], v, x => by simp
  | a :: l, v, x => by
    rw [List.foldl_cons, mem_foldl_VectorEmplaceBackUnique l, mem_VectorEmplaceBackUnique,
      List.mem_cons]
    tauto

/-- The first loop of `UpdateCompileDependencyTracking`: removal of `resourceID` from the
records of the given file paths. -/
theorem find_erase_phase_of_not_mem (resourceID : ResourceID) :
    ∀ (previous : List Path) (m : List (Path × List ResourceID)) (f : Path), f ∉ previous →
      eastl.find
          (previous.foldl
            (fun m filePath =>
              match eastl.find m filePath with
              | some _ =>
                eastl.mutate m filePath (fun l => eastl.erase_first_unsorted l resourceID)
              | none => m)
            m) f
        = eastl.find m f
  | [], _, _, _ => rfl
  | p :: previous, m, f, hf => by
    rw [List.foldl_cons, find_erase_phase_of_not_mem resourceID previous _ f
      (fun h => hf (List.mem_cons_of_mem _ h))]
    have hpf : ¬ p = f := fun h => hf (h ▸ List.mem_cons_self _ _)
    cases hfind : eastl.find m p with
    | none => rfl
    | some v =>
      simp only []
      rw [find_mutate, if_neg hpf]

/-- The second loop of `UpdateCompileDependencyTracking`, seen through lookups: the record
of `resourceID` collects the resolved paths, and each of these paths gets the record
`[resourceID]`; all other records are as before. -/
theorem find_add_phase (GetFileSystemPath : DataPath → Path) (resourceID : ResourceID) :
    ∀ (compileDependencies : List DataPath) (st : DependencyIndex) (previous : List Path),
      eastl.find st.m_resourceIDToCompileDependencyMap resourceID = some previous →
      (∀ k, eastl.find
            (compileDependencies.foldl
              (fun st resourcePath =>
                { m_compileDependencyToResourceIDMap :=
                    eastl.mutate
                      (eastl.insert_or_assign st.m_compileDependencyToResourceIDMap
                        (GetFileSystemPath resourcePath) [])
                      (GetFileSystemPath resourcePath)
                      (fun l => VectorEmplaceBackUnique l resourceID)
                  m_resourceIDToCompileDependencyMap :=
                    eastl.mutate st.m_resourceIDToCompileDependencyMap resourceID
                      (fun l => VectorEmplaceBackUnique l (GetFileSystemPath resourcePath)) })
              st).m_resourceIDToCompileDependencyMap k
          = if resourceID = k then
              some ((compileDependencies.map GetFileSystemPath).foldl VectorEmplaceBackUnique
                previous)
            else eastl.find st.m_resourceIDToCompileDependencyMap k)
      ∧ (∀ f, eastl.find
            (compileDependencies.foldl
              (fun st resourcePath =>
                { m_compileDependencyToResourceIDMap :=
                    eastl.mutate
                      (eastl.insert_or_assign st.m_compileDependencyToResourceIDMap
                        (GetFileSystemPath resourcePath) [])
                      (GetFileSystemPath resourcePath)
                      (fun l => VectorEmplaceBackUnique l resourceID)
                  m_resourceIDToCompileDependencyMap :=
                    eastl.mutate st.m_resourceIDToCompileDependencyMap resourceID
                      (fun l => VectorEmplaceBackUnique l (GetFileSystemPath resourcePath)) })
              st).m_compileDependencyToResourceIDMap f
          = if f ∈ compileDependencies.map GetFileSystemPath then some [resourceID]
            else eastl.find st.m_compileDependencyToResourceIDMap f)
  | [], st, previous, hprev => by
    constructor
    · intro k
      by_cases hk : resourceID = k
      · subst hk
        simp [hprev]
      · simp [hk]
    · intro f
      simp
  | d :: compileDependencies, st, previous, hprev => by
    have hnext : eastl.find
        (eastl.mutate st.m_resourceIDToCompileDependencyMap resourceID
          (fun l => VectorEmplaceBackUnique l (GetFileSystemPath d))) resourceID
        = some (VectorEmplaceBackUnique previous (GetFileSystemPath d)) := by
      rw [find_mutate, if_pos rfl, hprev]
      rfl
    obtain ⟨ih1, ih2⟩ := find_add_phase GetFileSystemPath resourceID compileDependencies
      { m_compileDependencyToResourceIDMap :=
          eastl.mutate
            (eastl.insert_or_assign st.m_compileDependencyToResourceIDMap
              (GetFileSystemPath d) [])
            (GetFileSystemPath d) (fun l => VectorEmplaceBackUnique l resourceID)
        m_resourceIDToCompileDependencyMap :=
          eastl.mutate st.m_resourceIDToCompileDependencyMap resourceID
            (fun l => VectorEmplaceBackUnique l (GetFileSystemPath d)) }
      (VectorEmplaceBackUnique previous (GetFileSystemPath d)) hnext
    constructor
    · intro k
      rw [List.foldl_cons, ih1 k]
      by_cases hk : resourceID = k
      · simp [hk]
      · simp only [hk, if_false]
        rw [find_mutate, if_neg hk]
    · intro f
      rw [List.foldl_cons, ih2 f]
      by_cases hf : f ∈ compileDependencies.map GetFileSystemPath
      · simp [hf]
      · simp only [hf, if_false]
        rw [find_mutate, find_insert_or_assign]
        by_cases hdf : GetFileSystemPath d = f
        · subst hdf
          simp [VectorEmplaceBackUnique]
        · have : ¬ f = GetFileSystemPath d := fun h => hdf h.symm
          simp [hdf, this, hf]

theorem mem_of_mem_erase_unsorted {α : Type} (v : List α) (i : Nat) (x : α)
    (hx : x ∈ eastl.erase_unsorted v i) : x ∈ v := by
  unfold eastl.erase_unsorted at hx
  cases hlast : v.getLast? with
  | none =>
    rw [hlast] at hx
    exact hx
  | some last =>
    rw [hlast] at hx
    simp only [] at hx
    split at hx
    · rcases List.mem_or_eq_of_mem_set (List.mem_of_mem_dropLast hx) with h | h
      · exact h
      · subst h
        exact List.mem_of_mem_getLast? hlast
    · exact hx

theorem mem_of_mem_erase_first_unsorted {α : Type} [DecidableEq α] (v : List α) (y x : α)
    (hx : x ∈ eastl.erase_first_unsorted v y) : x ∈ v := by
  unfold eastl.erase_first_unsorted at hx
  split at hx
  · exact mem_of_mem_erase_unsorted v _ x hx
  · exact hx

/-- The first loop of `UpdateCompileDependencyTracking` only removes ids from records. -/
theorem find_erase_phase_subset (resourceID : ResourceID) :
    ∀ (previous : List Path) (m : List (Path × List ResourceID)) (f : Path)
      (v' : List ResourceID),
      eastl.find
          (previous.foldl
            (fun m filePath =>
              match eastl.find m filePath with
              | some _ =>
                eastl.mutate m filePath (fun l => eastl.erase_first_unsorted l resourceID)
              | none => m)
            m) f
        = some v' →
      ∃ v, eastl.find m f = some v ∧ ∀ x ∈ v', x ∈ v
  | [], m, f, v', h => ⟨v', h, fun _ hx => hx⟩
  | p :: previous, m, f, v', h => by
    rw [List.foldl_cons] at h
    obtain ⟨v1, hv1, hsub⟩ := find_erase_phase_subset resourceID previous _ f v' h
    cases hfind : eastl.find m p with
    | none =>
      rw [hfind] at hv1
      exact ⟨v1, hv1, hsub⟩
    | some v0 =>
      rw [hfind] at hv1
      simp only [] at hv1
      rw [find_mutate] at hv1
      by_cases hpf : p = f
      · subst hpf
        rw [if_pos rfl, hfind] at hv1
        simp only [Option.map_some', Option.some.injEq] at hv1
        subst hv1
        exact ⟨v0, hfind, fun x hx =>
          mem_of_mem_erase_first_unsorted v0 resourceID x (hsub x hx)⟩
      · rw [if_neg hpf] at hv1
        exact ⟨v1, hv1, hsub⟩

/-- `UpdateCompileDependencyTracking` seen through lookups in `by_resource`: the record of
`resourceID` becomes the resolved paths without repetition, every other record is kept. -/
theorem find_UpdateCompileDependencyTracking_byResource (GetFileSystemPath : DataPath → Path)
    (s : DependencyIndex) (resourceID : ResourceID) (compileDependencies : List DataPath)
    (k : ResourceID) :
    eastl.find
        (UpdateCompileDependencyTracking GetFileSystemPath s resourceID
          compileDependencies).m_resourceIDToCompileDependencyMap k
      = if resourceID = k then
          some ((compileDependencies.map GetFileSystemPath).foldl VectorEmplaceBackUnique [])
        else eastl.find s.m_resourceIDToCompileDependencyMap k := by
  unfold UpdateCompileDependencyTracking
  simp only []
  refine ((find_add_phase GetFileSystemPath resourceID compileDependencies _ [] ?_).1 k).trans ?_
  · simp only []
    rw [find_insert_or_assign, if_pos rfl]
  · by_cases hk : resourceID = k
    · simp [hk]
    · simp only [hk, if_false]
      rw [find_insert_or_assign, if_neg hk]

/-- `UpdateCompileDependencyTracking` seen through lookups in `by_file`, for a path among
the new dependencies: its record becomes `[resourceID]`. -/
theorem find_UpdateCompileDependencyTracking_byFile_new (GetFileSystemPath : DataPath → Path)
    (s : DependencyIndex) (resourceID : ResourceID) (compileDependencies : List DataPath)
    (f : Path) (hf : f ∈ compileDependencies.map GetFileSystemPath) :
    eastl.find
        (UpdateCompileDependencyTracking GetFileSystemPath s resourceID
          compileDependencies).m_compileDependencyToResourceIDMap f
      = some [resourceID] := by
  unfold UpdateCompileDependencyTracking
  simp only []
  refine ((find_add_phase GetFileSystemPath resourceID compileDependencies _ [] ?_).2 f).trans ?_
  · simp only []
    rw [find_insert_or_assign, if_pos rfl]
  · rw [if_pos hf]

/-- `UpdateCompileDependencyTracking` seen through lookups in `by_file`, for a path that is
neither among the new dependencies nor among those recorded for `resourceID` before: its
record is kept. -/
theorem find_UpdateCompileDependencyTracking_byFile_other (GetFileSystemPath : DataPath → Path)
    (s : DependencyIndex) (resourceID : ResourceID) (compileDependencies : List DataPath)
    (f : Path) (hf : f ∉ compileDependencies.map GetFileSystemPath)
    (hprev : f ∉ s.dependenciesOf resourceID) :
    eastl.find
        (UpdateCompileDependencyTracking GetFileSystemPath s resourceID
          compileDependencies).m_compileDependencyToResourceIDMap f
      = eastl.find s.m_compileDependencyToResourceIDMap f := by
  unfold UpdateCompileDependencyTracking
  simp only []
  refine ((find_add_phase GetFileSystemPath resourceID compileDependencies _ [] ?_).2 f).trans ?_
  · simp only []
    rw [find_insert_or_assign, if_pos rfl]
  · rw [if_neg hf]
    simp only []
    unfold DependencyIndex.dependenciesOf at hprev
    cases hfind : eastl.find s.m_resourceIDToCompileDependencyMap resourceID with
    | none => rfl
    | some previous =>
      rw [hfind] at hprev
      exact find_erase_phase_of_not_mem resourceID previous _ f hprev

/-- Every id in a record of `by_file` after `UpdateCompileDependencyTracking` is
`resourceID` or was in the record of the same path before. -/
theorem mem_dependentsOf_UpdateCompileDependencyTracking (GetFileSystemPath : DataPath → Path)
    (s : DependencyIndex) (resourceID : ResourceID) (compileDependencies : List DataPath)
    (f : Path) (d : ResourceID)
    (hd : d ∈ (UpdateCompileDependencyTracking GetFileSystemPath s resourceID
          compileDependencies).dependentsOf f) :
    d = resourceID ∨ d ∈ s.dependentsOf f := by
  unfold DependencyIndex.dependentsOf at hd ⊢
  by_cases hf : f ∈ compileDependencies.map GetFileSystemPath
  · rw [find_UpdateCompileDependencyTracking_byFile_new GetFileSystemPath s resourceID
      compileDependencies f hf] at hd
    simp only [Option.getD_some, List.mem_singleton] at hd
    exact Or.inl hd
  · right
    have hfind : eastl.find
        (UpdateCompileDependencyTracking GetFileSystemPath s resourceID
          compileDependencies).m_compileDependencyToResourceIDMap f
        = eastl.find
            (match eastl.find s.m_resourceIDToCompileDependencyMap resourceID with
              | some previous =>
                previous.foldl
                  (fun m filePath =>
                    match eastl.find m filePath with
                    | some _ =>
                      eastl.mutate m filePath
                        (fun l => eastl.erase_first_unsorted l resourceID)
                    | none => m)
                  s.m_compileDependencyToResourceIDMap
              | none => s.m_compileDependencyToResourceIDMap) f := by
      unfold UpdateCompileDependencyTracking
      simp only []
      refine ((find_add_phase GetFileSystemPath resourceID compileDependencies _ [] ?_).2
        f).trans ?_
      · simp only []
        rw [find_insert_or_assign, if_pos rfl]
      · rw [if_neg hf]
    rw [hfind] at hd
    cases hprev : eastl.find s.m_resourceIDToCompileDependencyMap resourceID with
    | none =>
      rw [hprev] at hd
      exact hd
    | some previous =>
      rw [hprev] at hd
      simp only [] at hd
      cases hres : eastl.find
          (previous.foldl
            (fun m filePath =>
              match eastl.find m filePath with
              | some _ =>
                eastl.mutate m filePath (fun l => eastl.erase_first_unsorted l resourceID)
              | none => m)
            s.m_compileDependencyToResourceIDMap) f with
      | none =>
        rw [hres] at hd
        simp at hd
      | some v' =>
        rw [hres] at hd
        obtain ⟨v, hv, hsub⟩ := find_erase_phase_subset resourceID previous _ f v' hres
        rw [hv]
        exact hsub d hd

/-- Claim C19: `UpdateCompileDependencyTracking` is idempotent.  Applied a second time with
the same resource and the same dependency list, it leaves every record of both maps as the
first application made it: for every resource the recorded paths, and for every path the
recorded resources, are the same (as lists, hence as sets), and a key has a record after
the second application exactly when it had one after the first. -/
theorem UpdateCompileDependencyTracking_idempotent (GetFileSystemPath : DataPath → Path)
    (s : DependencyIndex) (resourceID : ResourceID) (compileDependencies : List DataPath) :
    (∀ k : ResourceID,
      eastl.find
          (UpdateCompileDependencyTracking GetFileSystemPath
            (UpdateCompileDependencyTracking GetFileSystemPath s resourceID compileDependencies)
            resourceID compileDependencies).m_resourceIDToCompileDependencyMap k
        = eastl.find
            (UpdateCompileDependencyTracking GetFileSystemPath s resourceID
              compileDependencies).m_resourceIDToCompileDependencyMap k)
    ∧ (∀ f : Path,
      eastl.find
          (UpdateCompileDependencyTracking GetFileSystemPath
            (UpdateCompileDependencyTracking GetFileSystemPath s resourceID compileDependencies)
            resourceID compileDependencies).m_compileDependencyToResourceIDMap f
        = eastl.find
            (UpdateCompileDependencyTracking GetFileSystemPath s resourceID
              compileDependencies).m_compileDependencyToResourceIDMap f)
    ∧ (∀ k : ResourceID,
      (UpdateCompileDependencyTracking GetFileSystemPath
          (UpdateCompileDependencyTracking GetFileSystemPath s resourceID compileDependencies)
          resourceID compileDependencies).dependenciesOf k
        = (UpdateCompileDependencyTracking GetFileSystemPath s resourceID
            compileDependencies).dependenciesOf k)
    ∧ (∀ f : Path,
      (UpdateCompileDependencyTracking GetFileSystemPath
          (UpdateCompileDependencyTracking GetFileSystemPath s resourceID compileDependencies)
          resourceID compileDependencies).dependentsOf f
        = (UpdateCompileDependencyTracking GetFileSystemPath s resourceID
            compileDependencies).dependentsOf f) := by
  have hres : ∀ k : ResourceID,
      eastl.find
          (UpdateCompileDependencyTracking GetFileSystemPath
            (UpdateCompileDependencyTracking GetFileSystemPath s resourceID compileDependencies)
            resourceID compileDependencies).m_resourceIDToCompileDependencyMap k
        = eastl.find
            (UpdateCompileDependencyTracking GetFileSystemPath s resourceID
              compileDependencies).m_resourceIDToCompileDependencyMap k := by
    intro k
    rw [find_UpdateCompileDependencyTracking_byResource,
      find_UpdateCompileDependencyTracking_byResource]
    by_cases hk : resourceID = k <;> simp [hk]
  have hfile : ∀ f : Path,
      eastl.find
          (UpdateCompileDependencyTracking GetFileSystemPath
            (UpdateCompileDependencyTracking GetFileSystemPath s resourceID compileDependencies)
            resourceID compileDependencies).m_compileDependencyToResourceIDMap f
        = eastl.find
            (UpdateCompileDependencyTracking GetFileSystemPath s resourceID
              compileDependencies).m_compileDependencyToResourceIDMap f := by
    intro f
    by_cases hf : f ∈ compileDependencies.map GetFileSystemPath
    · rw [find_UpdateCompileDependencyTracking_byFile_new _ _ _ _ f hf,
        find_UpdateCompileDependencyTracking_byFile_new _ _ _ _ f hf]
    · apply find_UpdateCompileDependencyTracking_byFile_other _ _ _ _ f hf
      unfold DependencyIndex.dependenciesOf
      rw [find_UpdateCompileDependencyTracking_byResource, if_pos rfl]
      simp only [Option.getD_some]
      intro hmem
      rcases (mem_foldl_VectorEmplaceBackUnique _ _ f).mp hmem with h | h
      · cases h
      · exact hf h
  refine ⟨hres, hfile, ?_, ?_⟩
  · intro k
    unfold DependencyIndex.dependenciesOf
    rw [hres k]
  · intro f
    unfold DependencyIndex.dependentsOf
    rw [hfile f]

/-! ## The file-system watcher step -/

theorem CreateResourceRequest_m_pSettings (c : Collaborators) (s : ResourceServer)
    (resourceID : ResourceID) (clientID : Nat) (origin : Origin) (extraInfo : String) :
    (CreateResourceRequest c s resourceID clientID origin extraInfo).1.m_pSettings
      = s.m_pSettings := by
  unfold CreateResourceRequest
  simp only []
  split
  · split
    · split <;> rfl
    · rfl
  · rfl

/-- `CreateResourceRequest` keeps the ids recorded in `by_file` valid. -/
theorem CreateResourceRequest_DependentsValid (c : Collaborators) (s : ResourceServer)
    (resourceID : ResourceID) (clientID : Nat) (origin : Origin) (extraInfo : String)
    (h : DependentsValid c s.toDependencyIndex) :
    DependentsValid c
      (CreateResourceRequest c s resourceID clientID origin extraInfo).1.toDependencyIndex := by
  unfold CreateResourceRequest
  simp only []
  split
  · rename_i hvalid
    split
    · split
      · intro f d hd
        rcases mem_dependentsOf_UpdateCompileDependencyTracking _ _ _ _ f d hd with h1 | h1
        · rw [h1]
          exact hvalid
        · exact h f d h1
      · exact h
    · exact h
  · exact h

/-- The fields of the request created for a valid resource id. -/
theorem CreateResourceRequest_valid_fields (c : Collaborators) (s : ResourceServer)
    (resourceID : ResourceID) (clientID : Nat) (origin : Origin) (extraInfo : String)
    (hvalid : c.IsValid resourceID = true) :
    ∃ pRequest : CompilationRequest,
      (CreateResourceRequest c s resourceID clientID origin extraInfo).1.arena
          = s.arena ++ [pRequest]
      ∧ (pRequest.m_resourceID, pRequest.m_origin, pRequest.m_clientID, pRequest.m_extraInfo,
          pRequest.m_status) = (resourceID, origin, clientID, extraInfo, Status.Pending) :=
  ⟨_, (CreateResourceRequest_valid c s resourceID clientID origin extraInfo hvalid).1, rfl⟩

/-- The requests created for the dependents of a changed file: one per dependent, in the
order of the list, each `Pending` with origin `FileWatcher`, client id 0 and the given
extra info. -/
theorem foldl_CreateResourceRequest_dependents (c : Collaborators) (extraInfo : String) :
    ∀ (dependents : List ResourceID) (s : ResourceServer),
      (∀ d ∈ dependents, c.IsValid d = true) →
      ∃ created : List CompilationRequest,
        (dependents.foldl
            (fun s dependentResourceID =>
              (CreateResourceRequest c s dependentResourceID 0 Origin.FileWatcher extraInfo).1)
            s).arena = s.arena ++ created
        ∧ created.map
            (fun r => (r.m_resourceID, r.m_origin, r.m_clientID, r.m_extraInfo, r.m_status))
          = dependents.map (fun d => (d, Origin.FileWatcher, 0, extraInfo, Status.Pending))
        ∧ (dependents.foldl
            (fun s dependentResourceID =>
              (CreateResourceRequest c s dependentResourceID 0 Origin.FileWatcher extraInfo).1)
            s).m_requests = s.m_requests ++ List.range' s.arena.length dependents.length
  | [], s, _ => ⟨[], by simp, rfl, by simp⟩
  | d :: dependents, s, hvalid => by
    have hd : c.IsValid d = true := hvalid d (List.mem_cons_self _ _)
    obtain ⟨_, h2, _⟩ := CreateResourceRequest_valid c s d 0 Origin.FileWatcher extraInfo hd
    obtain ⟨r, h1, hfields⟩ :=
      CreateResourceRequest_valid_fields c s d 0 Origin.FileWatcher extraInfo hd
    obtain ⟨created, ha, hm, hr⟩ := foldl_CreateResourceRequest_dependents c extraInfo dependents
      (CreateResourceRequest c s d 0 Origin.FileWatcher extraInfo).1
      (fun x hx => hvalid x (List.mem_cons_of_mem _ hx))
    rw [List.foldl_cons]
    refine ⟨r :: created, ?_, ?_, ?_⟩
    · rw [ha, h1, List.append_assoc]
      rfl
    · rw [List.map_cons, List.map_cons, hm, hfields]
    · rw [hr, h1, h2, List.length_append, List.length_singleton, List.append_assoc,
        List.length_cons]
      rfl

/-- Claim C12 (fails on the code): `mat:x.mat` has registered the dependency
`shaders/common.shader`, whose extension is no 4CC, so the path is not itself a resource.
For the change event of that file the watcher step creates no request, although `by_file`
holds `mat:x.mat` for the path: the lookup in `by_file`, which reads the path of the event
only, is nested under the tests made for the construction of a `ResourceID`. -/
theorem watcher_skips_dependency_without_fourCC :
    sampleWatcherServer.toDependencyIndex.dependentsOf "D:/Data/shaders/common.shader"
        = ["mat:x.mat"]
    ∧ sampleWatcherCollaborators.FromFileSystemPath "D:/Data/" "D:/Data/shaders/common.shader"
        = some "shaders/common.shader"
    ∧ sampleWatcherCollaborators.GetExtension "shaders/common.shader" = some "shader"
    ∧ sampleWatcherCollaborators.IsValidResourceFourCC "shader" = false
    ∧ (processFileSystemEvents sampleWatcherCollaborators
        [⟨"D:/Data/shaders/common.shader", false⟩] sampleWatcherServer).1.m_requests = []
    ∧ (processFileSystemEvents sampleWatcherCollaborators
        [⟨"D:/Data/shaders/common.shader", false⟩] sampleWatcherServer).1.arena = [] := by
  decide

/-- What the body of the watcher loop does on a file event whose path converted to a
valid data path: (1) when the data path has no extension, or its extension is no valid 4CC,
or it does not resolve to a valid `ResourceID`, the body returns the state as it was,
whatever `by_file` holds for the path; (2) when the extension is a valid 4CC and the path
resolves to a valid `ResourceID` whose type has no resource info, the body creates nothing
if the path is absent from `by_file`, and otherwise, the ids recorded in `by_file` being
valid, exactly one request per resource of `by_file[path]` as it stood before the event, in
the order of that list, each `Pending` with origin `FileWatcher`, client id 0 and the extra
info `Compile dependency change detected (<path>)!`. -/
theorem processFileEvent_dependency_lookup (c : WatcherCollaborators) (s : ResourceServer)
    (fsEvent : FileSystemEvent) (resourcePath : DataPath) :
    ((c.GetExtension resourcePath = none
        ∨ (∃ ext, c.GetExtension resourcePath = some ext ∧ c.IsValidResourceFourCC ext = false)
        ∨ c.IsValid (c.ResourceIDFromDataPath resourcePath) = false) →
      processFileEvent c s fsEvent resourcePath = s)
    ∧ (∀ ext, c.GetExtension resourcePath = some ext → c.IsValidResourceFourCC ext = true →
        c.IsValid (c.ResourceIDFromDataPath resourcePath) = true →
        c.HasResourceInfo (c.ResourceIDFromDataPath resourcePath) = false →
        (eastl.find s.m_compileDependencyToResourceIDMap fsEvent.m_path = none →
          processFileEvent c s fsEvent resourcePath = s)
        ∧ ∀ dependents,
            eastl.find s.m_compileDependencyToResourceIDMap fsEvent.m_path = some dependents →
            DependentsValid c.toCollaborators s.toDependencyIndex →
            ∃ created : List CompilationRequest,
              (processFileEvent c s fsEvent resourcePath).arena = s.arena ++ created
              ∧ created.map
                  (fun r =>
                    (r.m_resourceID, r.m_origin, r.m_clientID, r.m_extraInfo, r.m_status))
                = dependents.map (fun d =>
                    (d, Origin.FileWatcher, 0,
                      "Compile dependency change detected (" ++ fsEvent.m_path ++ ")!",
                      Status.Pending))
              ∧ (processFileEvent c s fsEvent resourcePath).m_requests
                  = s.m_requests ++ List.range' s.arena.length dependents.length) := by
  constructor
  · rintro (h | ⟨ext, h1, h2⟩ | h)
    · simp [processFileEvent, h]
    · simp [processFileEvent, h1, h2]
    · unfold processFileEvent
      cases c.GetExtension resourcePath with
      | none => rfl
      | some ext =>
        simp only []
        split
        · simp [h]
        · rfl
  · intro ext hext hfour hvalid hinfo
    constructor
    · intro hnone
      simp [processFileEvent, hext, hfour, hvalid, hinfo, hnone]
    · intro dependents hsome hdv
      have hall : ∀ d ∈ dependents, c.IsValid d = true := by
        intro d hd
        apply hdv fsEvent.m_path d
        unfold DependencyIndex.dependentsOf
        rw [hsome]
        exact hd
      have hstep : processFileEvent c s fsEvent resourcePath
          = dependents.foldl
              (fun s dependentResourceID =>
                (CreateResourceRequest c.toCollaborators s dependentResourceID 0
                  Origin.FileWatcher
                  ("Compile dependency change detected (" ++ fsEvent.m_path ++ ")!")).1)
              s := by
        simp [processFileEvent, hext, hfour, hvalid, hinfo, hsome]
      rw [hstep]
      exact foldl_CreateResourceRequest_dependents c.toCollaborators _ dependents s hall

theorem sampleWatcherServer_DependentsValid :
    DependentsValid sampleCollaborators sampleWatcherServer.toDependencyIndex := by
  intro f d hd
  unfold DependencyIndex.dependentsOf at hd
  simp only [sampleWatcherServer, sampleServer, eastl.find] at hd
  split at hd
  · simp only [Option.getD_some, List.mem_singleton] at hd
    subst hd
    decide
  · split at hd
    · simp only [Option.getD_some, List.mem_singleton] at hd
      subst hd
      decide
    · simp at hd

/-- The event loop on a single file event whose path converts to a valid data path is the
loop body on that event. -/
theorem processFileSystemEvents_single (c : WatcherCollaborators) (s : ResourceServer)
    (fsEvent : FileSystemEvent) (resourcePath : DataPath)
    (hfile : fsEvent.IsDirectoryEvent = false)
    (hpath : c.FromFileSystemPath s.m_pSettings.m_sourceDataDirectoryPath fsEvent.m_path
      = some resourcePath) :
    processFileSystemEvents c [fsEvent] s = (processFileEvent c s fsEvent resourcePath, false) := by
  simp [processFileSystemEvents, hfile, hpath]

/-- The lookup at a concrete input: the change event of `shaders/common.hlsl`, on which
`mat:x.mat` depends, creates one `FileWatcher` request for `mat:x.mat`. -/
theorem processFileEvent_dependency_lookup_witness :
    ∃ created : List CompilationRequest,
      (processFileEvent sampleWatcherCollaborators sampleWatcherServer
          ⟨"D:/Data/shaders/common.hlsl", false⟩ "shaders/common.hlsl").arena
        = sampleWatcherServer.arena ++ created
      ∧ created.map
          (fun r => (r.m_resourceID, r.m_origin, r.m_clientID, r.m_extraInfo, r.m_status))
        = ["mat:x.mat"].map (fun d =>
            (d, Origin.FileWatcher, 0,
              "Compile dependency change detected (" ++ "D:/Data/shaders/common.hlsl" ++ ")!",
              Status.Pending))
      ∧ (processFileEvent sampleWatcherCollaborators sampleWatcherServer
          ⟨"D:/Data/shaders/common.hlsl", false⟩ "shaders/common.hlsl").m_requests
        = sampleWatcherServer.m_requests
            ++ List.range' sampleWatcherServer.arena.length ["mat:x.mat"].length :=
  ((processFileEvent_dependency_lookup sampleWatcherCollaborators sampleWatcherServer
      ⟨"D:/Data/shaders/common.hlsl", false⟩ "shaders/common.hlsl").2 "hlsl"
      (by decide) (by decide) (by decide) (by decide)).2 ["mat:x.mat"] (by decide)
    sampleWatcherServer_DependentsValid

/-- The same event run through the event loop: one request for `mat:x.mat` is created. -/
theorem watcher_creates_request_for_dependent :
    ((processFileSystemEvents sampleWatcherCollaborators
        [⟨"D:/Data/shaders/common.hlsl", false⟩] sampleWatcherServer).1.arena.map
      (fun r => (r.m_resourceID, r.m_origin, r.m_clientID, r.m_extraInfo, r.m_status))
      = [("mat:x.mat", Origin.FileWatcher, 0,
          "Compile dependency change detected (D:/Data/shaders/common.hlsl)!",
          Status.Pending)])
    ∧ (processFileSystemEvents sampleWatcherCollaborators
        [⟨"D:/Data/shaders/common.hlsl", false⟩] sampleWatcherServer).1.m_requests = [0] := by
  decide

/-! ## Duplicates in the resolved list -/

theorem VectorEmplaceBackUnique_nodup {α : Type} [DecidableEq α] (v : List α) (x : α)
    (hv : v.Nodup) : (VectorEmplaceBackUnique v x).Nodup := by
  unfold VectorEmplaceBackUnique
  split
  · exact hv
  · rename_i hx
    rw [List.nodup_append]
    exact ⟨hv, List.nodup_singleton x, by
      intro a ha hb
      rw [List.mem_singleton] at hb
      subst hb
      exact hx ha⟩

/-- The traversal adds no id twice: a vector without repetition stays without repetition. -/
theorem EnqueueResourceForPackaging_nodup (ctx : PackagingContext) :
    ∀ (depth : Nat) (resourceID : ResourceID) (deps deps' : List ResourceID),
      EnqueueResourceForPackaging ctx depth resourceID deps = some deps' →
      deps.Nodup → deps'.Nodup
  | 0, _, _, _, h, _ => by simp [EnqueueResourceForPackaging] at h
  | depth + 1, resourceID, deps, deps', h, hdeps => by
    cases hexit : ctx.m_isExiting with
    | true =>
      simp [EnqueueResourceForPackaging, hexit] at h
      subst h
      exact hdeps
    | false =>
      cases hg : ctx.GetCompilerForResourceType (ctx.GetResourceTypeID resourceID) with
      | none =>
        rw [EnqueueResourceForPackaging_succ_none ctx depth resourceID deps hg] at h
        cases h
        exact hdeps
      | some g =>
        rw [EnqueueResourceForPackaging_succ_some ctx depth resourceID deps g hexit hg] at h
        exact foldlM_some_invariant _ List.Nodup _ _ _
          (fun d x d' _ hd hfx => EnqueueResourceForPackaging_nodup ctx depth x d d' hfx hd)
          (VectorEmplaceBackUnique_nodup deps resourceID hdeps) h

/-- When the module resources, taken together, name no resource twice, the resolved list
names no resource twice. -/
theorem PackagingTask_resolved_nodup (ctx : PackagingContext) (depth : Nat)
    (m_mapsToBePackaged resolved : List ResourceID)
    (hmodules : ctx.moduleResources.Nodup)
    (hrun : PackagingTask.ExecuteRange ctx depth m_mapsToBePackaged = some resolved) :
    resolved.Nodup := by
  rw [PackagingTask_ExecuteRange_eq] at hrun
  exact foldlM_some_invariant _ List.Nodup _ _ _
    (fun d x d' _ hd hfx => EnqueueResourceForPackaging_nodup ctx depth x d d' hfx hd)
    hmodules hrun

/-- Claim C21 (fails on the code): the base module and the engine module both report
`tex:engine/default.tex`, and the seed is `map:world.map`.  The traversal terminates and
the resolved list holds the texture twice: the module resources are appended with
`emplace_back`, only the ids found by the traversal are added uniquely. -/
theorem PackagingTask_module_resources_duplicated :
    PackagingTask.ExecuteRange sampleSharedModuleContext 3 ["map:world.map"]
        = some ["tex:engine/default.tex", "tex:engine/default.tex", "mat:engine/default.mat",
            "map:world.map", "mesh:a.msh"]
    ∧ ¬ (["tex:engine/default.tex", "tex:engine/default.tex", "mat:engine/default.mat",
            "map:world.map", "mesh:a.msh"] : List ResourceID).Nodup := by
  decide

/-! ## Log stripping without the delimiter -/

/-- When no character of the delimiter occurs in the log, the log is left as it is. -/
theorem stripPreamble_no_delimiter_character (s_delimiter log : String)
    (hnone : find_first_of log.data s_delimiter.data = none) :
    stripPreamble s_delimiter log = (log, false) := by
  simp [stripPreamble, hnone]

/-- Claim C22 (fails on the code): the captured output `compiler LOG missing`, followed by
a line feed and `Error: no mesh`, does not contain the delimiter `##LOG##` but contains its
characters `L`, `O` and `G`.  The task does not keep the output unchanged: it removes its
first 8 bytes. -/
theorem ExecuteRange_strips_without_delimiter :
    firstOccurrence sampleTaskEnvironment.s_delimiter.data
        "compiler LOG missing\nError: no mesh".data = none
    ∧ (CompilationTask.ExecuteRange sampleTaskEnvironment false
        ⟨0, 0, 3, ["compiler LOG missing\n", "Error: no mesh"]⟩ sampleRequest).request.m_log
        = " LOG missing\nError: no mesh"
    ∧ (CompilationTask.ExecuteRange sampleTaskEnvironment false
        ⟨0, 0, 3, ["compiler LOG missing\n", "Error: no mesh"]⟩ sampleRequest).request.m_log
        ≠ "compiler LOG missing\nError: no mesh" := by
  decide

/-! ## The assertion of the reap loop at shutdown -/

/-- Claim C23 (fails on the code): a request for the valid id `mesh:a/b.msh` is created and
the server shuts down before a worker has run its task.  The task then runs with the
exiting flag set and returns at once, so it reports complete while its request is still
`Pending`; in the final reap the assertion `pRequest->IsComplete ()` does not hold. -/
theorem shutdown_reap_assertion_fails :
    (ShutdownBeforeReap sampleTaskEnvironment (fun _ => ⟨0, 0, 0, []⟩)
        (CreateResourceRequest sampleCollaborators sampleServer "mesh:a/b.msh" 7
          Origin.External "").1).m_activeTasks = [{ m_pRequest := 0, GetIsComplete := true }]
    ∧ ((ShutdownBeforeReap sampleTaskEnvironment (fun _ => ⟨0, 0, 0, []⟩)
        (CreateResourceRequest sampleCollaborators sampleServer "mesh:a/b.msh" 7
          Origin.External "").1).arena.map (fun r => r.m_status) = [Status.Pending])
    ∧ ProcessCompletedRequestsAsserts
        (ShutdownBeforeReap sampleTaskEnvironment (fun _ => ⟨0, 0, 0, []⟩)
          (CreateResourceRequest sampleCollaborators sampleServer "mesh:a/b.msh" 7
            Origin.External "").1) = false := by
  decide

/-- A task that has run while the server was not exiting leaves its request complete, so
the assertion of the reap loop holds for it. -/
theorem ExecuteRange_not_exiting_complete (env : TaskEnvironment) (child : ChildProcess)
    (r : CompilationRequest) :
    (CompilationTask.ExecuteRange env false child r).request.IsComplete = true := by
  cases hr : r.IsComplete with
  | true =>
    rw [(ExecuteRange_complete_request env false child r hr).1]
    exact hr
  | false =>
    obtain ⟨t, ht, _, hst⟩ := ExecuteRange_statusWrites env child r hr
    unfold CompilationRequest.IsComplete
    rw [hst]
    rcases ht with h | h | h | h <;> rw [h] <;> decide

/-! ## A batch of file-system events -/

/-- A directory event is skipped: the loop goes on with the rest of the batch. -/
theorem processFileSystemEvents_directory (c : WatcherCollaborators) (s : ResourceServer)
    (fsEvent : FileSystemEvent) (rest : List FileSystemEvent)
    (hdir : fsEvent.IsDirectoryEvent = true) :
    processFileSystemEvents c (fsEvent :: rest) s = processFileSystemEvents c rest s := by
  simp [processFileSystemEvents, hdir]

/-- A file event whose path does not convert to a valid data path ends the loop: whatever
the rest of the batch is, the server stays as it is and the loop is left by `return`. -/
theorem processFileSystemEvents_invalid_path (c : WatcherCollaborators) (s : ResourceServer)
    (fsEvent : FileSystemEvent) (rest : List FileSystemEvent)
    (hfile : fsEvent.IsDirectoryEvent = false)
    (hpath : c.FromFileSystemPath s.m_pSettings.m_sourceDataDirectoryPath fsEvent.m_path = none) :
    processFileSystemEvents c (fsEvent :: rest) s = (s, true) := by
  simp [processFileSystemEvents, hfile, hpath]

/-- Claim C26 (fails on the code): the batch holds the event of `C:/Temp/notes.txt`, which
lies outside of the source-data root and does not convert to a valid data path, followed by
the event of the material file `x.mat`.  Alone, the first event creates no request and the
second one creates a request for `mat:x.mat`; for the batch no request is created, because
the first event leaves the loop by `return` and the second event is not processed. -/
theorem watcher_batch_stops_at_invalid_path :
    (processFileSystemEvents sampleWatcherCollaborators
        [⟨"C:/Temp/notes.txt", false⟩] sampleWatcherServer).1.arena = []
    ∧ ((processFileSystemEvents sampleWatcherCollaborators
        [⟨"D:/Data/x.mat", false⟩] sampleWatcherServer).1.arena.map
      (fun r => (r.m_resourceID, r.m_origin, r.m_clientID, r.m_extraInfo))
      = [("mat:x.mat", Origin.FileWatcher, 0, "External file system change detected!")])
    ∧ (processFileSystemEvents sampleWatcherCollaborators
        [⟨"C:/Temp/notes.txt", false⟩, ⟨"D:/Data/x.mat", false⟩] sampleWatcherServer).1.arena
        = []
    ∧ (processFileSystemEvents sampleWatcherCollaborators
        [⟨"C:/Temp/notes.txt", false⟩, ⟨"D:/Data/x.mat", false⟩] sampleWatcherServer).2
        = true := by
  decide

/-! ## Cleanup against the active tasks and the tracked packaging requests -/

/-- Claim C30 (fails on the code): cleanup is requested and client 7 sends the invalid id
`:/`.  In the same `Update` the request is created `Failed`, its task is scheduled and has
not yet reported complete, and the cleanup step removes the request from the request list:
afterwards the task in the active set refers to a request that is no longer in the list.
Likewise, in the `Packaging` stage the cleanup step removes a tracked request that has
succeeded while the packaging list still refers to it. -/
theorem cleanup_removes_referenced_requests :
    (Update sampleWatcherCollaborators { sampleServer with m_cleanupRequested := true }
        ⟨[⟨NetworkMessageID.RequestResource, 7, [":/"]⟩], none⟩).m_activeTasks
      = [{ m_pRequest := 0, GetIsComplete := false }]
    ∧ (Update sampleWatcherCollaborators { sampleServer with m_cleanupRequested := true }
        ⟨[⟨NetworkMessageID.RequestResource, 7, [":/"]⟩], none⟩).m_requests = []
    ∧ (Update sampleWatcherCollaborators sampleTrackedServer ⟨[], none⟩).m_packagingStage
      = PackagingStage.Packaging
    ∧ (Update sampleWatcherCollaborators sampleTrackedServer ⟨[], none⟩).m_packagingRequests
      = [0, 1]
    ∧ (Update sampleWatcherCollaborators sampleTrackedServer ⟨[], none⟩).m_requests = [1] := by
  decide

/-! ## The reap loop and the active tasks -/

theorem erase_unsorted_last {α : Type} (a : List α) (x : α) :
    eastl.erase_unsorted (a ++ [x]) a.length = a := by
  unfold eastl.erase_unsorted
  simp [List.set_append]

theorem erase_unsorted_inner {α : Type} (a b : List α) (x l : α) :
    eastl.erase_unsorted (a ++ x :: (b ++ [l])) a.length = a ++ l :: b := by
  unfold eastl.erase_unsorted
  have hlast : (a ++ x :: (b ++ [l])).getLast? = some l := by
    rw [show a ++ x :: (b ++ [l]) = (a ++ x :: b) ++ [l] by simp]
    exact List.getLast?_concat _
  rw [hlast]
  simp only []
  have hlt : a.length < (a ++ x :: (b ++ [l])).length := by simp
  rw [if_pos hlt]
  have hset : (a ++ x :: (b ++ [l])).set a.length l = (a ++ l :: b) ++ [l] := by
    simp [List.set_append]
  rw [hset, List.dropLast_concat]

/-- The reap loop run over the positions of `a`, when the tasks `b` behind them are not
complete: what is left is, up to the order, the tasks of `a` that are not complete followed
by `b`, and the counter has gone down by the number of complete tasks of `a`. -/
theorem reapLoop_tasks (m_isExiting : Bool) (connectedClients : List Nat)
    (arena : List CompilationRequest) (a : List CompilationTask) :
    ∀ (b : List CompilationTask) (num : Int) (buckets : List Bucket),
      (∀ t ∈ b, t.GetIsComplete = false) →
      ((reapLoop m_isExiting connectedClients arena a.length
          { m_activeTasks := a ++ b, m_numScheduledTasks := num,
            clientBuckets := buckets }).m_activeTasks.Perm
        (a.filter (fun t => !t.GetIsComplete) ++ b))
      ∧ (reapLoop m_isExiting connectedClients arena a.length
          { m_activeTasks := a ++ b, m_numScheduledTasks := num,
            clientBuckets := buckets }).m_numScheduledTasks
        = num - (a.countP (fun t => t.GetIsComplete) : Nat) := by
  induction a using List.reverseRecOn with
  | nil =>
    intro b num buckets _
    simp [reapLoop]
  | append_singleton a x ih =>
    intro b num buckets hb
    have hget : (a ++ [x] ++ b)[a.length]? = some x := by
      rw [List.append_assoc, List.getElem?_append_right (Nat.le_refl _)]
      simp
    rw [List.length_append, List.length_singleton]
    unfold reapLoop
    simp only [hget]
    by_cases hx : x.GetIsComplete = true
    · rw [if_pos hx]
      have hcount : ((a ++ [x]).countP (fun t => t.GetIsComplete) : Nat)
          = a.countP (fun t => t.GetIsComplete) + 1 := by
        rw [List.countP_append, List.countP_singleton]
        simp [hx]
      have hfilter : (a ++ [x]).filter (fun t => !t.GetIsComplete)
          = a.filter (fun t => !t.GetIsComplete) := by
        rw [List.filter_append]
        simp [hx]
      rw [hcount, hfilter]
      rcases List.eq_nil_or_concat b with hnil | ⟨b', l, hcons⟩
      · subst hnil
        have herase : eastl.erase_unsorted (a ++ [x] ++ []) a.length = a ++ [] := by
          rw [List.append_nil, erase_unsorted_last, List.append_nil]
        rw [herase]
        obtain ⟨h1, h2⟩ := ih [] (num - 1) _ (by simp)
        refine ⟨h1, ?_⟩
        rw [h2]
        push_cast
        ring
      · rw [List.concat_eq_append] at hcons
        subst hcons
        have herase : eastl.erase_unsorted (a ++ [x] ++ (b' ++ [l])) a.length
            = a ++ l :: b' := by
          rw [List.append_assoc, List.singleton_append, erase_unsorted_inner]
        rw [herase]
        have hb' : ∀ t ∈ l :: b', t.GetIsComplete = false := by
          intro t ht
          apply hb t
          rcases List.mem_cons.mp ht with h | h
          · subst h
            simp
          · exact List.mem_append_left _ h
        obtain ⟨h1, h2⟩ := ih (l :: b') (num - 1) _ hb'
        refine ⟨h1.trans ?_, ?_⟩
        · apply List.Perm.append_left
          exact (List.perm_append_singleton l b').symm
        · rw [h2]
          push_cast
          ring
    · rw [if_neg hx]
      have hxf : x.GetIsComplete = false := by
        cases h : x.GetIsComplete
        · rfl
        · exact absurd h hx
      have hcount : ((a ++ [x]).countP (fun t => t.GetIsComplete) : Nat)
          = a.countP (fun t => t.GetIsComplete) := by
        rw [List.countP_append, List.countP_singleton]
        simp [hxf]
      have hfilter : (a ++ [x]).filter (fun t => !t.GetIsComplete) ++ b
          = a.filter (fun t => !t.GetIsComplete) ++ x :: b := by
        rw [List.filter_append]
        simp [hxf]
      rw [hcount, hfilter]
      have hb' : ∀ t ∈ x :: b, t.GetIsComplete = false := by
        intro t ht
        rcases List.mem_cons.mp ht with h | h
        · subst h
          exact hxf
        · exact hb t h
      have hlist : a ++ [x] ++ b = a ++ x :: b := by simp
      rw [hlist]
      exact ih (x :: b) num buckets hb'

theorem filter_not_complete_length :
    ∀ l : List CompilationTask,
      (l.filter (fun t => !t.GetIsComplete)).length + l.countP (fun t => t.GetIsComplete)
        = l.length
  | [] => rfl
  | t :: l => by
    have ih := filter_not_complete_length l
    have hfun : (fun t : CompilationTask => t.GetIsComplete) = CompilationTask.GetIsComplete :=
      rfl
    rw [hfun] at ih ⊢
    cases ht : t.GetIsComplete with
    | true =>
      rw [List.filter_cons_of_neg (by simp [ht]), List.countP_cons_of_pos _ _ ht,
        List.length_cons]
      omega
    | false =>
      rw [List.filter_cons_of_pos (by simp [ht]), List.countP_cons_of_neg _ _ (by simp [ht]),
        List.length_cons, List.length_cons]
      omega

/-- The active tasks and the counter after `ProcessCompletedRequests`. -/
theorem reap_active_tasks (s : ResourceServer) :
    ((ProcessCompletedRequests s).m_activeTasks.Perm
        (s.m_activeTasks.filter (fun t => !t.GetIsComplete)))
    ∧ (∀ t ∈ (ProcessCompletedRequests s).m_activeTasks, t.GetIsComplete = false)
    ∧ (ProcessCompletedRequests s).m_numScheduledTasks
        = s.m_numScheduledTasks - (s.m_activeTasks.countP (fun t => t.GetIsComplete) : Nat)
    ∧ (ProcessCompletedRequests s).m_activeTasks.length
        + s.m_activeTasks.countP (fun t => t.GetIsComplete) = s.m_activeTasks.length := by
  obtain ⟨h1, h2⟩ := reapLoop_tasks s.m_isExiting s.connectedClients s.arena s.m_activeTasks []
    s.m_numScheduledTasks (List.replicate s.connectedClients.length Bucket.empty) (by simp)
  rw [List.append_nil] at h1 h2
  rw [List.append_nil] at h1
  have hperm : (ProcessCompletedRequests s).m_activeTasks.Perm
      (s.m_activeTasks.filter (fun t => !t.GetIsComplete)) := h1
  refine ⟨hperm, ?_, h2, ?_⟩
  · intro t ht
    have := (List.mem_filter.mp (hperm.mem_iff.mp ht)).2
    simpa using this
  · rw [hperm.length_eq]
    exact filter_not_complete_length s.m_activeTasks

/-- Claim C24: after `ProcessCompletedRequests` the active set holds exactly the tasks that
had not reported complete when the reap began, each exactly once (the tasks left are a
rearrangement of the not complete tasks of before), every task that had reported complete
has been removed, and the scheduled counter has gone down by exactly the number of removed
tasks. -/
theorem ProcessCompletedRequests_active_tasks (s : ResourceServer) :
    ((ProcessCompletedRequests s).m_activeTasks.Perm
        (s.m_activeTasks.filter (fun t => !t.GetIsComplete)))
    ∧ (∀ t ∈ (ProcessCompletedRequests s).m_activeTasks, t.GetIsComplete = false)
    ∧ (ProcessCompletedRequests s).m_numScheduledTasks
        = s.m_numScheduledTasks - (s.m_activeTasks.countP (fun t => t.GetIsComplete) : Nat)
    ∧ (ProcessCompletedRequests s).m_activeTasks.length
        + s.m_activeTasks.countP (fun t => t.GetIsComplete) = s.m_activeTasks.length :=
  reap_active_tasks s

/-! ## The scheduled counter -/

/-- What `CreateResourceRequest` does to the arena length, the active tasks and the
counter, for a valid and for an invalid id alike. -/
theorem CreateResourceRequest_tasks (c : Collaborators) (s : ResourceServer)
    (resourceID : ResourceID) (clientID : Nat) (origin : Origin) (extraInfo : String) :
    (CreateResourceRequest c s resourceID clientID origin extraInfo).1.arena.length
        = s.arena.length + 1
    ∧ (CreateResourceRequest c s resourceID clientID origin extraInfo).1.m_activeTasks
        = s.m_activeTasks ++ [{ m_pRequest := s.arena.length, GetIsComplete := false }]
    ∧ (CreateResourceRequest c s resourceID clientID origin extraInfo).1.m_numScheduledTasks
        = s.m_numScheduledTasks + 1 := by
  cases hvalid : c.IsValid resourceID with
  | false =>
    obtain ⟨_, h2, _, h4, h5⟩ :=
      CreateResourceRequest_invalid c s resourceID clientID origin extraInfo hvalid
    exact ⟨by rw [h2]; simp, h4, h5⟩
  | true =>
    refine ⟨?_, ?_, ?_⟩
    · rw [(CreateResourceRequest_valid c s resourceID clientID origin extraInfo hvalid).1]
      simp
    · unfold CreateResourceRequest
      simp only [hvalid, if_true]
      split
      · split <;> rfl
      · rfl
    · unfold CreateResourceRequest
      simp only [hvalid, if_true]
      split
      · split <;> rfl
      · rfl

theorem TasksWellFormed_create (c : Collaborators) (s : ResourceServer)
    (resourceID : ResourceID) (clientID : Nat) (origin : Origin) (extraInfo : String)
    (h : TasksWellFormed s) :
    TasksWellFormed (CreateResourceRequest c s resourceID clientID origin extraInfo).1 := by
  obtain ⟨h1, h2, h3⟩ := CreateResourceRequest_tasks c s resourceID clientID origin extraInfo
  constructor
  · rw [h3, h2, h.1]
    simp
  · intro t ht
    rw [h2] at ht
    rw [h1]
    rcases List.mem_append.mp ht with ht | ht
    · have := h.2 t ht
      omega
    · rw [List.mem_singleton] at ht
      subst ht
      simp

theorem TasksWellFormed_executeTask (env : TaskEnvironment) (child : ChildProcess)
    (s : ResourceServer) (i : Nat) (h : TasksWellFormed s) :
    TasksWellFormed (executeTask env child s i) := by
  unfold executeTask
  cases hi : s.m_activeTasks[i]? with
  | none => exact h
  | some pTask =>
    simp only []
    cases hp : s.arena[pTask.m_pRequest]? with
    | none => exact h
    | some pRequest =>
      simp only []
      constructor
      · simp only [List.length_set]
        exact h.1
      · intro t ht
        simp only [List.length_set]
        rcases List.mem_or_eq_of_mem_set ht with ht | ht
        · exact h.2 t ht
        · subst ht
          exact h.2 pTask (List.getElem?_mem hi)

theorem ProcessCompletedRequests_arena (s : ResourceServer) :
    (ProcessCompletedRequests s).arena = s.arena := rfl

theorem TasksWellFormed_reap (s : ResourceServer) (h : TasksWellFormed s) :
    TasksWellFormed (ProcessCompletedRequests s) := by
  obtain ⟨hperm, _, hcount, hlen⟩ := reap_active_tasks s
  constructor
  · rw [hcount, h.1]
    omega
  · intro t ht
    rw [ProcessCompletedRequests_arena]
    exact h.2 t (List.mem_filter.mp (hperm.mem_iff.mp ht)).1

theorem TasksWellFormed_cleanup (s : ResourceServer) (h : TasksWellFormed s) :
    TasksWellFormed (processCleanupRequest s) := by
  unfold processCleanupRequest
  split
  · exact h
  · exact h

theorem TasksWellFormed_ProcessIncomingMessages (c : Collaborators) (message : IncomingMessage) :
    ∀ s : ResourceServer, TasksWellFormed s →
      TasksWellFormed (ProcessIncomingMessages c s message) := by
  intro s h
  unfold ProcessIncomingMessages
  split
  · generalize message.m_resourceIDs = ids
    induction ids generalizing s with
    | nil => exact h
    | cons resourceID ids ih =>
      rw [List.foldl_cons]
      exact ih _ (TasksWellFormed_create c s resourceID _ _ _ h)
  · exact h

theorem TasksWellFormed_messages (c : Collaborators) :
    ∀ (messages : List IncomingMessage) (s : ResourceServer), TasksWellFormed s →
      TasksWellFormed
        (messages.foldl (fun s message => ProcessIncomingMessages c s message) s)
  | [], _, h => h
  | message :: messages, s, h => by
    rw [List.foldl_cons]
    exact TasksWellFormed_messages c messages _
      (TasksWellFormed_ProcessIncomingMessages c message s h)

theorem TasksWellFormed_packaging_requests (c : Collaborators) :
    ∀ (ids : List ResourceID) (s : ResourceServer), TasksWellFormed s →
      TasksWellFormed
        (ids.foldl
          (fun s resourceID =>
            let created := CreateResourceRequest c s resourceID 0 Origin.Package ""
            { created.1 with
              m_packagingRequests := created.1.m_packagingRequests ++ [created.2] })
          s)
  | [], _, h => h
  | resourceID :: ids, s, h => by
    rw [List.foldl_cons]
    exact TasksWellFormed_packaging_requests c ids _
      (TasksWellFormed_create c s resourceID 0 Origin.Package "" h)

theorem TasksWellFormed_updatePackaging (c : Collaborators) (s : ResourceServer)
    (h : TasksWellFormed s) : TasksWellFormed (updatePackaging c s) := by
  unfold updatePackaging
  split
  · cases s.m_pPackagingTask with
    | none => exact h
    | some pPackagingTask =>
      simp only []
      split
      · exact TasksWellFormed_packaging_requests c _ s h
      · exact h
  · split
    · simp only []
      split
      · exact h
      · exact h
    · exact h

theorem TasksWellFormed_dependents (c : Collaborators) (extraInfo : String) :
    ∀ (dependents : List ResourceID) (s : ResourceServer), TasksWellFormed s →
      TasksWellFormed
        (dependents.foldl
          (fun s dependentResourceID =>
            (CreateResourceRequest c s dependentResourceID 0 Origin.FileWatcher extraInfo).1)
          s)
  | [], _, h => h
  | d :: dependents, s, h => by
    rw [List.foldl_cons]
    exact TasksWellFormed_dependents c extraInfo dependents _
      (TasksWellFormed_create c s d 0 Origin.FileWatcher extraInfo h)

theorem TasksWellFormed_processFileEvent (c : WatcherCollaborators) (s : ResourceServer)
    (fsEvent : FileSystemEvent) (resourcePath : DataPath) (h : TasksWellFormed s) :
    TasksWellFormed (processFileEvent c s fsEvent resourcePath) := by
  unfold processFileEvent
  cases c.GetExtension resourcePath with
  | none => exact h
  | some pExtension =>
    simp only []
    split
    · split
      · split
        · exact TasksWellFormed_create _ s _ _ _ _ h
        · cases eastl.find s.m_compileDependencyToResourceIDMap fsEvent.m_path with
          | none => exact h
          | some dependents => exact TasksWellFormed_dependents _ _ dependents s h
      · exact h
    · exact h

theorem TasksWellFormed_processFileSystemEvents (c : WatcherCollaborators) :
    ∀ (events : List FileSystemEvent) (s : ResourceServer), TasksWellFormed s →
      TasksWellFormed (processFileSystemEvents c events s).1
  | [], _, h => h
  | fsEvent :: rest, s, h => by
    unfold processFileSystemEvents
    split
    · exact TasksWellFormed_processFileSystemEvents c rest s h
    · cases c.FromFileSystemPath s.m_pSettings.m_sourceDataDirectoryPath fsEvent.m_path with
      | none => exact h
      | some resourcePath =>
        exact TasksWellFormed_processFileSystemEvents c rest _
          (TasksWellFormed_processFileEvent c s fsEvent resourcePath h)

theorem TasksWellFormed_Update (c : WatcherCollaborators) (s : ResourceServer)
    (input : UpdateInput) (h : TasksWellFormed s) : TasksWellFormed (Update c s input) := by
  have h1 := TasksWellFormed_messages c.toCollaborators input.messages s h
  have h2 := TasksWellFormed_updatePackaging c.toCollaborators _ h1
  have h3 := TasksWellFormed_reap _ h2
  have h4 := TasksWellFormed_cleanup _ h3
  unfold Update
  cases input.fileSystemChangeEvents with
  | none => exact h4
  | some events => exact TasksWellFormed_processFileSystemEvents c events _ h4

/-- In every reachable state the counter equals the number of active tasks and the tasks
point into the arena. -/
theorem Reachable_TasksWellFormed (c : WatcherCollaborators) (env : TaskEnvironment)
    (s : ResourceServer) (h : Reachable c env s) : TasksWellFormed s := by
  induction h with
  | initial s htasks hcounter =>
    constructor
    · rw [hcounter, htasks]
      rfl
    · intro t ht
      rw [htasks] at ht
      cases ht
  | create s resourceID clientID origin extraInfo _ ih =>
    exact TasksWellFormed_create _ s resourceID clientID origin extraInfo ih
  | execute s child i _ ih => exact TasksWellFormed_executeTask env child s i ih
  | reap s _ ih => exact TasksWellFormed_reap s ih
  | update s input _ ih => exact TasksWellFormed_Update c s input ih
  | exiting s _ ih => exact ih

theorem executeTask_tasks (env : TaskEnvironment) (child : ChildProcess) (s : ResourceServer)
    (i : Nat) (t : CompilationTask) (hi : s.m_activeTasks[i]? = some t)
    (hp : t.m_pRequest < s.arena.length) :
    (executeTask env child s i).m_activeTasks
      = s.m_activeTasks.set i { t with GetIsComplete := true } := by
  unfold executeTask
  rw [hi]
  simp only []
  rw [List.getElem?_eq_getElem hp]

/-- After `WaitForAll` every active task reports complete; the tasks are otherwise the same
and the counter is unchanged. -/
theorem WaitForAll_complete (env : TaskEnvironment) (children : Nat → ChildProcess)
    (s : ResourceServer) (h : TasksWellFormed s) :
    TasksWellFormed (WaitForAll env children s)
    ∧ ∀ t ∈ (WaitForAll env children s).m_activeTasks, t.GetIsComplete = true := by
  have key : ∀ k, k ≤ s.m_activeTasks.length →
      TasksWellFormed
        ((List.range k).foldl
          (fun s i =>
            match s.m_activeTasks[i]? with
            | some pTask =>
              if pTask.GetIsComplete then s else executeTask env (children i) s i
            | none => s)
          s)
      ∧ ((List.range k).foldl
          (fun s i =>
            match s.m_activeTasks[i]? with
            | some pTask =>
              if pTask.GetIsComplete then s else executeTask env (children i) s i
            | none => s)
          s).m_activeTasks.length = s.m_activeTasks.length
      ∧ ∀ (j : Nat) (t : CompilationTask), j < k →
          ((List.range k).foldl
            (fun s i =>
              match s.m_activeTasks[i]? with
              | some pTask =>
                if pTask.GetIsComplete then s else executeTask env (children i) s i
              | none => s)
            s).m_activeTasks[j]? = some t → t.GetIsComplete = true := by
    intro k
    induction k with
    | zero =>
      intro _
      exact ⟨h, rfl, fun j t hj => absurd hj (Nat.not_lt_zero j)⟩
    | succ k ih =>
      intro hk
      obtain ⟨hwf, hlen, hdone⟩ := ih (by omega)
      rw [List.range_succ, List.foldl_append]
      simp only [List.foldl_cons, List.foldl_nil]
      generalize (List.range k).foldl
          (fun s i =>
            match s.m_activeTasks[i]? with
            | some pTask =>
              if pTask.GetIsComplete then s else executeTask env (children i) s i
            | none => s)
          s = sk at hwf hlen hdone ⊢
      have hklt : k < sk.m_activeTasks.length := by omega
      have hget : sk.m_activeTasks[k]? = some sk.m_activeTasks[k] :=
        List.getElem?_eq_getElem hklt
      rw [hget]
      simp only []
      by_cases hc : (sk.m_activeTasks[k]).GetIsComplete = true
      · rw [if_pos hc]
        refine ⟨hwf, hlen, ?_⟩
        intro j t hj hjt
        by_cases hjk : j = k
        · subst hjk
          rw [hget] at hjt
          cases hjt
          exact hc
        · exact hdone j t (by omega) hjt
      · rw [if_neg hc]
        have htasks := executeTask_tasks env (children k) sk k _ hget
          (hwf.2 _ (List.getElem?_mem hget))
        refine ⟨TasksWellFormed_executeTask env _ sk k hwf, ?_, ?_⟩
        · rw [htasks, List.length_set]
          exact hlen
        · intro j t hj hjt
          rw [htasks, List.getElem?_set] at hjt
          by_cases hjk : k = j
          · subst hjk
            simp only [if_true, hklt] at hjt
            cases hjt
            rfl
          · rw [if_neg hjk] at hjt
            exact hdone j t (by omega) hjt
  obtain ⟨hwf, hlen, hdone⟩ := key s.m_activeTasks.length (Nat.le_refl _)
  refine ⟨hwf, ?_⟩
  intro t ht
  obtain ⟨j, hj⟩ := List.mem_iff_getElem?.mp ht
  have hjlt : j < (WaitForAll env children s).m_activeTasks.length := by
    by_contra hge
    have : (WaitForAll env children s).m_activeTasks[j]? = none :=
      List.getElem?_eq_none (by omega)
    rw [this] at hj
    cases hj
  have hlen' : (WaitForAll env children s).m_activeTasks.length = s.m_activeTasks.length := hlen
  exact hdone j t (by omega) hj

/-- When every active task reports complete, the reap leaves no task and, the counter being
the number of active tasks, a counter of zero. -/
theorem reap_all_complete (s : ResourceServer) (h : TasksWellFormed s)
    (hall : ∀ t ∈ s.m_activeTasks, t.GetIsComplete = true) :
    (ProcessCompletedRequests s).m_numScheduledTasks = 0
    ∧ (ProcessCompletedRequests s).m_activeTasks = [] := by
  obtain ⟨hperm, _, hcount, hlen⟩ := reap_active_tasks s
  have hfilter : s.m_activeTasks.filter (fun t => !t.GetIsComplete) = [] := by
    rw [List.filter_eq_nil_iff]
    intro t ht
    simp [hall t ht]
  rw [hfilter] at hperm
  have hnil : (ProcessCompletedRequests s).m_activeTasks = [] := List.Perm.eq_nil hperm
  rw [hnil] at hlen
  refine ⟨?_, hnil⟩
  rw [hcount, h.1]
  simp only [List.length_nil, Nat.zero_add] at hlen
  omega

/-- Claim C29: in every state reached through `CreateResourceRequest`, worker steps,
`ProcessCompletedRequests` and `Update`, the scheduled counter equals the number of active
tasks.  Consequently a reap in which every task has reported complete leaves no active task
and the counter 0; this is the case for the final reap of `Shutdown`, which follows
`WaitForAll`, so the assertion `m_numScheduledTasks == 0` of `Shutdown` holds. -/
theorem scheduled_counter_invariant (c : WatcherCollaborators) (env : TaskEnvironment)
    (s : ResourceServer) (hreach : Reachable c env s) :
    s.m_numScheduledTasks = s.m_activeTasks.length
    ∧ ((∀ t ∈ s.m_activeTasks, t.GetIsComplete = true) →
        (ProcessCompletedRequests s).m_numScheduledTasks = 0
        ∧ (ProcessCompletedRequests s).m_activeTasks = [])
    ∧ ∀ children : Nat → ChildProcess,
        (ShutdownCompleteRequests env children s).m_numScheduledTasks = 0
        ∧ (ShutdownCompleteRequests env children s).m_activeTasks = [] := by
  have hwf := Reachable_TasksWellFormed c env s hreach
  refine ⟨hwf.1, reap_all_complete s hwf, ?_⟩
  intro children
  have hexit : TasksWellFormed { s with m_isExiting := true } := hwf
  obtain ⟨hwf', hall⟩ := WaitForAll_complete env children _ hexit
  exact reap_all_complete _ hwf' hall

/-- Claim C29 at a concrete input: the state after one request has been created. -/
theorem scheduled_counter_invariant_witness :
    (CreateResourceRequest sampleCollaborators sampleServer "mesh:a/b.msh" 7 Origin.External
        "").1.m_numScheduledTasks
      = (CreateResourceRequest sampleCollaborators sampleServer "mesh:a/b.msh" 7 Origin.External
          "").1.m_activeTasks.length
    ∧ ((∀ t ∈ (CreateResourceRequest sampleCollaborators sampleServer "mesh:a/b.msh" 7
          Origin.External "").1.m_activeTasks, t.GetIsComplete = true) →
        (ProcessCompletedRequests
          (CreateResourceRequest sampleCollaborators sampleServer "mesh:a/b.msh" 7
            Origin.External "").1).m_numScheduledTasks = 0
        ∧ (ProcessCompletedRequests
          (CreateResourceRequest sampleCollaborators sampleServer "mesh:a/b.msh" 7
            Origin.External "").1).m_activeTasks = [])
    ∧ ∀ children : Nat → ChildProcess,
        (ShutdownCompleteRequests sampleTaskEnvironment children
          (CreateResourceRequest sampleCollaborators sampleServer "mesh:a/b.msh" 7
            Origin.External "").1).m_numScheduledTasks = 0
        ∧ (ShutdownCompleteRequests sampleTaskEnvironment children
          (CreateResourceRequest sampleCollaborators sampleServer "mesh:a/b.msh" 7
            Origin.External "").1).m_activeTasks = [] :=
  scheduled_counter_invariant sampleWatcherCollaborators sampleTaskEnvironment _
    (Reachable.create sampleServer "mesh:a/b.msh" 7 Origin.External ""
      (Reachable.initial sampleServer rfl rfl))

/-! ## The packaging step of `Update` -/

/-- The request `CreateResourceRequest` appends, for a valid and for an invalid id alike;
for a valid id it carries the id, origin and client passed and is `Pending`. -/
theorem CreateResourceRequest_appends (c : Collaborators) (s : ResourceServer)
    (resourceID : ResourceID) (clientID : Nat) (origin : Origin) (extraInfo : String) :
    ∃ pRequest : CompilationRequest,
      (CreateResourceRequest c s resourceID clientID origin extraInfo).1.arena
          = s.arena ++ [pRequest]
      ∧ (CreateResourceRequest c s resourceID clientID origin extraInfo).2 = s.arena.length
      ∧ (c.IsValid resourceID = true →
          (pRequest.m_resourceID, pRequest.m_origin, pRequest.m_clientID, pRequest.m_status)
            = (resourceID, origin, clientID, Status.Pending)) := by
  cases hvalid : c.IsValid resourceID with
  | false =>
    obtain ⟨h1, h2, _⟩ :=
      CreateResourceRequest_invalid c s resourceID clientID origin extraInfo hvalid
    exact ⟨_, h2, h1, fun h => absurd h (by simp)⟩
  | true =>
    obtain ⟨h1, _, h3⟩ :=
      CreateResourceRequest_valid c s resourceID clientID origin extraInfo hvalid
    exact ⟨_, h1, h3, fun _ => rfl⟩

theorem CreateResourceRequest_m_packagingRequests (c : Collaborators) (s : ResourceServer)
    (resourceID : ResourceID) (clientID : Nat) (origin : Origin) (extraInfo : String) :
    (CreateResourceRequest c s resourceID clientID origin extraInfo).1.m_packagingRequests
      = s.m_packagingRequests := by
  unfold CreateResourceRequest
  simp only []
  split
  · split
    · split <;> rfl
    · rfl
  · rfl

/-- The loop of the `Preparing` branch of the packaging step: one request is created and
tracked per id of the list, in the order of the list. -/
theorem foldl_packaging_requests (c : Collaborators) :
    ∀ (ids : List ResourceID) (s : ResourceServer),
      ∃ created : List CompilationRequest,
        (ids.foldl
            (fun s resourceID =>
              let created := CreateResourceRequest c s resourceID 0 Origin.Package ""
              { created.1 with
                m_packagingRequests := created.1.m_packagingRequests ++ [created.2] })
            s).arena = s.arena ++ created
        ∧ created.length = ids.length
        ∧ (ids.foldl
            (fun s resourceID =>
              let created := CreateResourceRequest c s resourceID 0 Origin.Package ""
              { created.1 with
                m_packagingRequests := created.1.m_packagingRequests ++ [created.2] })
            s).m_packagingRequests
          = s.m_packagingRequests ++ List.range' s.arena.length ids.length
        ∧ ((∀ id ∈ ids, c.IsValid id = true) →
            created.map (fun r => (r.m_resourceID, r.m_origin, r.m_clientID, r.m_status))
              = ids.map (fun id => (id, Origin.Package, 0, Status.Pending)))
  | [], s => ⟨[], by simp, rfl, by simp, fun _ => rfl⟩
  | id :: ids, s => by
    obtain ⟨r, h1, h2, h3⟩ := CreateResourceRequest_appends c s id 0 Origin.Package ""
    have h4 := CreateResourceRequest_m_packagingRequests c s id 0 Origin.Package ""
    obtain ⟨created, ha, hl, hp, hv⟩ := foldl_packaging_requests c ids
      { (CreateResourceRequest c s id 0 Origin.Package "").1 with
        m_packagingRequests :=
          (CreateResourceRequest c s id 0 Origin.Package "").1.m_packagingRequests
            ++ [(CreateResourceRequest c s id 0 Origin.Package "").2] }
    rw [List.foldl_cons]
    refine ⟨r :: created, ?_, ?_, ?_, ?_⟩
    · rw [ha]
      simp only []
      rw [h1, List.append_assoc]
      rfl
    · rw [List.length_cons, List.length_cons, hl]
    · rw [hp]
      simp only []
      rw [h1, h2, h4, List.length_append, List.length_singleton, List.append_assoc,
        List.length_cons]
      rfl
    · intro hvalid
      rw [List.map_cons, List.map_cons, hv (fun x hx => hvalid x (List.mem_cons_of_mem _ hx)),
        h3 (hvalid id (List.mem_cons_self _ _))]

/-- The packaging step of `Update` on every state: with stage `Packaging`, the stage becomes
`Complete` and the tracked list is cleared when every tracked request is complete, and
otherwise nothing changes (the stage stays `Packaging`, the tracked list is kept).  With
stage `Preparing` and a preparing task, nothing changes while the task does not report
complete; when it reports complete the stage becomes `Packaging`, the task is disposed, and
for every entry of the resolved list, in list order, one request is created and tracked,
which for a valid id is `Pending` with origin `Package` and client id 0. -/
theorem updatePackaging_transitions (c : Collaborators) (s : ResourceServer) :
    (s.m_packagingStage = PackagingStage.Packaging →
      ((∀ p ∈ s.m_packagingRequests, s.IsCompleteAt p = true) →
        (updatePackaging c s).m_packagingStage = PackagingStage.Complete
        ∧ (updatePackaging c s).m_packagingRequests = [])
      ∧ (¬ (∀ p ∈ s.m_packagingRequests, s.IsCompleteAt p = true) →
        updatePackaging c s = s))
    ∧ (s.m_packagingStage = PackagingStage.Preparing →
      ∀ pPackagingTask, s.m_pPackagingTask = some pPackagingTask →
        (pPackagingTask.GetIsComplete = false → updatePackaging c s = s)
        ∧ (pPackagingTask.GetIsComplete = true →
          (updatePackaging c s).m_packagingStage = PackagingStage.Packaging
          ∧ (updatePackaging c s).m_pPackagingTask = none
          ∧ ∃ created : List CompilationRequest,
              (updatePackaging c s).arena = s.arena ++ created
              ∧ created.length = pPackagingTask.m_runtimeDependencies.length
              ∧ (updatePackaging c s).m_packagingRequests
                  = s.m_packagingRequests
                    ++ List.range' s.arena.length pPackagingTask.m_runtimeDependencies.length
              ∧ ((∀ id ∈ pPackagingTask.m_runtimeDependencies, c.IsValid id = true) →
                  created.map
                      (fun r => (r.m_resourceID, r.m_origin, r.m_clientID, r.m_status))
                    = pPackagingTask.m_runtimeDependencies.map
                        (fun id => (id, Origin.Package, 0, Status.Pending))))) := by
  constructor
  · intro hstage
    have hne : s.m_packagingStage ≠ PackagingStage.Preparing := by
      rw [hstage]
      decide
    constructor
    · intro hall
      have hb : s.m_packagingRequests.all (fun pRequest => s.IsCompleteAt pRequest) = true :=
        List.all_eq_true.mpr hall
      simp [updatePackaging, hstage, hb]
    · intro hnot
      have hb : ¬ s.m_packagingRequests.all (fun pRequest => s.IsCompleteAt pRequest) = true :=
        fun h => hnot (List.all_eq_true.mp h)
      simp [updatePackaging, hstage, hb]
  · intro hstage pPackagingTask htask
    constructor
    · intro hc
      simp [updatePackaging, hstage, htask, hc]
    · intro hc
      obtain ⟨created, ha, hl, hp, hv⟩ :=
        foldl_packaging_requests c pPackagingTask.m_runtimeDependencies s
      have hstep : updatePackaging c s
          = { pPackagingTask.m_runtimeDependencies.foldl
                (fun s resourceID =>
                  let created := CreateResourceRequest c s resourceID 0 Origin.Package ""
                  { created.1 with
                    m_packagingRequests := created.1.m_packagingRequests ++ [created.2] })
                s with
              m_pPackagingTask := none, m_packagingStage := PackagingStage.Packaging } := by
        simp only [updatePackaging, hstage, htask, hc, if_true]
      rw [hstep]
      exact ⟨rfl, rfl, created, ha, hl, hp, hv⟩

/-- The packaging step on the sample server in the `Preparing` stage, whose task has resolved
a material and a map: two `Package` requests are created and tracked, in that order. -/
theorem updatePackaging_example :
    ((updatePackaging sampleCollaborators
        { sampleServer with
          m_packagingStage := PackagingStage.Preparing
          m_pPackagingTask :=
            some { m_runtimeDependencies := ["mat:engine/default.mat", "map:world.map"],
                   GetIsComplete := true } }).arena.map
      (fun r => (r.m_resourceID, r.m_origin, r.m_clientID, r.m_destinationFile))
      = [("mat:engine/default.mat", Origin.Package, 0, "D:/Packaged/mat:engine/default.mat"),
         ("map:world.map", Origin.Package, 0, "D:/Packaged/map:world.map")])
    ∧ (updatePackaging sampleCollaborators
        { sampleServer with
          m_packagingStage := PackagingStage.Preparing
          m_pPackagingTask :=
            some { m_runtimeDependencies := ["mat:engine/default.mat", "map:world.map"],
                   GetIsComplete := true } }).m_packagingRequests = [0, 1]
    ∧ (updatePackaging sampleCollaborators
        { sampleServer with
          m_packagingStage := PackagingStage.Preparing
          m_pPackagingTask :=
            some { m_runtimeDependencies := ["mat:engine/default.mat", "map:world.map"],
                   GetIsComplete := true } }).m_packagingStage = PackagingStage.Packaging := by
  decide

/-- The request built for an invalid resource id does not depend on the origin passed to
`CreateResourceRequest`. -/
theorem CreateResourceRequest_invalid_forgets_origin (c : Collaborators) (s : ResourceServer)
    (resourceID : ResourceID) (clientID : Nat) (origin origin' : Origin)
    (extraInfo : String) (hinvalid : c.IsValid resourceID = false) :
    (CreateResourceRequest c s resourceID clientID origin extraInfo).1.arena
      = (CreateResourceRequest c s resourceID clientID origin' extraInfo).1.arena := by
  simp [CreateResourceRequest, hinvalid]

theorem EnqueueResourceForPackaging_depth_le (ctx : PackagingContext) (depth : Nat) :
    ∀ (depth' : Nat), depth ≤ depth' →
      ∀ (resourceID : ResourceID) (deps deps' : List ResourceID),
        EnqueueResourceForPackaging ctx depth resourceID deps = some deps' →
        EnqueueResourceForPackaging ctx depth' resourceID deps = some deps' := by
  intro depth' hle
  induction hle with
  | refl => exact fun _ _ _ h => h
  | step _ ih =>
    intro resourceID deps deps' h
    exact EnqueueResourceForPackaging_depth_succ ctx _ resourceID deps deps'
      (ih resourceID deps deps' h)

/-- A list of ids each of which is expanded within some depth bound, whatever the vector,
is expanded by the loop within one common bound. -/
theorem foldlM_Enqueue_terminates (ctx : PackagingContext) :
    ∀ (l : List ResourceID),
      (∀ b ∈ l, ∃ depth, ∀ deps, ∃ deps',
        EnqueueResourceForPackaging ctx depth b deps = some deps') →
      ∃ depth, ∀ deps, ∃ deps',
        l.foldlM (fun d x => EnqueueResourceForPackaging ctx depth x d) deps = some deps'
  | [], _ => ⟨0, fun deps => ⟨deps, rfl⟩⟩
  | b :: l, h => by
    obtain ⟨d1, h1⟩ := h b (List.mem_cons_self _ _)
    obtain ⟨d2, h2⟩ := foldlM_Enqueue_terminates ctx l
      (fun x hx => h x (List.mem_cons_of_mem _ hx))
    refine ⟨max d1 d2, ?_⟩
    intro deps
    obtain ⟨mid, hmid⟩ := h1 deps
    obtain ⟨out, hout⟩ := h2 mid
    refine ⟨out, ?_⟩
    rw [List.foldlM_cons,
      EnqueueResourceForPackaging_depth_le ctx d1 (max d1 d2) (Nat.le_max_left _ _) b deps mid
        hmid]
    simp only [Option.some_bind, Option.bind_eq_bind]
    exact foldlM_some_congr _ _
      (fun d x d' hfx =>
        EnqueueResourceForPackaging_depth_le ctx d2 (max d1 d2) (Nat.le_max_right _ _) x d d' hfx)
      l mid out hout

/-- When a loop of fallible steps returns a result, every step of it returned one. -/
theorem foldlM_some_each {α β : Type} (f : β → α → Option β) :
    ∀ (l : List α) (init out : β), l.foldlM f init = some out →
      ∀ x ∈ l, ∃ d d', f d x = some d'
  | [], _, _, _, x, hx => by cases hx
  | a :: l, init, out, h, x, hx => by
    rw [List.foldlM_cons] at h
    cases hfa : f init a with
    | none =>
      rw [hfa] at h
      simp at h
    | some mid =>
      rw [hfa] at h
      simp only [Option.some_bind, Option.bind_eq_bind] at h
      rcases List.mem_cons.mp hx with hxa | hxl
      · subst hxa
        exact ⟨init, mid, hfa⟩
      · exact foldlM_some_each f l mid out h x hxl

/-- The expansion of an id from which the install dependencies admit no infinite descent
returns within some depth bound, whatever the vector; so does every expansion when the
server is exiting. -/
theorem EnqueueResourceForPackaging_returns (ctx : PackagingContext) (resourceID : ResourceID)
    (h : ctx.m_isExiting = true ∨ Acc ctx.Installs resourceID) :
    ∃ depth, ∀ deps, ∃ deps',
      EnqueueResourceForPackaging ctx depth resourceID deps = some deps' := by
  cases hexit : ctx.m_isExiting with
  | true =>
    exact ⟨1, fun deps => ⟨deps, by simp [EnqueueResourceForPackaging, hexit]⟩⟩
  | false =>
    have hacc : Acc ctx.Installs resourceID := by
      rcases h with h | h
      · rw [hexit] at h
        cases h
      · exact h
    clear h
    induction hacc with
    | intro a _ ih =>
      cases hg : ctx.GetCompilerForResourceType (ctx.GetResourceTypeID a) with
      | none =>
        exact ⟨1, fun deps => ⟨deps, EnqueueResourceForPackaging_succ_none ctx 0 a deps hg⟩⟩
      | some g =>
        have hchildren : ∀ b ∈ g a, ∃ depth, ∀ deps, ∃ deps',
            EnqueueResourceForPackaging ctx depth b deps = some deps' := by
          intro b hb
          apply ih b
          refine ⟨(hasCompiler_iff ctx a).mpr ⟨g, hg⟩, ?_⟩
          rw [installDependencies_of_some ctx a g hg]
          exact hb
        obtain ⟨depth, hdepth⟩ := foldlM_Enqueue_terminates ctx (g a) hchildren
        refine ⟨depth + 1, fun deps => ?_⟩
        rw [EnqueueResourceForPackaging_succ_some ctx depth a deps g hexit hg]
        exact hdepth _

/-- While the server is not exiting, an expansion that returns started at an id from which
the install dependencies admit no infinite descent. -/
theorem EnqueueResourceForPackaging_acc (ctx : PackagingContext)
    (hexit : ctx.m_isExiting = false) :
    ∀ (depth : Nat) (resourceID : ResourceID) (deps deps' : List ResourceID),
      EnqueueResourceForPackaging ctx depth resourceID deps = some deps' →
      Acc ctx.Installs resourceID
  | 0, _, _, _, h => by simp [EnqueueResourceForPackaging] at h
  | depth + 1, resourceID, deps, deps', h => by
    cases hg : ctx.GetCompilerForResourceType (ctx.GetResourceTypeID resourceID) with
    | none =>
      refine Acc.intro _ (fun b hb => ?_)
      obtain ⟨g, hg'⟩ := (hasCompiler_iff ctx resourceID).mp hb.1
      rw [hg] at hg'
      cases hg'
    | some g =>
      rw [EnqueueResourceForPackaging_succ_some ctx depth resourceID deps g hexit hg] at h
      refine Acc.intro _ (fun b hb => ?_)
      have hbg : b ∈ g resourceID := by
        have hmem := hb.2
        rw [installDependencies_of_some ctx resourceID g hg] at hmem
        exact hmem
      obtain ⟨d, d', hd⟩ := foldlM_some_each _ _ _ _ h b hbg
      exact EnqueueResourceForPackaging_acc ctx hexit depth b d d' hd

/-- The `Preparing` traversal returns within some depth bound exactly when the server is
exiting or the install dependencies admit no infinite descent from any seed. -/
theorem PackagingTask_ExecuteRange_returns_iff (ctx : PackagingContext)
    (m_mapsToBePackaged : List ResourceID) :
    (∃ depth resolved,
        PackagingTask.ExecuteRange ctx depth m_mapsToBePackaged = some resolved)
      ↔ (ctx.m_isExiting = true ∨ ∀ s ∈ m_mapsToBePackaged, Acc ctx.Installs s) := by
  constructor
  · rintro ⟨depth, resolved, h⟩
    cases hexit : ctx.m_isExiting with
    | true => exact Or.inl rfl
    | false =>
      right
      intro s hs
      rw [PackagingTask_ExecuteRange_eq] at h
      obtain ⟨d, d', hd⟩ := foldlM_some_each _ _ _ _ h s hs
      exact EnqueueResourceForPackaging_acc ctx hexit depth s d d' hd
  · intro h
    obtain ⟨depth, hdepth⟩ := foldlM_Enqueue_terminates ctx m_mapsToBePackaged
      (fun b hb => EnqueueResourceForPackaging_returns ctx b
        (h.elim Or.inl (fun hacc => Or.inr (hacc b hb))))
    obtain ⟨resolved, hres⟩ := hdepth ctx.moduleResources
    exact ⟨depth, resolved, by rw [PackagingTask_ExecuteRange_eq]; exact hres⟩

/-- When the install dependencies of the whole registry admit no infinite descent, the
recursive expansion returns for every id and every vector, and the `Preparing` traversal
returns for every list of seeds. -/
theorem EnqueueResourceForPackaging_terminates_of_wellFounded (ctx : PackagingContext)
    (hwf : WellFounded ctx.Installs) :
    (∀ resourceID : ResourceID, ∃ depth, ∀ deps, ∃ deps',
      EnqueueResourceForPackaging ctx depth resourceID deps = some deps')
    ∧ ∀ m_mapsToBePackaged : List ResourceID, ∃ depth resolved,
        PackagingTask.ExecuteRange ctx depth m_mapsToBePackaged = some resolved :=
  ⟨fun resourceID => EnqueueResourceForPackaging_returns ctx resourceID (Or.inr (hwf.apply _)),
    fun m_mapsToBePackaged =>
      (PackagingTask_ExecuteRange_returns_iff ctx m_mapsToBePackaged).mpr
        (Or.inr (fun s _ => hwf.apply s))⟩

/-! ### Cycles among finitely many ids -/

/-- An element that is accessible is not related to itself. -/
theorem acc_irrefl {α : Type} {R : α → α → Prop} {a : α} (h : Acc R a) : ¬ R a a := by
  induction h with
  | intro x _ ih => exact fun hxx => ih x hxx hxx

/-- Among finitely many ids: there is no infinite descent from `s` exactly when no cycle is
reached from `s`. -/
theorem acc_iff_no_reachable_cycle {α : Type} (r : α → α → Prop) (ids : List α)
    (hfin : ∀ a b, r b a → b ∈ ids) (s : α) :
    Acc r s ↔ ¬ ∃ a, Relation.ReflTransGen (fun x y => r y x) s a
      ∧ Relation.TransGen (fun x y => r y x) a a := by
  constructor
  · rintro hacc ⟨a, hsa, haa⟩
    have hdown : ∀ b, Relation.ReflTransGen (fun x y => r y x) s b → Acc r b := by
      intro b hsb
      induction hsb with
      | refl => exact hacc
      | tail _ hbc ih => exact ih.inv hbc
    have hcycle : Relation.TransGen r a a := Relation.transGen_swap.mp haa
    exact acc_irrefl (hdown a hsa).transGen hcycle
  · intro hno
    have hsub : {a | Relation.ReflTransGen (fun x y => r y x) s a} ⊆ {x | x ∈ s :: ids} := by
      intro a ha
      rcases Relation.ReflTransGen.cases_tail ha with h | ⟨c, _, hca⟩
      · rw [h]
        exact List.mem_cons_self _ _
      · exact List.mem_cons_of_mem _ (hfin c a hca)
    haveI hfinite : Finite {a // Relation.ReflTransGen (fun x y => r y x) s a} :=
      ((List.finite_toSet (s :: ids)).subset hsub).to_subtype
    haveI hirrefl : IsIrrefl {a // Relation.ReflTransGen (fun x y => r y x) s a}
        (Relation.TransGen (fun x y => r x.1 y.1)) :=
      ⟨fun x hxx => hno ⟨x.1, x.2,
        Relation.transGen_swap.mpr (Relation.TransGen.lift Subtype.val (fun _ _ h => h) hxx)⟩⟩
    have hwf : WellFounded
        (Relation.TransGen
          (fun x y : {a // Relation.ReflTransGen (fun x y => r y x) s a} => r x.1 y.1)) :=
      Finite.wellFounded_of_trans_of_irrefl _
    have hwf' : WellFounded
        (fun x y : {a // Relation.ReflTransGen (fun x y => r y x) s a} => r x.1 y.1) :=
      hwf.mono (fun _ _ h => Relation.TransGen.single h)
    have htransport : ∀ x : {a // Relation.ReflTransGen (fun x y => r y x) s a},
        Acc r x.1 := by
      intro x
      induction hwf'.apply x with
      | intro x _ ih =>
        exact Acc.intro _ (fun b hb => ih ⟨b, x.2.tail hb⟩ hb)
    exact htransport ⟨s, Relation.ReflTransGen.refl⟩

theorem sampleCyclicContext_never_returns :
    ∀ (depth : Nat) (deps : List ResourceID),
      EnqueueResourceForPackaging sampleCyclicContext depth "map:a.map" deps = none
      ∧ EnqueueResourceForPackaging sampleCyclicContext depth "map:b.map" deps = none
  | 0, _ => ⟨rfl, rfl⟩
  | depth + 1, deps => by
    constructor
    · rw [EnqueueResourceForPackaging_succ_some sampleCyclicContext depth "map:a.map" deps
        (fun resourceID =>
          if resourceID = "map:a.map" then ["map:b.map"]
          else if resourceID = "map:b.map" then ["map:a.map"] else []) rfl rfl]
      have hlist : (if ("map:a.map" : ResourceID) = "map:a.map" then ["map:b.map"]
          else if ("map:a.map" : ResourceID) = "map:b.map" then ["map:a.map"] else [])
          = ["map:b.map"] := by decide
      rw [hlist, List.foldlM_cons, (sampleCyclicContext_never_returns depth _).2]
      rfl
    · rw [EnqueueResourceForPackaging_succ_some sampleCyclicContext depth "map:b.map" deps
        (fun resourceID =>
          if resourceID = "map:a.map" then ["map:b.map"]
          else if resourceID = "map:b.map" then ["map:a.map"] else []) rfl rfl]
      have hlist : (if ("map:b.map" : ResourceID) = "map:a.map" then ["map:b.map"]
          else if ("map:b.map" : ResourceID) = "map:b.map" then ["map:a.map"] else [])
          = ["map:a.map"] := by decide
      rw [hlist, List.foldlM_cons, (sampleCyclicContext_never_returns depth _).1]
      rfl

/-- Claim C27 as stated fails: `map:a.map` installs `map:b.map` and `map:b.map` installs
`map:a.map`, both with a compiler.  The expansion of the seed `map:a.map` returns within no
depth bound: the recursion goes from one map to the other without end, since adding an id
that is already in the vector does not stop it. -/
theorem EnqueueResourceForPackaging_cycle_never_returns :
    PackagingTask.ExecuteRange sampleCyclicContext 100 ["map:a.map"] = none
    ∧ ¬ ∃ (depth : Nat) (resolved : List ResourceID),
        PackagingTask.ExecuteRange sampleCyclicContext depth ["map:a.map"] = some resolved := by
  have hnone : ∀ depth, PackagingTask.ExecuteRange sampleCyclicContext depth ["map:a.map"]
      = none := by
    intro depth
    rw [PackagingTask_ExecuteRange_eq, List.foldlM_cons,
      (sampleCyclicContext_never_returns depth _).1]
    rfl
  refine ⟨hnone 100, ?_⟩
  rintro ⟨depth, resolved, h⟩
  rw [hnone depth] at h
  cases h

theorem sampleChainContext_wellFounded : WellFounded sampleChainContext.Installs := by
  apply Subrelation.wf _
    (InvImage.wf (fun r : ResourceID => if r = "map:a.map" then 1 else 0) Nat.lt_wfRel.wf)
  intro b a h
  obtain ⟨_, hb⟩ := h
  show (if b = "map:a.map" then 1 else 0) < (if a = "map:a.map" then 1 else 0)
  have hdeps : sampleChainContext.installDependencies a
      = if a = "map:a.map" then ["map:b.map"] else [] := rfl
  rw [hdeps] at hb
  by_cases ha : a = "map:a.map"
  · rw [if_pos ha] at hb
    rw [List.mem_singleton] at hb
    subst hb
    rw [if_pos ha]
    decide
  · rw [if_neg ha] at hb
    cases hb

/-- Claim C27, amended: let the install dependencies of the resources with a compiler all
lie in a finite set `ids`.  The `Preparing` traversal of a list of seeds returns (within
some depth bound) exactly when the server is exiting or no cycle of install dependencies is
reached from a seed; and the recursive expansion `EnqueueResourceForPackaging` of an id
returns, for every vector, exactly when the server is exiting or no such cycle is reached
from that id.  So on a cycle reached from a seed (`A` installs `B` and `B` installs `A`, or
`A` installs `A`) the recursion does not return unless the server is exiting, and a cycle
that no seed reaches does not matter. -/
theorem EnqueueResourceForPackaging_terminates (ctx : PackagingContext)
    (ids m_mapsToBePackaged : List ResourceID)
    (hfin : ∀ a b, ctx.Installs b a → b ∈ ids) :
    ((∃ depth resolved,
        PackagingTask.ExecuteRange ctx depth m_mapsToBePackaged = some resolved)
      ↔ (ctx.m_isExiting = true ∨ ¬ ctx.ReachableCycle m_mapsToBePackaged))
    ∧ ∀ resourceID : ResourceID,
        (∃ depth, ∀ deps, ∃ deps',
          EnqueueResourceForPackaging ctx depth resourceID deps = some deps')
        ↔ (ctx.m_isExiting = true ∨ ¬ ctx.ReachableCycle [resourceID]) := by
  have hiff : ∀ seeds : List ResourceID,
      (∀ s ∈ seeds, Acc ctx.Installs s) ↔ ¬ ctx.ReachableCycle seeds := by
    intro seeds
    constructor
    · rintro h ⟨s, hs, hc⟩
      exact (acc_iff_no_reachable_cycle ctx.Installs ids hfin s).mp (h s hs) hc
    · intro h s hs
      exact (acc_iff_no_reachable_cycle ctx.Installs ids hfin s).mpr
        (fun hc => h ⟨s, hs, hc⟩)
  constructor
  · rw [PackagingTask_ExecuteRange_returns_iff, hiff]
  · intro resourceID
    rw [← hiff]
    constructor
    · rintro ⟨depth, h⟩
      cases hexit : ctx.m_isExiting with
      | true => exact Or.inl rfl
      | false =>
        right
        intro s hs
        rw [List.mem_singleton] at hs
        subst hs
        obtain ⟨deps', hd⟩ := h []
        exact EnqueueResourceForPackaging_acc ctx hexit depth s [] deps' hd
    · intro h
      exact EnqueueResourceForPackaging_returns ctx resourceID
        (h.elim Or.inl (fun hacc => Or.inr (hacc resourceID (List.mem_singleton_self _))))

/-- In the chain context every install dependency is `map:b.map`. -/
theorem sampleChainContext_finite :
    ∀ a b, sampleChainContext.Installs b a → b ∈ ["map:b.map"] := by
  intro a b h
  obtain ⟨_, hb⟩ := h
  have hdeps : sampleChainContext.installDependencies a
      = if a = "map:a.map" then ["map:b.map"] else [] := rfl
  rw [hdeps] at hb
  by_cases ha : a = "map:a.map"
  · rw [if_pos ha] at hb
    exact hb
  · rw [if_neg ha] at hb
    cases hb

/-- Claim C27, amended, at a concrete input: the chain in which `map:a.map` installs
`map:b.map`, with the seed `map:a.map`. -/
theorem EnqueueResourceForPackaging_terminates_witness :
    ((∃ depth resolved,
        PackagingTask.ExecuteRange sampleChainContext depth ["map:a.map"] = some resolved)
      ↔ (sampleChainContext.m_isExiting = true
          ∨ ¬ sampleChainContext.ReachableCycle ["map:a.map"]))
    ∧ ∀ resourceID : ResourceID,
        (∃ depth, ∀ deps, ∃ deps',
          EnqueueResourceForPackaging sampleChainContext depth resourceID deps = some deps')
        ↔ (sampleChainContext.m_isExiting = true
            ∨ ¬ sampleChainContext.ReachableCycle [resourceID]) :=
  EnqueueResourceForPackaging_terminates sampleChainContext ["map:b.map"] ["map:a.map"]
    sampleChainContext_finite

/-- In the cyclic context the seed `map:a.map` lies on a cycle: it installs `map:b.map`,
which installs `map:a.map`. -/
theorem sampleCyclicContext_reachable_cycle :
    sampleCyclicContext.ReachableCycle ["map:a.map"] :=
  ⟨"map:a.map", List.mem_singleton_self _, "map:a.map", Relation.ReflTransGen.refl,
    Relation.TransGen.tail
      (Relation.TransGen.single
        (show sampleCyclicContext.Installs "map:b.map" "map:a.map" from ⟨rfl, by decide⟩))
      (show sampleCyclicContext.Installs "map:a.map" "map:b.map" from ⟨rfl, by decide⟩)⟩

/-- With the exiting flag set the traversal of the cyclic context returns at once, with the
module resources only. -/
theorem PackagingTask_exiting_example :
    PackagingTask.ExecuteRange { sampleCyclicContext with m_isExiting := true } 1 ["map:a.map"]
      = some [] := by
  decide

/-- The traversal of the chain from the seed `map:a.map`. -/
theorem PackagingTask_chain_example :
    PackagingTask.ExecuteRange sampleChainContext 2 ["map:a.map"]
      = some ["map:a.map", "map:b.map"] := by
  decide

/-! ## What `UpdateCompileDependencyTracking` changes for other resources -/

/-- The swap-removal at position `i` keeps every element other than the removed one. -/
theorem mem_erase_unsorted_iff {α : Type} (v : List α) (i : Nat) (hi : i < v.length) (x : α)
    (hx : x ≠ v[i]) : x ∈ eastl.erase_unsorted v i ↔ x ∈ v := by
  have hsplit : v = v.take i ++ v[i] :: v.drop (i + 1) := by
    rw [List.getElem_cons_drop, List.take_append_drop]
  have hlen : (v.take i).length = i := by
    rw [List.length_take]
    omega
  generalize v[i] = y at hsplit hx
  generalize v.take i = a at hsplit hlen
  generalize v.drop (i + 1) = b at hsplit
  subst hsplit
  subst hlen
  rcases List.eq_nil_or_concat b with hnil | ⟨b', l, hcons⟩
  · subst hnil
    rw [erase_unsorted_last]
    simp [hx]
  · rw [List.concat_eq_append] at hcons
    subst hcons
    rw [erase_unsorted_inner]
    simp only [List.mem_append, List.mem_cons, List.mem_singleton, List.not_mem_nil,
      or_false]
    constructor
    · rintro (h | h | h)
      · exact Or.inl h
      · exact Or.inr (Or.inr (Or.inr h))
      · exact Or.inr (Or.inr (Or.inl h))
    · rintro (h | h | h | h)
      · exact Or.inl h
      · exact absurd h hx
      · exact Or.inr (Or.inr h)
      · exact Or.inr (Or.inl h)

theorem mem_erase_first_unsorted_iff {α : Type} [DecidableEq α] (v : List α) (y x : α)
    (hx : x ≠ y) : x ∈ eastl.erase_first_unsorted v y ↔ x ∈ v := by
  unfold eastl.erase_first_unsorted
  split
  · rename_i hy
    have hlt : v.indexOf y < v.length := List.indexOf_lt_length.mpr hy
    apply mem_erase_unsorted_iff v _ hlt x
    rw [List.getElem_indexOf hlt]
    exact hx
  · rfl

/-- The first loop of `UpdateCompileDependencyTracking` changes the membership of no
resource other than `resourceID` in any record of `by_file`. -/
theorem mem_erase_phase_iff (resourceID x : ResourceID) (hx : x ≠ resourceID) :
    ∀ (previous : List Path) (m : List (Path × List ResourceID)) (f : Path),
      x ∈ (eastl.find
          (previous.foldl
            (fun m filePath =>
              match eastl.find m filePath with
              | some _ =>
                eastl.mutate m filePath (fun l => eastl.erase_first_unsorted l resourceID)
              | none => m)
            m) f).getD []
        ↔ x ∈ (eastl.find m f).getD []
  | [], _, _ => Iff.rfl
  | p :: previous, m, f => by
    rw [List.foldl_cons, mem_erase_phase_iff resourceID x hx previous _ f]
    cases hfind : eastl.find m p with
    | none => rfl
    | some v0 =>
      simp only []
      rw [find_mutate]
      by_cases hpf : p = f
      · subst hpf
        rw [if_pos rfl, hfind]
        simp only [Option.map_some', Option.getD_some]
        exact mem_erase_first_unsorted_iff v0 resourceID x hx
      · rw [if_neg hpf]

/-- For another resource `r'`, `UpdateCompileDependencyTracking` keeps the record
`by_resource[r']`, and keeps the membership of `r'` in `by_file[f]` for every path `f` that
is not among the new dependencies. -/
theorem UpdateCompileDependencyTracking_other_resource (GetFileSystemPath : DataPath → Path)
    (s : DependencyIndex) (resourceID : ResourceID) (compileDependencies : List DataPath)
    (r' : ResourceID) (hne : r' ≠ resourceID) :
    (UpdateCompileDependencyTracking GetFileSystemPath s resourceID
        compileDependencies).dependenciesOf r' = s.dependenciesOf r'
    ∧ ∀ f : Path, f ∉ compileDependencies.map GetFileSystemPath →
        (r' ∈ (UpdateCompileDependencyTracking GetFileSystemPath s resourceID
            compileDependencies).dependentsOf f ↔ r' ∈ s.dependentsOf f) := by
  constructor
  · unfold DependencyIndex.dependenciesOf
    rw [find_UpdateCompileDependencyTracking_byResource,
      if_neg (fun h : resourceID = r' => hne h.symm)]
  · intro f hf
    unfold DependencyIndex.dependentsOf
    have hfind : eastl.find
        (UpdateCompileDependencyTracking GetFileSystemPath s resourceID
          compileDependencies).m_compileDependencyToResourceIDMap f
        = eastl.find
            (match eastl.find s.m_resourceIDToCompileDependencyMap resourceID with
              | some previous =>
                previous.foldl
                  (fun m filePath =>
                    match eastl.find m filePath with
                    | some _ =>
                      eastl.mutate m filePath
                        (fun l => eastl.erase_first_unsorted l resourceID)
                    | none => m)
                  s.m_compileDependencyToResourceIDMap
              | none => s.m_compileDependencyToResourceIDMap) f := by
      unfold UpdateCompileDependencyTracking
      simp only []
      refine ((find_add_phase GetFileSystemPath resourceID compileDependencies _ [] ?_).2
        f).trans ?_
      · simp only []
        rw [find_insert_or_assign, if_pos rfl]
      · rw [if_neg hf]
    rw [hfind]
    cases hprev : eastl.find s.m_resourceIDToCompileDependencyMap resourceID with
    | none => rfl
    | some previous =>
      simp only []
      exact mem_erase_phase_iff resourceID r' hne previous _ f

/-- Claim C28 (fails on the code): `mat:a.mat` has registered the dependency `s.hlsl`; then
`mat:b.mat` registers the same file.  The record `by_resource[mat:a.mat]` is unchanged, but
the membership of `mat:a.mat` in `by_file` of the file changes from true to false, the file
being one of the paths of the new dependency list. -/
theorem UpdateCompileDependencyTracking_changes_other_resource :
    "mat:a.mat" ∈
        (DependencyIndex.afterUpdates sampleGetFileSystemPath
          [("mat:a.mat", ["s.hlsl"])]).dependentsOf "D:/Data/s.hlsl"
    ∧ "mat:a.mat" ∉
        (UpdateCompileDependencyTracking sampleGetFileSystemPath
          (DependencyIndex.afterUpdates sampleGetFileSystemPath [("mat:a.mat", ["s.hlsl"])])
          "mat:b.mat" ["s.hlsl"]).dependentsOf "D:/Data/s.hlsl"
    ∧ (UpdateCompileDependencyTracking sampleGetFileSystemPath
          (DependencyIndex.afterUpdates sampleGetFileSystemPath [("mat:a.mat", ["s.hlsl"])])
          "mat:b.mat" ["s.hlsl"]).dependenciesOf "mat:a.mat"
        = (DependencyIndex.afterUpdates sampleGetFileSystemPath
            [("mat:a.mat", ["s.hlsl"])]).dependenciesOf "mat:a.mat" := by
  decide

end EE
